import Mathlib

/-!
# NodeJs_Mysql: join-graph resolver, query-plan compiler and row hydrator

A shallow embedding of `src/MysqlORM.js` (naming helpers), `src/EntityQueryJoin.js`
(foreign-key resolution and field-map compilation), `src/EntityQuery.js` (query
compilation and row hydration) and the list-building part of the query builder in
`src/node_modules/mysql_connection/MysqlConnection.js`.

Modelling conventions.

* JavaScript strings are `String`; the case helpers work on the character list and
  use the ASCII case mapping (`Char.toUpper`, `Char.toLower`).
* A thrown JavaScript exception is an `Except.error`: `JsError.typeError` for a
  runtime `TypeError` (member access on `undefined`, assignment to a member of a
  primitive), `JsError.error msg` for `throw new Error(msg)`.
* Objects mutated in place become values that are threaded through. The entities
  built by the hydrator form a tree (no object is stored in two places), so writing
  a hydrated child back into its owner's field is the same as mutating it in place.
  Likewise a join node is attached at one place of one tree.
* An entity class is given by its name, its registered columns and its declared class
  fields; a fresh instance holds `undefined` in every field.
* A row holds `null`, integers, strings and booleans; numbers are integers (`NaN` and
  fractions do not occur as keys or cursors).
-/

namespace NodeJsMysql

/-- A thrown JavaScript value. -/
inductive JsError where
  | typeError
  | error (message : String)
  deriving DecidableEq, Repr

/-! ## Naming convention (`src/MysqlORM.js`, lines 66-88) -/

/-- JavaScript `word.split('_')` on a character list. -/
def splitUnderscore : List Char → List (List Char)
  | [] => [[]]
  | c :: cs =>
    if c = '_' then [] :: splitUnderscore cs
    else
      match splitUnderscore cs with
      | [] => [[c]]
      | p :: ps => (c :: p) :: ps

/-- The map callback of `toCamelCase` for an index `i > 0`:
`part[0].toUpperCase() + part.substring(1)`; `part[0]` is `undefined` for an empty part. -/
def capitalizePart : List Char → Except JsError (List Char)
  | [] => .error .typeError
  | c :: cs => .ok (c.toUpper :: cs)

/-- Capitalises every part of a list and concatenates them. -/
def capitalizeParts : List (List Char) → Except JsError (List Char)
  | [] => .ok []
  | p :: ps => do
    let q ← capitalizePart p
    let r ← capitalizeParts ps
    pure (q ++ r)

/-- Character-list form of `toCamelCase`. -/
def toCamelCaseChars (word : List Char) : Except JsError (List Char) :=
  match splitUnderscore word with
  | [] => .ok []
  | p :: ps => do
    let r ← capitalizeParts ps
    pure (p ++ r)

/-- The function `toCamelCase(word)` of `MysqlORM.js`. -/
def toCamelCase (word : String) : Except JsError String :=
  (toCamelCaseChars word.data).map String.mk

/-- The map callback of `toSnakeCase`:
`letter === letter.toUpperCase() ? '_' + letter.toLowerCase() : letter.toLowerCase()`. -/
def snakeLetter (letter : Char) : List Char :=
  if letter = letter.toUpper then ['_', letter.toLower] else [letter.toLower]

/-- Concatenation of the images of the letters (`map(...).join('')`). -/
def snakeLetters : List Char → List Char
  | [] => []
  | c :: cs => snakeLetter c ++ snakeLetters cs

/-- Character-list form of `toSnakeCase`; `word[0]` is `undefined` for the empty word. -/
def toSnakeCaseChars : List Char → Except JsError (List Char)
  | [] => .error .typeError
  | c :: cs => .ok (c.toLower :: snakeLetters cs)

/-- The function `toSnakeCase(word)` of `MysqlORM.js`. -/
def toSnakeCase (word : String) : Except JsError String :=
  (toSnakeCaseChars word.data).map String.mk

/-- JavaScript `word.at(-1)` as a string, `none` for `undefined`. -/
def lastLetter (word : String) : Option String :=
  word.data.getLast?.map String.singleton

/-- The function `toPlural(word)` of `MysqlORM.js`. -/
def toPlural (word : String) : String :=
  if lastLetter word = some "s" then word ++ "es" else word ++ "s"

/-- The function `toSingular(word)` of `MysqlORM.js`. The first test compares one
character with the three-letter string `ses`, as the source does. -/
def toSingular (word : String) : String :=
  if lastLetter word = some "ses" then String.mk (word.data.dropLast.dropLast)
  else if lastLetter word = some "s" then String.mk word.data.dropLast
  else word

/-- The expression `name[0].toLowerCase() + toCamelCase(name.substring(1))`, used for
the default relation field (`EntityQueryJoin.js` line 74) and for the field of a
column (`EntityQueryJoin.js` line 127, `EntityQuery.js` line 168). -/
def lowerFirstCamel (name : String) : Except JsError String :=
  match name.data with
  | [] => .error .typeError
  | c :: cs => do
    let r ← toCamelCaseChars cs
    pure (String.mk (c.toLower :: r))

/-! ## Schema registry and record types -/

/-- A class extending `Entity`, with what `MysqlORM` registered for it.
`columns` is `Object.keys(cls._meta[cls.name].db.fields)`, in order; `fields` are the
class fields the subclass declares (without initialisers), in order. -/
structure EntityClass where
  name : String
  columns : List String
  fields : List String
  deriving DecidableEq, Repr

/-- Names every plain object inherits from `Object.prototype`; `db.fields` is created as
the literal `{}` (`MysqlORM.js` line 48), so reading one of them from it is truthy. -/
def objectPrototypeKeys : List String :=
  ["constructor", "__defineGetter__", "__defineSetter__", "hasOwnProperty",
   "__lookupGetter__", "__lookupSetter__", "isPrototypeOf", "propertyIsEnumerable",
   "toString", "valueOf", "__proto__", "toLocaleString"]

/-- Truthiness of `cls._meta[cls.name].db.fields[key]`: a registered column holds an
object, an inherited member is a function or an object, anything else is `undefined`. -/
def fieldsLookup (cls : EntityClass) (key : String) : Bool :=
  decide (key ∈ cls.columns) || decide (key ∈ objectPrototypeKeys)

/-- The options object of `with`, `as` and `through`; `none` is an absent member. -/
structure JoinOptions where
  key : Option String := none
  parentKey : Option String := none
  field : Option String := none
  condition : Option String := none
  deriving DecidableEq, Repr

/-- Truthiness of an optional string member (`undefined` and the empty string are falsy). -/
def optTruthy : Option String → Bool
  | none => false
  | some s => s != ""

/-! ## Join graph (`src/EntityQueryJoin.js`, `src/Entity.js`) -/

/-- The value of the member `type` that `with` and `as` write on the child. -/
inductive JoinType where
  | withType
  | asType
  deriving DecidableEq, Repr

/-- What can be handed to `with` / `as` as the child:
a bare entity class, an `EntityQueryJoin` (its class, the `type` written on it when it
was attached, and its own `#children`), or an `EntityQueryJoinThrough`. -/
inductive Child where
  | entity (cls : EntityClass)
  | join (type : JoinType) (cls : EntityClass) (children : List (Child × JoinOptions))
  | through (destTable joinTable : EntityClass) (options : JoinOptions)

/-- A root `EntityQueryJoin`: its class and its `#children`. -/
structure EntityQueryJoin where
  entityClass : EntityClass
  children : List (Child × JoinOptions)

/-- The members `join` writes on the child node. -/
structure Resolved where
  entityClass : EntityClass
  field : String
  column : String
  parentColumn : String
  condition : Option String
  deriving DecidableEq, Repr

/-- The message of the error thrown at `EntityQueryJoin.js` line 115. -/
def foreignKeyMessage (parentName childName parentKey joinKey : String) : String :=
  "Unable to map " ++ parentName ++ " to " ++ childName ++ " !\n" ++
  "No foreign key (plural and singular) " ++ parentName ++ " \x27" ++ parentKey ++
  "\x27 or " ++ childName ++ " \x27" ++ joinKey ++ "\x27 was found.\n" ++
  "Define option \x27key\x27 or \x27parentKey\x27 to specify a foreign key name to use"

/-- A destructured member with a default value: the default is evaluated only when the
member is `undefined`. -/
def withDefault (value : Option String) (defaultValue : Except JsError String) :
    Except JsError String :=
  match value with
  | some v => pure v
  | none => defaultValue

/-- Lines 78-117 of `EntityQueryJoin.join`, once `key`, `parentKey` and `field` are
destructured: the two suffixes, then the six tests in source order. -/
def resolveColumns (parent child : EntityClass) (options : JoinOptions)
    (key parentKey field : String) : Except JsError Resolved :=
  let joinKey := key
  let parentSuffix := if optTruthy options.parentKey then "" else "_id"
  let joinSuffix := if optTruthy options.key then "" else "_id"
  let mk (column parentColumn : String) : Resolved :=
    { entityClass := child, field := field, column := column,
      parentColumn := parentColumn, condition := options.condition }
  if fieldsLookup parent (parentKey ++ parentSuffix) then
    pure (mk "id" (parentKey ++ parentSuffix))
  else if fieldsLookup child (joinKey ++ joinSuffix) then
    pure (mk (joinKey ++ joinSuffix) "id")
  else if fieldsLookup parent (toPlural parentKey ++ parentSuffix) then
    pure (mk "id" (toPlural parentKey ++ joinSuffix))
  else if fieldsLookup child (toPlural joinKey ++ joinSuffix) then
    pure (mk (toPlural joinKey ++ joinSuffix) "id")
  else if fieldsLookup parent (toSingular parentKey ++ parentSuffix) then
    pure (mk "id" (toSingular parentKey ++ parentSuffix))
  else if fieldsLookup child (toSingular joinKey ++ joinSuffix) then
    pure (mk (toSingular joinKey ++ joinSuffix) "id")
  else
    throw (.error (foreignKeyMessage parent.name child.name parentKey joinKey))

/-- Lines 71-117 of `EntityQueryJoin.join`, for a parent class and a child class: the
destructuring of the options with its defaults (lines 71-76), then the search. -/
def resolve (parent child : EntityClass) (options : JoinOptions) : Except JsError Resolved := do
  let key ← withDefault options.key (toSnakeCase parent.name)
  let parentKey ← withDefault options.parentKey (toSnakeCase child.name)
  let field ← withDefault options.field (lowerFirstCamel child.name)
  resolveColumns parent child options key parentKey field

/-- The type of a non-scalar field-map entry. -/
inductive MapType where
  | includeType
  | single
  | many
  deriving DecidableEq, Repr

/-- One entry of a field map: `[field, column]` for a column, or
`[field, {entityClass, type, fieldsMap}]` for a relation. -/
inductive FieldEntry where
  | scalar (field column : String)
  | nested (field : String) (entityClass : EntityClass) (type : MapType)
      (fieldsMap : List FieldEntry)

/-- A node stored in `#joins`: the members written by `join` and the node's own
`#joins` after its `getFieldsMap` ran. -/
inductive Join where
  | mk (resolved : Resolved) (joins : List Join)

/-- The entries for the columns of a class (`EntityQueryJoin.js` line 127):
`[key.at(0).toLowerCase() + toCamelCase(key.substring(1)), key]` for every key. -/
def columnsMap : List String → Except JsError (List FieldEntry)
  | [] => .ok []
  | key :: keys => do
    let field ← lowerFirstCamel key
    let rest ← columnsMap keys
    pure (FieldEntry.scalar field key :: rest)

/-- Lines 137-153 of `getFieldsMap`: what is pushed on `fieldsMap` and on `#joins` for
a resolved child, given the child's own field map and `#joins`. `type` is the member
`type` of the node `join` returned (`none` when it was created from a bare class). -/
def pushJoin (type : Option JoinType) (join : Resolved) (childMap : List FieldEntry)
    (childJoins : List Join) : List FieldEntry × Join :=
  if type = some JoinType.asType then
    (childMap ++ [FieldEntry.nested join.field join.entityClass MapType.includeType []],
     Join.mk join childJoins)
  else
    ([FieldEntry.nested join.field join.entityClass
        (if join.column = "id" then MapType.single else MapType.many) childMap],
     Join.mk join childJoins)

mutual
/-- One round of the `forEach` of `getFieldsMap` for the node of class `parent`:
`this.join(child, options)` followed by `join.getFieldsMap()` and the two pushes.
A bare class is wrapped in a fresh node without children and without `type`.
A through-link is expanded as `join` does (lines 64-69): the pivot node
`joinTable.with(destTable, options)` of type `as`, whose single child is the
destination, attached with the through options and the caller's `field`. -/
def compileChild (parent : EntityClass) (options : JoinOptions) :
    Child → Except JsError (List FieldEntry × Join)
  | .entity cls => do
    let join ← resolve parent cls options
    let own ← columnsMap cls.columns
    pure (pushJoin none join own [])
  | .join type cls children => do
    let join ← resolve parent cls options
    let own ← columnsMap cls.columns
    let (sub, joins) ← compileChildren cls children
    pure (pushJoin (some type) join (own ++ sub) joins)
  | .through destTable joinTable throughOptions => do
    let join ← resolve parent joinTable options
    let own ← columnsMap joinTable.columns
    let destJoin ← resolve joinTable destTable { throughOptions with field := options.field }
    let destOwn ← columnsMap destTable.columns
    let (sub, destNode) := pushJoin (some JoinType.withType) destJoin destOwn []
    pure (pushJoin (some JoinType.asType) join (own ++ sub) [destNode])
/-- The `forEach` over `#children` in `getFieldsMap`. -/
def compileChildren (parent : EntityClass) :
    List (Child × JoinOptions) → Except JsError (List FieldEntry × List Join)
  | [] => .ok ([], [])
  | (child, options) :: rest => do
    let (entries, join) ← compileChild parent options child
    let (more, joins) ← compileChildren parent rest
    pure (entries ++ more, join :: joins)
end

/-- The method `getFieldsMap()` on a node with empty `#joins`: the returned field map
and the content of `#joins` afterwards. -/
def getFieldsMap (node : EntityQueryJoin) : Except JsError (List FieldEntry × List Join) := do
  let own ← columnsMap node.entityClass.columns
  let (sub, joins) ← compileChildren node.entityClass node.children
  pure (own ++ sub, joins)

/-- The static `EntityQueryJoin.create(parent, child, options)` for a parent class:
a bare child class is wrapped, then `parent.with(child, options)` writes
`type = 'with'` on the child (kept only by a node) and records it. -/
def EntityQueryJoin.create (parent : EntityClass) (child : Child) (options : JoinOptions) :
    EntityQueryJoin :=
  { entityClass := parent,
    children := [(match child with
      | .entity cls => Child.join JoinType.withType cls []
      | .join _ cls children => Child.join JoinType.withType cls children
      | .through d j o => Child.through d j o, options)] }

/-- The static `EntityQueryJoin.createAs(parent, child, options)` for a parent class. -/
def EntityQueryJoin.createAs (parent : EntityClass) (child : Child) (options : JoinOptions) :
    EntityQueryJoin :=
  { entityClass := parent,
    children := [(match child with
      | .entity cls => Child.join JoinType.asType cls []
      | .join _ cls children => Child.join JoinType.asType cls children
      | .through d j o => Child.through d j o, options)] }

/-- The method `with(child, options)` of a node: `child.type = 'with'` and a push. On a
bare class the member lands on the class and is lost when `join` wraps the class. -/
def EntityQueryJoin.withChild (node : EntityQueryJoin) (child : Child) (options : JoinOptions) :
    EntityQueryJoin :=
  { node with children := node.children ++ [(match child with
      | .join _ cls children => Child.join JoinType.withType cls children
      | other => other, options)] }

/-- The method `as(child, options)` of a node. -/
def EntityQueryJoin.asChild (node : EntityQueryJoin) (child : Child) (options : JoinOptions) :
    EntityQueryJoin :=
  { node with children := node.children ++ [(match child with
      | .join _ cls children => Child.join JoinType.asType cls children
      | other => other, options)] }

/-- The static `Entity.through(entity, options)` called on the class `dest`. -/
def Entity.through (dest joinTable : EntityClass) (options : JoinOptions) : Child :=
  Child.through dest joinTable options

/-! ## Query builder and plan compilation -/

/-- The lists of `QueryBuilder` that the compiler fills. -/
structure QueryBuilder where
  select : List String := []
  from_ : List String := []
  join : List String := []
  orderBy : List String := []
  deriving DecidableEq, Repr

/-- The builder after the constructor of `EntityQuery` (lines 22-25). -/
def EntityQuery.newBuilder (cls : EntityClass) : Except JsError QueryBuilder := do
  let table ← toSnakeCase cls.name
  pure { select := cls.columns.map (fun field => cls.name ++ "." ++ field),
         from_ := [table ++ " AS " ++ cls.name],
         join := [],
         orderBy := [cls.name ++ ".id" ++ " " ++ "ASC"] }

mutual
/-- The method `#recursiveAddJoin(join)`; `parentAlias` is `join.parent.getAlias()`. -/
def recursiveAddJoin (parentAlias : String) (qb : QueryBuilder) : Join → Except JsError QueryBuilder
  | .mk join joins => do
    let additionalCondition :=
      if optTruthy join.condition then "AND " ++ join.condition.getD "" else ""
    let table ← toSnakeCase join.entityClass.name
    let camel ← toCamelCase join.entityClass.name
    let joinAlias := parentAlias ++ "_" ++ camel
    let qb1 : QueryBuilder :=
      { qb with
        join := qb.join ++ ["LEFT JOIN" ++ " " ++ (table ++ " " ++ joinAlias) ++ " ON " ++
          (joinAlias ++ "." ++ join.column ++ " = " ++ parentAlias ++ "." ++ join.parentColumn
            ++ " " ++ additionalCondition)],
        select := qb.select ++ join.entityClass.columns.map (fun column => joinAlias ++ "." ++ column),
        orderBy := qb.orderBy ++ [joinAlias ++ ".id" ++ " " ++ "ASC"] }
    recursiveAddJoins joinAlias qb1 joins
/-- The loop `getJoins().forEach(join => this.#recursiveAddJoin(join))`. -/
def recursiveAddJoins (parentAlias : String) (qb : QueryBuilder) :
    List Join → Except JsError QueryBuilder
  | [] => .ok qb
  | j :: js => do
    let qb1 ← recursiveAddJoin parentAlias qb j
    recursiveAddJoins parentAlias qb1 js
end

/-- Lines 167-175 of `execute` for a query whose `#join` is set, on the builder the
constructor made: the field map and the builder handed to the storage. -/
def compilePlan (root : EntityQueryJoin) : Except JsError (List FieldEntry × QueryBuilder) := do
  let qb ← EntityQuery.newBuilder root.entityClass
  let (fieldMaps, joins) ← getFieldsMap root
  let qb1 ← recursiveAddJoins root.entityClass.name qb joins
  pure (fieldMaps, qb1)

mutual
/-- The raw column names an entry contributes: a column entry its column, an include
marker nothing, a `single` / `many` entry the columns of its sub-map, depth first. -/
def FieldEntry.scalarColumns : FieldEntry → List String
  | .scalar _ column => [column]
  | .nested _ _ .includeType _ => []
  | .nested _ _ _ sub => scalarColumns sub
/-- The raw column names of a field map, depth first. -/
def scalarColumns : List FieldEntry → List String
  | [] => []
  | entry :: rest => entry.scalarColumns ++ scalarColumns rest
end

/-! ## Values, entities and rows -/

/-- A value of a result-row column. -/
inductive Cell where
  | null
  | num (n : Int)
  | str (s : String)
  | bool (b : Bool)
  deriving DecidableEq, Repr

/-- A JavaScript value as the hydrator meets it: a primitive, an instance of an entity
class with its own properties in order, or an array. -/
inductive Val where
  | undefined
  | null
  | num (n : Int)
  | str (s : String)
  | bool (b : Bool)
  | entity (cls : EntityClass) (props : List (String × Val))
  | array (items : List Val)

/-- A column value as a JavaScript value. -/
def Cell.toVal : Cell → Val
  | .null => Val.null
  | .num n => Val.num n
  | .str s => Val.str s
  | .bool b => Val.bool b

/-- The read `data[dataIndex]`: `undefined` outside the row. -/
def rowAt (data : List Cell) (dataIndex : Int) : Val :=
  if dataIndex < 0 then Val.undefined
  else match data[dataIndex.toNat]? with
    | some c => c.toVal
    | none => Val.undefined

/-- JavaScript truthiness. -/
def truthy : Val → Bool
  | .undefined => false
  | .null => false
  | .num n => n != 0
  | .str s => s != ""
  | .bool b => b
  | .entity _ _ => true
  | .array _ => true

/-- The comparison `a === b` where one side is a row read: primitives compare by value,
an object is never identical to a row value. -/
def strictEq : Val → Val → Bool
  | .undefined, .undefined => true
  | .null, .null => true
  | .num a, .num b => a == b
  | .str a, .str b => a == b
  | .bool a, .bool b => a == b
  | _, _ => false

/-- The test `v instanceof Array`. -/
def isArray : Val → Bool
  | .array _ => true
  | _ => false

/-- Keeps the first occurrence of every key (own properties are created once). -/
def uniqueKeys : List String → List String
  | [] => []
  | k :: ks => k :: (uniqueKeys ks).filter (fun x => x != k)

/-- The own properties of a fresh instance: the field `id` of `Entity`, then the declared
class fields, all `undefined`. -/
def newProps (cls : EntityClass) : List (String × Val) :=
  (uniqueKeys ("id" :: cls.fields)).map (fun k => (k, Val.undefined))

/-- The expression `new cls()`. -/
def newEntity (cls : EntityClass) : Val :=
  Val.entity cls (newProps cls)

/-- `Object.keys(v)` as far as field names are concerned; a `TypeError` on `undefined`
and `null`. The own keys of a string or an array are decimal indices, which are not
field names, so only an entity has own keys here. -/
def ownKeys : Val → Except JsError (List String)
  | .undefined => .error .typeError
  | .null => .error .typeError
  | .entity _ props => .ok (props.map Prod.fst)
  | _ => .ok []

/-- The value stored under a key in a property list, `undefined` when absent. -/
def lookupProp (field : String) : List (String × Val) → Val
  | [] => Val.undefined
  | (k, v) :: rest => if k = field then v else lookupProp field rest

/-- The read `v[field]` of an own member; a `TypeError` on `undefined` and `null`.
Inherited members are not modelled: `#hydrate` uses such a read only together with
the test `Object.keys(v).includes(field)`, and `.id` is not inherited. -/
def getProp (v : Val) (field : String) : Except JsError Val :=
  match v with
  | .undefined => .error .typeError
  | .null => .error .typeError
  | .entity _ props => .ok (lookupProp field props)
  | _ => .ok Val.undefined

/-- Replaces the value under an existing key, or appends the key. -/
def assignProp (field : String) (x : Val) : List (String × Val) → List (String × Val)
  | [] => [(field, x)]
  | (k, v) :: rest => if k = field then (k, x) :: rest else (k, v) :: assignProp field x rest

/-- The assignment `v[field] = x` to a field of an entity. Module code is strict, so
assigning to a member of a primitive throws a `TypeError`; `#hydrate` assigns only
after `Object.keys(v).includes(field)` held, hence only to an entity. -/
def setProp (v : Val) (field : String) (x : Val) : Except JsError Val :=
  match v with
  | .entity cls props => .ok (Val.entity cls (assignProp field x props))
  | _ => .error .typeError

/-- The expression `v.constructor.name`. -/
def constructorName : Val → Except JsError String
  | .undefined => .error .typeError
  | .null => .error .typeError
  | .num _ => .ok "Number"
  | .str _ => .ok "String"
  | .bool _ => .ok "Boolean"
  | .entity cls _ => .ok cls.name
  | .array _ => .ok "Array"

/-- The message of the error thrown at `EntityQuery.js` line 229. -/
def fieldMessage (ownerName boundName field : String) : String :=
  "Unable to map " ++ ownerName ++ " to " ++ boundName ++ " !\n" ++
  "No field with name \x27" ++ field ++ "\x27 was found in class " ++ ownerName ++ ".\n" ++
  "Define option \x27field\x27 to specify a field name to use"

/-- Lines 223-230 of `#hydrate`: the field a relation is stored under. -/
def resolveField (entity : Val) (field : String) (boundEntityClass : EntityClass) :
    Except JsError String := do
  let keys ← ownKeys entity
  if keys.contains field then pure field
  else if keys.contains (toPlural field) then pure (toPlural field)
  else if keys.contains (toSingular field) then pure (toSingular field)
  else
    let owner ← constructorName entity
    throw (.error (fieldMessage owner boundEntityClass.name field))

/-! ## Row hydration (`src/EntityQuery.js`, lines 179-189 and 208-277) -/

/-- The test of line 244, `entity[field].length > 0 && entity[field].at(-1).id === value`
on the array `items`: when it holds, the value `entity[field].at(-1).id` that line 245
assigns to `boundEntity`; `none` when it fails. -/
def reusedLast (items : List Val) (value : Val) : Except JsError (Option Val) :=
  match items.getLast? with
  | none => pure none
  | some lastItem => do
    let lastId ← getProp lastItem "id"
    pure (if strictEq lastId value then some lastId else none)

mutual
/-- One round of the `forEach` of `#hydrate`, for the entry `[field, map]`: the entity
after the round and `dataIndex` after the final `dataIndex++`. The bound entity is
hydrated first and then stored, which on values is the in-place mutation of the
source. -/
def hydrateEntry (data : List Cell) (entity : Val) (dataIndex : Int) :
    FieldEntry → Except JsError (Val × Int)
  | .scalar field _ => do
    let current ← getProp entity field
    let keys ← ownKeys entity
    if !truthy current && keys.contains field then
      let entity1 ← setProp entity field (rowAt data dataIndex)
      pure (entity1, dataIndex + 1)
    else
      pure (entity, dataIndex + 1)
  | .nested _ _ .includeType _ => pure (entity, dataIndex - 1 + 1)
  | .nested field0 boundEntityClass type fieldsMap => do
    let field ← resolveField entity field0 boundEntityClass
    if strictEq (rowAt data dataIndex) Val.null then
      let current ← getProp entity field
      let entity1 ← setProp entity field
        (if !isArray current && type = MapType.single then Val.null else Val.array [])
      let (_, last) ← hydrate data (newEntity boundEntityClass) dataIndex fieldsMap
      pure (entity1, last + 1)
    else
      let current ← getProp entity field
      if truthy current then
        match current with
        | .array items =>
          let reused ← reusedLast items (rowAt data dataIndex)
          match reused with
          | some boundEntity =>
            let (_, last) ← hydrate data boundEntity dataIndex fieldsMap
            pure (entity, last + 1)
          | none =>
            let (boundEntity, last) ← hydrate data (newEntity boundEntityClass) dataIndex fieldsMap
            let entity1 ← setProp entity field (Val.array (items ++ [boundEntity]))
            pure (entity1, last + 1)
        | _ =>
          let currentId ← getProp current "id"
          if strictEq currentId (rowAt data dataIndex) then
            let (boundEntity, last) ← hydrate data current dataIndex fieldsMap
            let entity1 ← setProp entity field boundEntity
            pure (entity1, last + 1)
          else
            let (boundEntity, last) ← hydrate data (newEntity boundEntityClass) dataIndex fieldsMap
            let entity1 ← setProp entity field (Val.array [current, boundEntity])
            pure (entity1, last + 1)
      else
        let (boundEntity, last) ← hydrate data (newEntity boundEntityClass) dataIndex fieldsMap
        let entity1 ← setProp entity field
          (if type = MapType.single then boundEntity else Val.array [boundEntity])
        pure (entity1, last + 1)
/-- The method `#hydrate(entity, data, fieldsMap, dataIndex)`: the entity after the
call and the returned `dataIndex - 1`. -/
def hydrate (data : List Cell) (entity : Val) (dataIndex : Int) :
    List FieldEntry → Except JsError (Val × Int)
  | [] => .ok (entity, dataIndex - 1)
  | entry :: rest => do
    let (entity1, next) ← hydrateEntry data entity dataIndex entry
    hydrate data entity1 next rest
end

/-- The loop `data.forEach(rowData => ...)` of `execute` (lines 179-189). `response` holds
the roots pushed before the current one; `entity` is the variable `entity` (`none` while
it is `undefined`), which is the last element pushed on the JavaScript array. The result
is the array `response` after the loop. -/
def hydrateRows (entityClass : EntityClass) (fieldMaps : List FieldEntry) :
    List Val → Option Val → List (List Cell) → Except JsError (List Val)
  | response, entity, [] => .ok (response ++ entity.toList)
  | response, none, rowData :: rows =>
    if !strictEq Val.undefined (rowAt rowData 0) then do
      let (entity1, _) ← hydrate rowData (newEntity entityClass) 0 fieldMaps
      hydrateRows entityClass fieldMaps response (some entity1) rows
    else do
      let _ ← hydrate rowData Val.undefined 0 fieldMaps
      hydrateRows entityClass fieldMaps response none rows
  | response, some entity, rowData :: rows => do
    let entityId ← getProp entity "id"
    if !strictEq entityId (rowAt rowData 0) then
      let (entity1, _) ← hydrate rowData (newEntity entityClass) 0 fieldMaps
      hydrateRows entityClass fieldMaps (response ++ [entity]) (some entity1) rows
    else
      let (entity1, _) ← hydrate rowData entity 0 fieldMaps
      hydrateRows entityClass fieldMaps response (some entity1) rows

/-- The method `execute()` with result type `array`, for a query whose `#join` is `root`
(a query without relations is a root without children: line 168 builds the same map as
`getFieldsMap`). `storage` is the round trip `await this.#queryBuilder`, which yields
the rows or throws. -/
def execute (root : EntityQueryJoin)
    (storage : QueryBuilder → Except JsError (List (List Cell))) : Except JsError (List Val) := do
  let (fieldMaps, qb) ← compilePlan root
  let data ← storage qb
  hydrateRows root.entityClass fieldMaps [] none data

mutual
/-- The number of columns an entry declares: one for a column entry, none for an include
marker, those of the sub-map for a `single` / `many` entry. -/
def FieldEntry.columnCount : FieldEntry → Nat
  | .scalar _ _ => 1
  | .nested _ _ .includeType _ => 0
  | .nested _ _ _ sub => columnCount sub
/-- The number of columns a field map declares. -/
def columnCount : List FieldEntry → Nat
  | [] => 0
  | entry :: rest => entry.columnCount + columnCount rest
end

/-! ## Auxiliary notions used to state the properties -/

mutual
/-- The columns selected for a resolved join and its descendants, in the order of
`#recursiveAddJoin`: the node's columns, then those of its `#joins`. -/
def Join.selectedColumns : Join → List String
  | .mk join joins => join.entityClass.columns ++ joinsSelectedColumns joins
/-- The columns selected for a list of resolved joins. -/
def joinsSelectedColumns : List Join → List String
  | [] => []
  | j :: js => j.selectedColumns ++ joinsSelectedColumns js
end

/-- The side of a relation that owns a candidate foreign-key column. -/
inductive Side where
  | parentSide
  | childSide
  deriving DecidableEq, Repr

/-- The candidate foreign-key columns in the priority order of the specification, for
the snake-cased names of the parent and of the child and no key override. -/
def candidates (parentSnake childSnake : String) : List (Side × String) :=
  [(Side.parentSide, childSnake ++ "_id"),
   (Side.childSide, parentSnake ++ "_id"),
   (Side.parentSide, toPlural childSnake ++ "_id"),
   (Side.childSide, toPlural parentSnake ++ "_id"),
   (Side.parentSide, toSingular childSnake ++ "_id"),
   (Side.childSide, toSingular parentSnake ++ "_id")]

/-- A candidate exists when its column is a registered column of the side's schema. -/
def candidateExists (parent child : EntityClass) : Side × String → Bool
  | (Side.parentSide, column) => decide (column ∈ parent.columns)
  | (Side.childSide, column) => decide (column ∈ child.columns)

/-- The pairing `(column, parentColumn)` a matched candidate stands for. -/
def pairing : Side × String → String × String
  | (Side.parentSide, column) => ("id", column)
  | (Side.childSide, column) => (column, "id")

/-- The entries `[field, column]` for a list of field / column pairs. -/
def scalarEntries (pairs : List (String × String)) : List FieldEntry :=
  pairs.map (fun p => FieldEntry.scalar p.1 p.2)

/-! ## Fixtures -/

/-- A record type `User` with a one-to-many relation to `Post`. -/
def userClass : EntityClass :=
  { name := "User", columns := ["id", "name"], fields := ["name", "posts"] }

/-- A record type `Post` owned by a `User`, with a one-to-many relation to `Comment`. -/
def postClass : EntityClass :=
  { name := "Post", columns := ["id", "user_id"], fields := ["userId", "comments"] }

/-- A record type `Comment` owned by a `Post`. -/
def commentClass : EntityClass :=
  { name := "Comment", columns := ["id", "post_id"], fields := ["postId"] }

/-- A record type `Order` that references one `Address`. -/
def orderClass : EntityClass :=
  { name := "Order", columns := ["id", "address_id"], fields := ["addressId", "address", "street"] }

/-- A record type `Address`. -/
def addressClass : EntityClass :=
  { name := "Address", columns := ["id", "street"], fields := ["street"] }

/-- The tree of `User.with(Post.with(Comment))` extended by
`.with(Address.through(Order), {key: 'id', parentKey: 'id'})`: a nested relation with a
grandchild, followed by a through-link. -/
def sampleTree : EntityQueryJoin :=
  (EntityQueryJoin.create userClass
      (Child.join JoinType.withType postClass [(Child.entity commentClass, {})]) {}).withChild
    (Entity.through addressClass orderClass {}) { parentKey := some "id", key := some "id" }


/-- The tree of `User.with(Post.with(Comment))`. -/
def userPostCommentTree : EntityQueryJoin :=
  EntityQueryJoin.create userClass
    (Child.join JoinType.withType postClass
      (EntityQueryJoin.create postClass (Child.entity commentClass) {}).children) {}

/-- The field map `getFieldsMap` returns for `User.with(Post)`. -/
def userPostMap : List FieldEntry :=
  [FieldEntry.scalar "id" "id", FieldEntry.scalar "name" "name",
   FieldEntry.nested "post" postClass MapType.many
     [FieldEntry.scalar "id" "id", FieldEntry.scalar "userId" "user_id"]]

/-- The field map `getFieldsMap` returns for `Order.with(Address)`. -/
def orderAddressMap : List FieldEntry :=
  [FieldEntry.scalar "id" "id", FieldEntry.scalar "addressId" "address_id",
   FieldEntry.nested "address" addressClass MapType.single
     [FieldEntry.scalar "id" "id", FieldEntry.scalar "street" "street"]]

/-- A record type `Author` with one-to-many relations to `Book` and to `Award`. -/
def authorClass : EntityClass :=
  { name := "Author", columns := ["id", "name"], fields := ["name", "books", "awards"] }

/-- A record type `Book` owned by an `Author`. -/
def bookClass : EntityClass :=
  { name := "Book", columns := ["id", "author_id"], fields := ["authorId"] }

/-- A record type `Award` owned by an `Author`. -/
def awardClass : EntityClass :=
  { name := "Award", columns := ["id", "author_id"], fields := ["authorId"] }

/-- The tree of `Author.with(Book).with(Award)`: two sibling one-to-many relations. -/
def authorBooksAwardsTree : EntityQueryJoin :=
  (EntityQueryJoin.create authorClass (Child.entity bookClass) {}).withChild
    (Child.entity awardClass) {}

/-- The rows of author 1 with the books 10, 11 and the awards 100, 101: the cross product
of the two joins, in the order of the compiled `ORDER BY`. -/
def authorCrossProductRows : List (List Cell) :=
  [[Cell.num 1, Cell.str "amy", Cell.num 10, Cell.num 1, Cell.num 100, Cell.num 1],
   [Cell.num 1, Cell.str "amy", Cell.num 10, Cell.num 1, Cell.num 101, Cell.num 1],
   [Cell.num 1, Cell.str "amy", Cell.num 11, Cell.num 1, Cell.num 100, Cell.num 1],
   [Cell.num 1, Cell.str "amy", Cell.num 11, Cell.num 1, Cell.num 101, Cell.num 1]]

/-- A record type `User` that declares both fields `address` and `addresses`. -/
def residentClass : EntityClass :=
  { name := "User", columns := ["id"], fields := ["address", "addresses"] }

/-- A record type `Address` owned by a `User` (it holds `user_id`). -/
def homeClass : EntityClass :=
  { name := "Address", columns := ["id", "user_id"], fields := ["userId"] }

/-- A record type `User` that declares no field for its addresses. -/
def lonerClass : EntityClass :=
  { name := "User", columns := ["id"], fields := [] }

/-- The test `text.startsWith(part)` on character lists. -/
def startsWithChars : List Char → List Char → Bool
  | [], _ => true
  | _ :: _, [] => false
  | p :: ps, c :: cs => p == c && startsWithChars ps cs

/-- The test `text.includes(part)` on character lists. -/
def includesChars (part : List Char) : List Char → Bool
  | [] => startsWithChars part []
  | c :: cs => startsWithChars part (c :: cs) || includesChars part cs

/-- The JavaScript test `text.includes(part)`. -/
def includes (text part : String) : Bool :=
  includesChars part.data text.data

/-- A non-root node of a resolved join tree, with what its clauses are made of. -/
structure JoinNode where
  table : String
  joinAlias : String
  parentAlias : String
  column : String
  parentColumn : String
  condition : Option String
  deriving DecidableEq, Repr

mutual
/-- The non-root nodes below a parent of alias `parentAlias`, depth first, a node before
its descendants; a node's alias is `getAlias()`: the parent's alias, `_`, and the
camel-cased type name. -/
def Join.preorder (parentAlias : String) : Join → Except JsError (List JoinNode)
  | .mk join joins => do
    let table ← toSnakeCase join.entityClass.name
    let camel ← toCamelCase join.entityClass.name
    let rest ← joinsPreorder (parentAlias ++ "_" ++ camel) joins
    pure ({ table := table, joinAlias := parentAlias ++ "_" ++ camel,
            parentAlias := parentAlias, column := join.column,
            parentColumn := join.parentColumn, condition := join.condition } :: rest)
/-- The non-root nodes of a list of sibling joins, depth first. -/
def joinsPreorder (parentAlias : String) : List Join → Except JsError (List JoinNode)
  | [] => .ok []
  | j :: js => do
    let first ← j.preorder parentAlias
    let rest ← joinsPreorder parentAlias js
    pure (first ++ rest)
end

/-- The join clause the code emits for a node: `LEFT JOIN <table> <alias> ON
<alias>.<column> = <parentAlias>.<parentColumn> `, followed by `AND <condition>` when the
condition is truthy. -/
def joinClause (node : JoinNode) : String :=
  "LEFT JOIN" ++ " " ++ (node.table ++ " " ++ node.joinAlias) ++ " ON " ++
    (node.joinAlias ++ "." ++ node.column ++ " = " ++ node.parentAlias ++ "." ++
      node.parentColumn ++ " " ++
      (if optTruthy node.condition then "AND " ++ node.condition.getD "" else ""))

/-- The order-by entry of a node: `<alias>.id ASC`. -/
def orderClause (node : JoinNode) : String :=
  node.joinAlias ++ ".id" ++ " " ++ "ASC"

/-- The tree of `User.with(Post, {condition: 'User_Post.id > 0'})`. -/
def userPostConditionTree : EntityQueryJoin :=
  EntityQueryJoin.create userClass (Child.entity postClass)
    { condition := some "User_Post.id > 0" }

mutual
/-- Whether a value is an instance of `cls` or holds one at any depth. -/
def Val.holdsInstance (cls : EntityClass) : Val → Bool
  | .entity c props => c == cls || propsHoldInstance cls props
  | .array items => itemsHoldInstance cls items
  | _ => false
/-- Whether a property list holds an instance of `cls` at any depth. -/
def propsHoldInstance (cls : EntityClass) : List (String × Val) → Bool
  | [] => false
  | (_, v) :: rest => v.holdsInstance cls || propsHoldInstance cls rest
/-- Whether a list of values holds an instance of `cls` at any depth. -/
def itemsHoldInstance (cls : EntityClass) : List Val → Bool
  | [] => false
  | v :: rest => v.holdsInstance cls || itemsHoldInstance cls rest
end

mutual
/-- Whether an entry is a `single` / `many` entry for `cls`, or has one in its sub-map. -/
def FieldEntry.bindsClass (cls : EntityClass) : FieldEntry → Bool
  | .scalar _ _ => false
  | .nested _ _ .includeType _ => false
  | .nested _ c _ sub => c == cls || bindsClass cls sub
/-- Whether a field map has a `single` / `many` entry for `cls` at any depth. -/
def bindsClass (cls : EntityClass) : List FieldEntry → Bool
  | [] => false
  | entry :: rest => entry.bindsClass cls || bindsClass cls rest
end

/-- A record type `Student` in a many-to-many relation with `Course`. -/
def studentClass : EntityClass :=
  { name := "Student", columns := ["id", "name"], fields := ["name", "course"] }

/-- The pivot `Enrollment` of the relation between `Student` and `Course`. -/
def enrollmentClass : EntityClass :=
  { name := "Enrollment", columns := ["id", "student_id", "course_id"],
    fields := ["studentId", "courseId"] }

/-- A record type `Course`. -/
def courseClass : EntityClass :=
  { name := "Course", columns := ["id", "title"], fields := ["title"] }

/-- The method `getAlias()` of a node, given the class names on its parent chain: the
node's own class name first, then its parent's, and so on, the root excluded.
`rootName` is the class name of the root node, which has no parent. -/
def getAlias (rootName : String) : List String → Except JsError String
  | [] => .ok rootName
  | name :: parents => do
    let parentAlias ← getAlias rootName parents
    let camel ← toCamelCase name
    pure (parentAlias ++ "_" ++ camel)

/-- The camel-cased class names of a parent chain. -/
def camelChain : List String → Except JsError (List String)
  | [] => .ok []
  | name :: parents => do
    let rest ← camelChain parents
    let camel ← toCamelCase name
    pure (camel :: rest)

/-- A record type `Message` that references a `User` twice. -/
def messageClass : EntityClass :=
  { name := "Message", columns := ["id", "sender_id", "recipient_id"],
    fields := ["senderId", "recipientId", "sender", "recipient"] }

/-- The tree of `Message.with(User, {parentKey: 'sender_id', field: 'sender'})` extended by
`.with(User, {parentKey: 'recipient_id', field: 'recipient'})`. -/
def messageUsersTree : EntityQueryJoin :=
  (EntityQueryJoin.create messageClass (Child.entity userClass)
      { parentKey := some "sender_id", field := some "sender" }).withChild
    (Child.entity userClass) { parentKey := some "recipient_id", field := some "recipient" }

/-- The characters that a chain of camel-cased names adds to the root's alias: one
`_` and the name for every node of the chain, the outermost node first. -/
def aliasSuffix : List String → List Char
  | [] => []
  | camel :: rest => aliasSuffix rest ++ '_' :: camel.data

/-- The prefix `_w1_w2...` that `join('_')` puts after the first element. -/
def prefixUnderscore : List (List Char) → List Char
  | [] => []
  | w :: rest => '_' :: w ++ prefixUnderscore rest

/-- JavaScript `words.join('_')` on character lists. -/
def joinUnderscore : List (List Char) → List Char
  | [] => []
  | w :: rest => w ++ prefixUnderscore rest

/-- A word of a snake_case identifier: non-empty, of lowercase ASCII letters and digits. -/
def snakeWord (w : List Char) : Bool :=
  !w.isEmpty && w.all (fun c => c.isLower || c.isDigit)

/-- A word of lowercase ASCII letters in which only the first character may be a digit. -/
def plainWord : List Char → Bool
  | [] => false
  | c :: cs => (c.isLower || c.isDigit) && cs.all Char.isLower

/-- A lower-camel identifier of ASCII letters and digits: non-empty, the first character
not upper case. No character is an underscore, since none is a letter or a digit. -/
def lowerCamelWord : List Char → Bool
  | [] => false
  | c :: cs => !c.isUpper && (c :: cs).all Char.isAlphanum

/-- A record type `User` whose foreign key to `Address` is the column `homes`. -/
def tenantClass : EntityClass :=
  { name := "User", columns := ["id", "name", "homes"], fields := ["name", "address"] }

/-- The property names a fresh instance of a class has: `id` of `Entity`, then the
declared class fields. -/
def declaredKeys (cls : EntityClass) : List String :=
  uniqueKeys ("id" :: cls.fields)

mutual
/-- Whether every entity inside a value, at any depth, has exactly the property names
its class declares. -/
def Val.keysDeclared : Val → Bool
  | .entity cls props =>
    decide (props.map Prod.fst = declaredKeys cls) && propsKeysDeclared props
  | .array items => itemsKeysDeclared items
  | _ => true
/-- The same for the values of a property list. -/
def propsKeysDeclared : List (String × Val) → Bool
  | [] => true
  | (_, v) :: rest => v.keysDeclared && propsKeysDeclared rest
/-- The same for the elements of an array. -/
def itemsKeysDeclared : List Val → Bool
  | [] => true
  | v :: rest => v.keysDeclared && itemsKeysDeclared rest
end

/-- The tree of `Student.with(Course.through(Enrollment))`. -/
def studentCoursesTree : EntityQueryJoin :=
  EntityQueryJoin.create studentClass (Entity.through courseClass enrollmentClass {}) {}

/-- Rows of `Student.with(Course.through(Enrollment))`: student 1 with the course 7,
student 2 without enrollment, student 3 with the courses 7 and 8. -/
def studentCoursesRows : List (List Cell) :=
  [[Cell.num 1, Cell.str "amy", Cell.num 50, Cell.num 1, Cell.num 7, Cell.num 7, Cell.str "math"],
   [Cell.num 2, Cell.str "bob", Cell.null, Cell.null, Cell.null, Cell.null, Cell.null],
   [Cell.num 3, Cell.str "cat", Cell.num 51, Cell.num 3, Cell.num 7, Cell.num 7, Cell.str "math"],
   [Cell.num 3, Cell.str "cat", Cell.num 52, Cell.num 3, Cell.num 8, Cell.num 8, Cell.str "art"]]

/-! ## Node objects that persist between calls (`#children`, `#joins`) -/

/-- A child as `#children` keeps it between calls of `getFieldsMap`: a bare class, a node
object with its own `#children` and `#joins`, or a through-link. An element of `#joins`
is a reference to a node object; it is kept as the node's members and `#joins` as they
are now, together with its origin: `some i` for the node object kept at `#children[i]`,
`none` for a node that `join` created during the call (from a bare class or a
through-link) and that nothing else refers to. -/
inductive ChildState where
  | entity (cls : EntityClass)
  | node (type : JoinType) (cls : EntityClass) (children : List (ChildState × JoinOptions))
      (joins : List (Option Nat × Join))
  | through (destTable joinTable : EntityClass) (options : JoinOptions)

/-- An `EntityQueryJoin` object between calls: its class, `#children` and `#joins`. -/
structure NodeState where
  entityClass : EntityClass
  children : List (ChildState × JoinOptions)
  joins : List (Option Nat × Join)

/-- The elements of `#joins` that refer to the node object kept at `#children[index]`
show the members and the `#joins` that object has now. -/
def refreshJoins (index : Nat) (node : Join) (joins : List (Option Nat × Join)) :
    List (Option Nat × Join) :=
  joins.map (fun entry => if entry.1 = some index then (entry.1, node) else entry)

/-- The statement `this.#joins.push(join)` (line 154), after the call changed the node
object `join` refers to. -/
def pushReference (pushed : Option Nat × Join) (joins : List (Option Nat × Join)) :
    List (Option Nat × Join) :=
  (match pushed.1 with
    | some index => refreshJoins index pushed.2 joins
    | none => joins) ++ [pushed]

mutual
/-- One round of the `forEach` of `getFieldsMap` on node objects that persist: what is
pushed on `fieldsMap`, the reference pushed on `#joins`, and the child afterwards. A
node object kept in `#children` runs its own `getFieldsMap` on the `#joins` it already
has; a bare class and a through-link are wrapped in fresh nodes at every call. -/
def compileChildState (parent : EntityClass) (options : JoinOptions) (index : Nat) :
    ChildState → Except JsError (List FieldEntry × (Option Nat × Join) × ChildState)
  | .entity cls => do
    let join ← resolve parent cls options
    let own ← columnsMap cls.columns
    let (entries, node) := pushJoin none join own []
    pure (entries, (none, node), .entity cls)
  | .node type cls children joins => do
    let join ← resolve parent cls options
    let own ← columnsMap cls.columns
    let (sub, children1, joins1) ← compileChildrenState cls 0 children joins
    let (entries, node) := pushJoin (some type) join (own ++ sub) (joins1.map Prod.snd)
    pure (entries, (some index, node), .node type cls children1 joins1)
  | .through destTable joinTable throughOptions => do
    let join ← resolve parent joinTable options
    let own ← columnsMap joinTable.columns
    let destJoin ← resolve joinTable destTable { throughOptions with field := options.field }
    let destOwn ← columnsMap destTable.columns
    let (sub, destNode) := pushJoin (some JoinType.withType) destJoin destOwn []
    let (entries, node) := pushJoin (some JoinType.asType) join (own ++ sub) [destNode]
    pure (entries, (none, node), .through destTable joinTable throughOptions)
/-- The `forEach` over `#children` in `getFieldsMap`, from the child of index `index` on,
with the `#joins` the node has so far. -/
def compileChildrenState (parent : EntityClass) (index : Nat) :
    List (ChildState × JoinOptions) → List (Option Nat × Join) →
      Except JsError (List FieldEntry × List (ChildState × JoinOptions) ×
        List (Option Nat × Join))
  | [], joins => .ok ([], [], joins)
  | (child, options) :: rest, joins => do
    let (entries, pushed, child1) ← compileChildState parent options index child
    let (more, rest1, joins2) ←
      compileChildrenState parent (index + 1) rest (pushReference pushed joins)
    pure (entries ++ more, (child1, options) :: rest1, joins2)
end

/-- The method `getJoins()`. -/
def NodeState.getJoins (node : NodeState) : List Join :=
  node.joins.map Prod.snd

/-- The method `getFieldsMap()` on a node object in any state: the returned field map and
the node afterwards. `#joins` is never emptied. -/
def NodeState.getFieldsMap (node : NodeState) : Except JsError (List FieldEntry × NodeState) := do
  let own ← columnsMap node.entityClass.columns
  let (sub, children1, joins1) ←
    compileChildrenState node.entityClass 0 node.children node.joins
  pure (own ++ sub, { node with children := children1, joins := joins1 })

mutual
/-- A child of a freshly built tree as a persistent object: every node has empty `#joins`. -/
def Child.initialState : Child → ChildState
  | .entity cls => .entity cls
  | .join type cls children => .node type cls (childrenInitialState children) []
  | .through destTable joinTable options => .through destTable joinTable options
/-- The children of a freshly built tree as persistent objects. -/
def childrenInitialState : List (Child × JoinOptions) → List (ChildState × JoinOptions)
  | [] => []
  | (child, options) :: rest => (child.initialState, options) :: childrenInitialState rest
end

/-- A freshly built tree as a persistent object. -/
def EntityQueryJoin.initialState (node : EntityQueryJoin) : NodeState :=
  { entityClass := node.entityClass, children := childrenInitialState node.children,
    joins := [] }

/-- An `EntityQuery` whose `#join` is set, between calls of `execute`: the builder the
constructor made, which every `execute` appends to, and the root node. -/
structure QueryState where
  queryBuilder : QueryBuilder
  root : NodeState

/-- The query right after `Entity.with(...)` built it. -/
def EntityQuery.newState (root : EntityQueryJoin) : Except JsError QueryState := do
  let qb ← EntityQuery.newBuilder root.entityClass
  pure { queryBuilder := qb, root := root.initialState }

/-- Lines 167-175 of `execute` on a query in any state: the field map, and the query
afterwards, whose builder is the one handed to the storage. -/
def QueryState.compile (query : QueryState) : Except JsError (List FieldEntry × QueryState) := do
  let (fieldMaps, root1) ← query.root.getFieldsMap
  let qb1 ← recursiveAddJoins root1.entityClass.name query.queryBuilder root1.getJoins
  pure (fieldMaps, { queryBuilder := qb1, root := root1 })

/-- The tree of `User.with(Post)`. -/
def userPostTree : EntityQueryJoin :=
  EntityQueryJoin.create userClass (Child.entity postClass) {}

/-- A record type `User` that references a `Role` and a `Person`, and declares the field
`firstname` that `Person` also has. -/
def memberClass : EntityClass :=
  { name := "User", columns := ["id", "name", "role_id", "person_id"],
    fields := ["name", "roleId", "personId", "role", "person", "firstname"] }

/-- A record type `Role`. -/
def roleClass : EntityClass :=
  { name := "Role", columns := ["id", "title"], fields := ["title"] }

/-- A record type `Person`. -/
def personClass : EntityClass :=
  { name := "Person", columns := ["id", "firstname"], fields := ["firstname"] }

/-- The tree of `User.getAll().with(Role).as(Person)`: `with` creates the root node
through `EntityQueryJoin.create`, then `as` is called on that node with the bare class
`Person`. -/
def memberRolePersonTree : EntityQueryJoin :=
  (EntityQueryJoin.create memberClass (Child.entity roleClass) {}).asChild
    (Child.entity personClass) {}

/-- The tree of `User.getAll().as(Person)`: `as` is the first relation of the query. -/
def memberPersonTree : EntityQueryJoin :=
  EntityQueryJoin.createAs memberClass (Child.entity personClass) {}

/-! ## Theorems -/

theorem bind_eq_ok {α β : Type} {x : Except JsError α} {f : α → Except JsError β} {y : β}
    (h : (x >>= f) = .ok y) : ∃ a, x = .ok a ∧ f a = .ok y := by
  cases x with
  | error e => cases h
  | ok a => exact ⟨a, rfl, h⟩

theorem pure_eq_ok {α : Type} {a y : α} (h : (pure a : Except JsError α) = .ok y) : a = y := by
  cases h; rfl

theorem scalarColumns_append (a b : List FieldEntry) :
    scalarColumns (a ++ b) = scalarColumns a ++ scalarColumns b := by
  induction a with
  | nil => simp [scalarColumns]
  | cons e rest ih => simp [scalarColumns, ih]

theorem columnsMap_scalarColumns :
    ∀ (keys : List String) (m : List FieldEntry), columnsMap keys = .ok m → scalarColumns m = keys
  | [], m, h => by
    simp only [columnsMap] at h
    cases h
    simp [scalarColumns]
  | key :: keys, m, h => by
    simp only [columnsMap] at h
    obtain ⟨f, -, h⟩ := bind_eq_ok h
    obtain ⟨rest, hrest, h⟩ := bind_eq_ok h
    cases h
    simp [scalarColumns, FieldEntry.scalarColumns, columnsMap_scalarColumns keys rest hrest]

theorem pushJoin_scalarColumns (type : Option JoinType) (join : Resolved)
    (childMap : List FieldEntry) (childJoins : List Join) :
    scalarColumns (pushJoin type join childMap childJoins).1 = scalarColumns childMap ∧
    (pushJoin type join childMap childJoins).2 = Join.mk join childJoins := by
  unfold pushJoin
  split
  · simp [scalarColumns_append, scalarColumns, FieldEntry.scalarColumns]
  · split <;> simp [scalarColumns, FieldEntry.scalarColumns]

theorem resolve_entityClass (parent child : EntityClass) (options : JoinOptions) (r : Resolved)
    (h : resolve parent child options = .ok r) : r.entityClass = child := by
  simp only [resolve] at h
  obtain ⟨key, -, h⟩ := bind_eq_ok h
  obtain ⟨parentKey, -, h⟩ := bind_eq_ok h
  obtain ⟨field, -, h⟩ := bind_eq_ok h
  simp only [resolveColumns] at h
  split_ifs at h <;> cases h <;> rfl

mutual
theorem compileChild_columns (parent : EntityClass) (options : JoinOptions) :
    ∀ (child : Child) (entries : List FieldEntry) (j : Join),
      compileChild parent options child = .ok (entries, j) →
      scalarColumns entries = j.selectedColumns
  | .entity cls, entries, j, h => by
    simp only [compileChild] at h
    obtain ⟨r, hr, h⟩ := bind_eq_ok h
    have hrc := resolve_entityClass _ _ _ _ hr
    obtain ⟨own, hown, h⟩ := bind_eq_ok h
    have hp := pushJoin_scalarColumns none r own []
    rw [pure_eq_ok h] at hp
    dsimp only at hp
    rw [hp.1, hp.2, columnsMap_scalarColumns _ _ hown]
    simp [Join.selectedColumns, joinsSelectedColumns, hrc]
  | .join type cls children, entries, j, h => by
    simp only [compileChild] at h
    obtain ⟨r, hr, h⟩ := bind_eq_ok h
    have hrc := resolve_entityClass _ _ _ _ hr
    obtain ⟨own, hown, h⟩ := bind_eq_ok h
    obtain ⟨⟨sub, joins⟩, hsub, h⟩ := bind_eq_ok h
    have ih := compileChildren_columns cls children sub joins hsub
    have hp := pushJoin_scalarColumns (some type) r (own ++ sub) joins
    rw [pure_eq_ok h] at hp
    dsimp only at hp
    rw [hp.1, hp.2, scalarColumns_append, columnsMap_scalarColumns _ _ hown, ih]
    simp [Join.selectedColumns, hrc]
  | .through dest joinTable topts, entries, j, h => by
    simp only [compileChild] at h
    obtain ⟨r, hr, h⟩ := bind_eq_ok h
    have hrc := resolve_entityClass _ _ _ _ hr
    obtain ⟨own, hown, h⟩ := bind_eq_ok h
    obtain ⟨rd, hrd, h⟩ := bind_eq_ok h
    have hrdc := resolve_entityClass _ _ _ _ hrd
    obtain ⟨downs, hdown, h⟩ := bind_eq_ok h
    have hp1 := pushJoin_scalarColumns (some JoinType.withType) rd downs []
    have hp := pushJoin_scalarColumns (some JoinType.asType) r
      (own ++ (pushJoin (some JoinType.withType) rd downs []).1)
      [(pushJoin (some JoinType.withType) rd downs []).2]
    rw [pure_eq_ok h] at hp
    dsimp only at hp
    rw [hp.1, hp.2, scalarColumns_append, hp1.1, hp1.2, columnsMap_scalarColumns _ _ hown,
      columnsMap_scalarColumns _ _ hdown]
    simp [Join.selectedColumns, joinsSelectedColumns, hrc, hrdc]
theorem compileChildren_columns (parent : EntityClass) :
    ∀ (children : List (Child × JoinOptions)) (entries : List FieldEntry) (joins : List Join),
      compileChildren parent children = .ok (entries, joins) →
      scalarColumns entries = joinsSelectedColumns joins
  | [], entries, joins, h => by
    simp only [compileChildren] at h
    cases h
    simp [scalarColumns, joinsSelectedColumns]
  | (child, options) :: rest, entries, joins, h => by
    simp only [compileChildren] at h
    obtain ⟨⟨e1, j⟩, h1, h⟩ := bind_eq_ok h
    obtain ⟨⟨more, js⟩, h2, h⟩ := bind_eq_ok h
    cases h
    rw [scalarColumns_append, compileChild_columns parent options child e1 j h1,
      compileChildren_columns parent rest more js h2]
    simp [joinsSelectedColumns]
end


theorem zipWith_append_aliases (a1 a2 : List String) (c1 c2 : List String)
    (h : a1.length = c1.length) :
    List.zipWith (fun a c => a ++ "." ++ c) (a1 ++ a2) (c1 ++ c2) =
      List.zipWith (fun a c => a ++ "." ++ c) a1 c1 ++ List.zipWith (fun a c => a ++ "." ++ c) a2 c2 :=
  List.zipWith_append _ _ _ _ _ h

theorem map_eq_zipWith_replicate (joinAlias : String) (cols : List String) :
    cols.map (fun column => joinAlias ++ "." ++ column) =
      List.zipWith (fun a c => a ++ "." ++ c) (List.replicate cols.length joinAlias) cols := by
  induction cols with
  | nil => rfl
  | cons c cs ih => simp [List.replicate_succ, ih]

mutual
theorem recursiveAddJoin_select (parentAlias : String) (qb : QueryBuilder) :
    ∀ (j : Join) (qb1 : QueryBuilder), recursiveAddJoin parentAlias qb j = .ok qb1 →
      ∃ aliases : List String, aliases.length = j.selectedColumns.length ∧
        qb1.select = qb.select ++ List.zipWith (fun a c => a ++ "." ++ c) aliases j.selectedColumns
  | .mk join joins, qb1, h => by
    simp only [recursiveAddJoin] at h
    obtain ⟨table, -, h⟩ := bind_eq_ok h
    obtain ⟨camel, -, h⟩ := bind_eq_ok h
    obtain ⟨aliases, hlen, hsel⟩ := recursiveAddJoins_select _ _ joins qb1 h
    refine ⟨List.replicate join.entityClass.columns.length (parentAlias ++ "_" ++ camel) ++ aliases,
      ?_, ?_⟩
    · simp [Join.selectedColumns, hlen]
    · rw [hsel, Join.selectedColumns, zipWith_append_aliases _ _ _ _ (by simp),
        ← map_eq_zipWith_replicate]
      simp
theorem recursiveAddJoins_select (parentAlias : String) (qb : QueryBuilder) :
    ∀ (js : List Join) (qb1 : QueryBuilder), recursiveAddJoins parentAlias qb js = .ok qb1 →
      ∃ aliases : List String, aliases.length = (joinsSelectedColumns js).length ∧
        qb1.select = qb.select ++
          List.zipWith (fun a c => a ++ "." ++ c) aliases (joinsSelectedColumns js)
  | [], qb1, h => by
    simp only [recursiveAddJoins] at h
    cases h
    exact ⟨[], by simp [joinsSelectedColumns], by simp [joinsSelectedColumns]⟩
  | j :: js, qb1, h => by
    simp only [recursiveAddJoins] at h
    obtain ⟨qb2, h1, h⟩ := bind_eq_ok h
    obtain ⟨a1, hl1, hs1⟩ := recursiveAddJoin_select parentAlias qb j qb2 h1
    obtain ⟨a2, hl2, hs2⟩ := recursiveAddJoins_select parentAlias qb2 js qb1 h
    refine ⟨a1 ++ a2, ?_, ?_⟩
    · simp [joinsSelectedColumns, hl1, hl2]
    · rw [hs2, hs1, joinsSelectedColumns, zipWith_append_aliases _ _ _ _ hl1]
      simp
end

/-- C1. For every join tree whose plan compiles, the raw column names of the field map
returned by `getFieldsMap`, read depth first, are in one-to-one, order-preserving
correspondence with the select list: the select list has one entry per scalar entry,
and its k-th entry is `alias.column` for the column of the k-th scalar entry. -/
theorem compilePlan_select_mirrors_fieldMap (root : EntityQueryJoin)
    (fieldMaps : List FieldEntry) (qb : QueryBuilder)
    (h : compilePlan root = .ok (fieldMaps, qb)) :
    ∃ aliases : List String, aliases.length = (scalarColumns fieldMaps).length ∧
      qb.select = List.zipWith (fun a c => a ++ "." ++ c) aliases (scalarColumns fieldMaps) := by
  simp only [compilePlan, EntityQuery.newBuilder, getFieldsMap] at h
  obtain ⟨qb0, hqb0, h⟩ := bind_eq_ok h
  obtain ⟨table, -, hqb0⟩ := bind_eq_ok hqb0
  obtain ⟨⟨fm, joins⟩, hfm, h⟩ := bind_eq_ok h
  obtain ⟨own, hown, hfm⟩ := bind_eq_ok hfm
  obtain ⟨⟨sub, js⟩, hsub, hfm⟩ := bind_eq_ok hfm
  obtain ⟨qb1, hrec, h⟩ := bind_eq_ok h
  have e1 := pure_eq_ok hqb0
  have e2 := pure_eq_ok hfm
  have e3 := pure_eq_ok h
  dsimp only at e2 e3
  obtain ⟨aliases, hlen, hsel⟩ := recursiveAddJoins_select _ _ _ _ hrec
  have hcols := compileChildren_columns _ _ _ _ hsub
  obtain ⟨hA, hB⟩ := Prod.mk.inj e3
  obtain ⟨hC, hD⟩ := Prod.mk.inj e2
  subst hA hB hC hD
  refine ⟨List.replicate root.entityClass.columns.length root.entityClass.name ++ aliases, ?_, ?_⟩
  · simp [scalarColumns_append, columnsMap_scalarColumns _ _ hown, hcols, hlen]
  · rw [hsel, scalarColumns_append, columnsMap_scalarColumns _ _ hown, hcols,
      zipWith_append_aliases _ _ _ _ (by simp), ← map_eq_zipWith_replicate, ← e1]


/-- C1 at the tree of `sampleTree` (a nested relation with a grandchild and a through-link). -/
theorem compilePlan_select_mirrors_fieldMap_witness :
    ∃ fieldMaps qb, compilePlan sampleTree = .ok (fieldMaps, qb) ∧
      ∃ aliases : List String, aliases.length = (scalarColumns fieldMaps).length ∧
        qb.select = List.zipWith (fun a c => a ++ "." ++ c) aliases (scalarColumns fieldMaps) :=
  ⟨_, _, rfl, compilePlan_select_mirrors_fieldMap sampleTree _ _ rfl⟩


theorem lastLetter_id_suffix (k : String) : lastLetter (k ++ "_id") = some "d" := by
  simp [lastLetter, String.data_append]
  rfl

theorem lastLetter_prototypeKeys : ∀ s ∈ objectPrototypeKeys, lastLetter s ≠ some "d" := by
  decide

theorem fieldsLookup_id_suffix (cls : EntityClass) (k : String) :
    fieldsLookup cls (k ++ "_id") = decide (k ++ "_id" ∈ cls.columns) := by
  have h : k ++ "_id" ∉ objectPrototypeKeys := fun hmem =>
    lastLetter_prototypeKeys _ hmem (lastLetter_id_suffix k)
  simp [fieldsLookup, h]

theorem id_suffix_ne_id (k : String) (hk : k ≠ "") : k ++ "_id" ≠ "id" := by
  intro h
  have h1 := congrArg String.length h
  rw [String.length_append] at h1
  have h2 : k.length ≠ 0 := by
    intro h0
    apply hk
    exact String.ext (List.eq_nil_of_length_eq_zero h0) 
  have : ("_id" : String).length = 3 := by decide
  have : ("id" : String).length = 2 := by decide
  omega

theorem resolve_no_override (parent child : EntityClass) (options : JoinOptions)
    (parentSnake childSnake field : String)
    (hkey : options.key = none) (hparentKey : options.parentKey = none)
    (hp : toSnakeCase parent.name = .ok parentSnake)
    (hc : toSnakeCase child.name = .ok childSnake)
    (hf : withDefault options.field (lowerFirstCamel child.name) = .ok field) :
    resolve parent child options =
      match (candidates parentSnake childSnake).find? (candidateExists parent child) with
      | some candidate =>
        .ok { entityClass := child, field := field, column := (pairing candidate).1,
              parentColumn := (pairing candidate).2, condition := options.condition }
      | none => .error (.error (foreignKeyMessage parent.name child.name childSnake parentSnake)) := by
  have hnone : ∀ d : Except JsError String, withDefault none d = d := fun _ => rfl
  simp only [resolve, hkey, hparentKey, hnone, hp, hc, hf]
  simp only [bind, Except.bind, resolveColumns, hkey, hparentKey, optTruthy, fieldsLookup_id_suffix,
    candidates, List.find?, candidateExists]
  by_cases h1 : childSnake ++ "_id" ∈ parent.columns
  · simp [h1, pairing, pure, Except.pure, fieldsLookup_id_suffix]
  · by_cases h2 : parentSnake ++ "_id" ∈ child.columns
    · simp [h1, h2, pairing, pure, Except.pure, fieldsLookup_id_suffix]
    · by_cases h3 : toPlural childSnake ++ "_id" ∈ parent.columns
      · simp [h1, h2, h3, pairing, pure, Except.pure, fieldsLookup_id_suffix]
      · by_cases h4 : toPlural parentSnake ++ "_id" ∈ child.columns
        · simp [h1, h2, h3, h4, pairing, pure, Except.pure, fieldsLookup_id_suffix]
        · by_cases h5 : toSingular childSnake ++ "_id" ∈ parent.columns
          · simp [h1, h2, h3, h4, h5, pairing, pure, Except.pure, fieldsLookup_id_suffix]
          · by_cases h6 : toSingular parentSnake ++ "_id" ∈ child.columns
            · simp [h1, h2, h3, h4, h5, h6, pairing, pure, Except.pure, fieldsLookup_id_suffix]
            · simp [h1, h2, h3, h4, h5, h6, throw, throwThe, MonadExceptOf.throw, fieldsLookup_id_suffix]


/-- C2. With no `key` / `parentKey` override, `join` resolves to the first candidate that
exists, in the order parent `snake(child)_id`, child `snake(parent)_id`, then the plural
forms, then the singular forms; a parent-side match gives `('id', column)`, a child-side
match `(column, 'id')`, and no match throws. In particular the parent-side pairing wins
whenever the parent holds `snake(child)_id`. -/
theorem join_resolves_first_candidate (parent child : EntityClass) (options : JoinOptions)
    (parentSnake childSnake field : String)
    (hkey : options.key = none) (hparentKey : options.parentKey = none)
    (hp : toSnakeCase parent.name = .ok parentSnake)
    (hc : toSnakeCase child.name = .ok childSnake)
    (hf : withDefault options.field (lowerFirstCamel child.name) = .ok field) :
    (resolve parent child options =
      match (candidates parentSnake childSnake).find? (candidateExists parent child) with
      | some candidate =>
        .ok { entityClass := child, field := field, column := (pairing candidate).1,
              parentColumn := (pairing candidate).2, condition := options.condition }
      | none =>
        .error (.error (foreignKeyMessage parent.name child.name childSnake parentSnake))) ∧
    (childSnake ++ "_id" ∈ parent.columns →
      resolve parent child options =
        .ok { entityClass := child, field := field, column := "id",
              parentColumn := childSnake ++ "_id", condition := options.condition }) := by
  have h := resolve_no_override parent child options parentSnake childSnake field
    hkey hparentKey hp hc hf
  refine ⟨h, fun hmem => ?_⟩
  rw [h]
  simp [candidates, List.find?, candidateExists, hmem, pairing]

/-- C2 at `Order` (holding `address_id`) and `Address`. -/
theorem join_resolves_first_candidate_witness :
    (resolve orderClass addressClass {} =
      match (candidates "order" "address").find? (candidateExists orderClass addressClass) with
      | some candidate =>
        .ok { entityClass := addressClass, field := "address", column := (pairing candidate).1,
              parentColumn := (pairing candidate).2, condition := none }
      | none => .error (.error (foreignKeyMessage "Order" "Address" "address" "order"))) ∧
    ("address" ++ "_id" ∈ orderClass.columns →
      resolve orderClass addressClass {} =
        .ok { entityClass := addressClass, field := "address", column := "id",
              parentColumn := "address" ++ "_id", condition := none }) :=
  join_resolves_first_candidate orderClass addressClass {} "order" "address" "address"
    rfl rfl rfl rfl rfl

theorem toSnakeCase_ne_empty (name s : String) (h : toSnakeCase name = .ok s) : s ≠ "" := by
  unfold toSnakeCase at h
  cases hd : name.data with
  | nil => rw [hd] at h; cases h
  | cons c cs =>
    rw [hd] at h
    simp only [toSnakeCaseChars, Except.map] at h
    cases h
    intro hcontra
    have := congrArg String.data hcontra
    simp at this

theorem getFieldsMap_create_entity (parentCls childCls : EntityClass) (options : JoinOptions)
    (r : Resolved) (ownParent ownChild : List FieldEntry)
    (hr : resolve parentCls childCls options = .ok r)
    (hP : columnsMap parentCls.columns = .ok ownParent)
    (hC : columnsMap childCls.columns = .ok ownChild) :
    getFieldsMap (EntityQueryJoin.create parentCls (Child.entity childCls) options) =
      .ok (ownParent ++ [FieldEntry.nested r.field r.entityClass
            (if r.column = "id" then MapType.single else MapType.many) ownChild],
           [Join.mk r []]) := by
  simp [getFieldsMap, EntityQueryJoin.create, compileChildren, compileChild, hr, hP, hC,
    pushJoin, bind, Except.bind, pure, Except.pure]

/-- C3. For record types A and B and no key override: when A holds `snake(B)_id`, the
entry `A.with(B)` compiles for B has type `single`; when A does not hold it and B holds
`snake(A)_id`, the entry has type `many`. -/
theorem with_cardinality (a b : EntityClass) (options : JoinOptions)
    (aSnake bSnake field : String) (ownA ownB : List FieldEntry)
    (hkey : options.key = none) (hparentKey : options.parentKey = none)
    (ha : toSnakeCase a.name = .ok aSnake) (hb : toSnakeCase b.name = .ok bSnake)
    (hf : withDefault options.field (lowerFirstCamel b.name) = .ok field)
    (hA : columnsMap a.columns = .ok ownA) (hB : columnsMap b.columns = .ok ownB) :
    (bSnake ++ "_id" ∈ a.columns →
      ∃ joins, getFieldsMap (EntityQueryJoin.create a (Child.entity b) options) =
        .ok (ownA ++ [FieldEntry.nested field b MapType.single ownB], joins)) ∧
    (bSnake ++ "_id" ∉ a.columns → aSnake ++ "_id" ∈ b.columns →
      ∃ joins, getFieldsMap (EntityQueryJoin.create a (Child.entity b) options) =
        .ok (ownA ++ [FieldEntry.nested field b MapType.many ownB], joins)) := by
  have h := resolve_no_override a b options aSnake bSnake field hkey hparentKey ha hb hf
  constructor
  · intro hmem
    have hr : resolve a b options =
        .ok (Resolved.mk b field "id" (bSnake ++ "_id") options.condition) := by
      rw [h]; simp [candidates, List.find?, candidateExists, hmem, pairing]
    exact ⟨[Join.mk (Resolved.mk b field "id" (bSnake ++ "_id") options.condition) []],
      by rw [getFieldsMap_create_entity a b options _ ownA ownB hr hA hB]; simp⟩
  · intro hnot hmem
    have hr : resolve a b options =
        .ok (Resolved.mk b field (aSnake ++ "_id") "id" options.condition) := by
      rw [h]; simp [candidates, List.find?, candidateExists, hnot, hmem, pairing]
    have hne : aSnake ++ "_id" ≠ "id" := id_suffix_ne_id _ (toSnakeCase_ne_empty _ _ ha)
    exact ⟨[Join.mk (Resolved.mk b field (aSnake ++ "_id") "id" options.condition) []],
      by rw [getFieldsMap_create_entity a b options _ ownA ownB hr hA hB]; simp [hne]⟩

/-- C3 at `Order.with(Address)` (the parent holds `address_id`) and at `User.with(Post)`
(the child holds `user_id`). -/
theorem with_cardinality_witness :
    (∃ joins, getFieldsMap (EntityQueryJoin.create orderClass (Child.entity addressClass) {}) =
        .ok ([FieldEntry.scalar "id" "id", FieldEntry.scalar "addressId" "address_id"] ++
          [FieldEntry.nested "address" addressClass MapType.single
            [FieldEntry.scalar "id" "id", FieldEntry.scalar "street" "street"]], joins)) ∧
    (∃ joins, getFieldsMap (EntityQueryJoin.create userClass (Child.entity postClass) {}) =
        .ok ([FieldEntry.scalar "id" "id", FieldEntry.scalar "name" "name"] ++
          [FieldEntry.nested "post" postClass MapType.many
            [FieldEntry.scalar "id" "id", FieldEntry.scalar "userId" "user_id"]], joins)) :=
  ⟨(with_cardinality orderClass addressClass {} "order" "address" "address" _ _
      rfl rfl rfl rfl rfl rfl rfl).1 (by decide),
   (with_cardinality userClass postClass {} "user" "post" "post" _ _
      rfl rfl rfl rfl rfl rfl rfl).2 (by decide) (by decide)⟩

theorem resolveColumns_error_iff (parent child : EntityClass) (options : JoinOptions)
    (key parentKey field : String) :
    resolveColumns parent child options key parentKey field =
        .error (.error (foreignKeyMessage parent.name child.name parentKey key)) ↔
      (fieldsLookup parent (parentKey ++ if optTruthy options.parentKey then "" else "_id") = false ∧
       fieldsLookup child (key ++ if optTruthy options.key then "" else "_id") = false ∧
       fieldsLookup parent
         (toPlural parentKey ++ if optTruthy options.parentKey then "" else "_id") = false ∧
       fieldsLookup child (toPlural key ++ if optTruthy options.key then "" else "_id") = false ∧
       fieldsLookup parent
         (toSingular parentKey ++ if optTruthy options.parentKey then "" else "_id") = false ∧
       fieldsLookup child
         (toSingular key ++ if optTruthy options.key then "" else "_id") = false) := by
  simp only [resolveColumns]
  constructor
  · intro h
    split_ifs at h <;> first
      | (exact absurd h (by simp [pure, Except.pure]))
      | (simp_all)
  · rintro ⟨h1, h2, h3, h4, h5, h6⟩
    simp [h1, h2, h3, h4, h5, h6, throw, throwThe, MonadExceptOf.throw]

/-- C4. The lookup `fields[parentKey]` is truthy for a member inherited from
`Object.prototype`: for `User.with(Address, {parentKey: 'constructor'})` none of the six
candidate columns is registered, and `join` returns the pairing `('id', 'constructor')`
where the claim requires it to throw. -/
theorem join_inherited_member_resolves :
    resolve userClass addressClass { parentKey := some "constructor" } =
      .ok { entityClass := addressClass, field := "address", column := "id",
            parentColumn := "constructor", condition := none } ∧
    "constructor" ∉ userClass.columns ∧ "user_id" ∉ addressClass.columns ∧
    toPlural "constructor" ∉ userClass.columns ∧ toPlural "user" ++ "_id" ∉ addressClass.columns ∧
    toSingular "constructor" ∉ userClass.columns ∧
    toSingular "user" ++ "_id" ∉ addressClass.columns := by
  refine ⟨rfl, ?_, ?_, ?_, ?_, ?_, ?_⟩ <;> decide

theorem hydrateEntry_nested_inv (data : List Cell) (field : String) (cls : EntityClass)
    (type : MapType) (sub : List FieldEntry) (htype : type ≠ MapType.includeType)
    (entity : Val) (c : Int) (e1 : Val) (r : Int)
    (h : hydrateEntry data entity c (.nested field cls type sub) = .ok (e1, r)) :
    ∃ b b1 last, hydrate data b c sub = .ok (b1, last) ∧ r = last + 1 := by
  have key : ∀ (b : Val) (g : Val × Int → Except JsError Val) ,
      ((hydrate data b c sub) >>= fun p => (g p >>= fun e => pure (e, p.2 + 1))) = .ok (e1, r) →
      ∃ b b1 last, hydrate data b c sub = .ok (b1, last) ∧ r = last + 1 := by
    intro b g hh
    obtain ⟨⟨b1, last⟩, hb, hh⟩ := bind_eq_ok hh
    obtain ⟨e2, -, hh⟩ := bind_eq_ok hh
    cases hh
    exact ⟨b, b1, last, hb, rfl⟩
  have key2 : ∀ (b : Val) (e : Val),
      ((hydrate data b c sub) >>= fun p => pure (e, p.2 + 1)) = .ok (e1, r) →
      ∃ b b1 last, hydrate data b c sub = .ok (b1, last) ∧ r = last + 1 := by
    intro b g hh
    obtain ⟨⟨b1, last⟩, hb, hh⟩ := bind_eq_ok hh
    cases hh
    exact ⟨b, b1, last, hb, rfl⟩
  cases type with
  | includeType => exact absurd rfl htype
  | single =>
    simp only [hydrateEntry] at h
    obtain ⟨f, -, h⟩ := bind_eq_ok h
    split at h
    · obtain ⟨cur, -, h⟩ := bind_eq_ok h
      obtain ⟨e2, -, h⟩ := bind_eq_ok h
      exact key2 _ _ h
    · obtain ⟨cur, -, h⟩ := bind_eq_ok h
      split at h
      · split at h
        · obtain ⟨reused, -, h⟩ := bind_eq_ok h
          split at h
          · exact key2 _ _ h
          · exact key _ _ h
        · obtain ⟨cid, -, h⟩ := bind_eq_ok h
          split at h
          · exact key _ _ h
          · exact key _ _ h
      · exact key _ _ h
  | many =>
    simp only [hydrateEntry] at h
    obtain ⟨f, -, h⟩ := bind_eq_ok h
    split at h
    · obtain ⟨cur, -, h⟩ := bind_eq_ok h
      obtain ⟨e2, -, h⟩ := bind_eq_ok h
      exact key2 _ _ h
    · obtain ⟨cur, -, h⟩ := bind_eq_ok h
      split at h
      · split at h
        · obtain ⟨reused, -, h⟩ := bind_eq_ok h
          split at h
          · exact key2 _ _ h
          · exact key _ _ h
        · obtain ⟨cid, -, h⟩ := bind_eq_ok h
          split at h
          · exact key _ _ h
          · exact key _ _ h
      · exact key _ _ h

mutual
theorem hydrateEntry_cursor (data : List Cell) :
    ∀ (entry : FieldEntry) (entity : Val) (c : Int) (e1 : Val) (r : Int),
      hydrateEntry data entity c entry = .ok (e1, r) → r = c + entry.columnCount
  | .scalar field col, entity, c, e1, r, h => by
    simp only [hydrateEntry] at h
    obtain ⟨cur, -, h⟩ := bind_eq_ok h
    obtain ⟨keys, -, h⟩ := bind_eq_ok h
    split at h
    · obtain ⟨e2, -, h⟩ := bind_eq_ok h
      cases h
      simp [FieldEntry.columnCount]
    · cases h
      simp [FieldEntry.columnCount]
  | .nested field cls .includeType sub, entity, c, e1, r, h => by
    simp only [hydrateEntry] at h
    cases h
    simp [FieldEntry.columnCount]
  | .nested field cls .single sub, entity, c, e1, r, h => by
    obtain ⟨b, b1, last, hb, hr⟩ := hydrateEntry_nested_inv data field cls _ sub (by decide) entity c e1 r h
    have ih := hydrate_cursor data sub b c b1 last hb
    simp [FieldEntry.columnCount]; omega
  | .nested field cls .many sub, entity, c, e1, r, h => by
    obtain ⟨b, b1, last, hb, hr⟩ := hydrateEntry_nested_inv data field cls _ sub (by decide) entity c e1 r h
    have ih := hydrate_cursor data sub b c b1 last hb
    simp [FieldEntry.columnCount]; omega
theorem hydrate_cursor (data : List Cell) :
    ∀ (fieldsMap : List FieldEntry) (entity : Val) (c : Int) (e1 : Val) (r : Int),
      hydrate data entity c fieldsMap = .ok (e1, r) → r = c + columnCount fieldsMap - 1
  | [], entity, c, e1, r, h => by
    simp only [hydrate] at h
    cases h
    simp [columnCount]
  | entry :: rest, entity, c, e1, r, h => by
    simp only [hydrate] at h
    obtain ⟨⟨e2, n⟩, h1, h⟩ := bind_eq_ok h
    have a := hydrateEntry_cursor data entry entity c e2 n h1
    have b := hydrate_cursor data rest e2 n e1 r h
    have : columnCount (entry :: rest) = entry.columnCount + columnCount rest := by
      cases entry with
      | scalar f col => simp [columnCount]
      | nested f cls ty sub => cases ty <;> simp [columnCount]
    omega
end

theorem hydrate_append (data : List Cell) :
    ∀ (front back : List FieldEntry) (entity : Val) (c : Int),
      hydrate data entity c (front ++ back) =
        (hydrate data entity c front >>= fun p => hydrate data p.1 (p.2 + 1) back)
  | [], back, entity, c => by
    simp [hydrate, bind, Except.bind]
  | entry :: front, back, entity, c => by
    simp only [List.cons_append, hydrate]
    cases hE : hydrateEntry data entity c entry with
    | error e => rfl
    | ok p =>
      simp only [bind, Except.bind]
      exact hydrate_append data front back p.1 p.2

/-- C8. Cursor discipline: a call of `#hydrate` that returns, started at cursor `c` on a
map declaring `n` columns (include markers counting 0), returns `c + n - 1`; and every
entry of the map is decoded starting at the cursor `c` plus the number of columns the
entries before it declare, whichever branch the nested entries take. -/
theorem hydrate_cursor_discipline (data : List Cell) (entity : Val) (c : Int)
    (fieldsMap : List FieldEntry) (e1 : Val) (r : Int)
    (h : hydrate data entity c fieldsMap = .ok (e1, r)) :
    r = c + columnCount fieldsMap - 1 ∧
    ∀ (front : List FieldEntry) (entry : FieldEntry) (back : List FieldEntry),
      fieldsMap = front ++ entry :: back →
      ∃ e2 e3, hydrate data entity c front = .ok (e2, c + columnCount front - 1) ∧
        hydrateEntry data e2 (c + columnCount front) entry =
          .ok (e3, c + columnCount front + entry.columnCount) ∧
        hydrate data e3 (c + columnCount front + entry.columnCount) back = .ok (e1, r) := by
  refine ⟨hydrate_cursor data fieldsMap entity c e1 r h, ?_⟩
  intro front entry back hsplit
  subst hsplit
  rw [hydrate_append] at h
  obtain ⟨⟨e2, r2⟩, h2, h⟩ := bind_eq_ok h
  have hr2 := hydrate_cursor data front entity c e2 r2 h2
  simp only [hydrate] at h
  obtain ⟨⟨e3, r3⟩, h3, h⟩ := bind_eq_ok h
  have hr3 := hydrateEntry_cursor data entry e2 (r2 + 1) e3 r3 h3
  have e23 : r2 + 1 = c + columnCount front := by omega
  rw [e23] at h3 hr3
  subst hr2 hr3
  exact ⟨e2, e3, h2, h3, h⟩


theorem lookupProp_assignProp (field other : String) (x : Val) :
    ∀ props : List (String × Val),
      lookupProp other (assignProp field x props) =
        if other = field then x else lookupProp other props
  | [] => by
    by_cases h : other = field
    · simp [assignProp, lookupProp, h]
    · have h2 : ¬ field = other := fun e => h e.symm
      simp [assignProp, lookupProp, h, h2]
  | (k, v) :: rest => by
    by_cases hk : k = field
    · by_cases h : other = field
      · simp [assignProp, lookupProp, hk, h]
      · have h2 : ¬ field = other := fun e => h e.symm
        simp [assignProp, lookupProp, hk, h, h2]
    · by_cases hko : k = other
      · have h : ¬ other = field := fun e => hk (hko.trans e)
        simp [assignProp, lookupProp, hk, hko, h]
      · simp [assignProp, lookupProp, hk, hko, lookupProp_assignProp field other x rest]

theorem keys_assignProp (field : String) (x : Val) :
    ∀ props : List (String × Val), field ∈ props.map Prod.fst →
      (assignProp field x props).map Prod.fst = props.map Prod.fst
  | [], h => by simp at h
  | (k, v) :: rest, h => by
    by_cases hk : k = field
    · simp [assignProp, hk]
    · have hrest : field ∈ rest.map Prod.fst := by
        simp only [List.map_cons, List.mem_cons] at h
        rcases h with h | h
        · exact absurd h.symm hk
        · exact h
      simp [assignProp, hk, keys_assignProp field x rest hrest]

theorem hydrateEntry_scalar (data : List Cell) (cls : EntityClass) (props : List (String × Val))
    (c : Int) (field column : String) :
    hydrateEntry data (Val.entity cls props) c (FieldEntry.scalar field column) =
      .ok (Val.entity cls
        (if !truthy (lookupProp field props) && (props.map Prod.fst).contains field
          then assignProp field (rowAt data c) props else props), c + 1) := by
  simp only [hydrateEntry, getProp, ownKeys, setProp, bind, Except.bind, pure, Except.pure]
  split <;> rfl

theorem hydrate_scalars (data : List Cell) (cls : EntityClass) :
    ∀ (pairs : List (String × String)) (props : List (String × Val)) (c : Int),
      ∃ props1, hydrate data (Val.entity cls props) c (scalarEntries pairs) =
          .ok (Val.entity cls props1, c + pairs.length - 1) ∧
        props1.map Prod.fst = props.map Prod.fst ∧
        (∀ g, (∀ p ∈ pairs, p.1 ≠ g) → lookupProp g props1 = lookupProp g props) ∧
        (∀ g, truthy (lookupProp g props) = true → lookupProp g props1 = lookupProp g props)
  | [], props, c => ⟨props, by simp [scalarEntries, hydrate], rfl, fun _ _ => rfl, fun _ _ => rfl⟩
  | (field, column) :: rest, props, c => by
    by_cases hcond : (!truthy (lookupProp field props) && (props.map Prod.fst).contains field) = true
    · obtain ⟨props1, h1, hk, hother, htruthy⟩ :=
        hydrate_scalars data cls rest (assignProp field (rowAt data c) props) (c + 1)
      have hmem : field ∈ props.map Prod.fst := by
        simp only [Bool.and_eq_true] at hcond
        simpa using hcond.2
      have hfalsy : truthy (lookupProp field props) = false := by
        simp only [Bool.and_eq_true, Bool.not_eq_true'] at hcond
        exact hcond.1
      refine ⟨props1, ?_, ?_, ?_, ?_⟩
      · simp only [scalarEntries, List.map_cons, hydrate, hydrateEntry_scalar, hcond, if_true,
          bind, Except.bind]
        simp only [scalarEntries] at h1
        rw [h1]
        simp only [List.length_cons]
        push_cast
        congr 2
        ring
      · rw [hk, keys_assignProp field _ props hmem]
      · intro g hg
        have hgf : g ≠ field := fun e => hg (field, column) (List.mem_cons_self _ _) e.symm
        rw [hother g (fun p hp => hg p (List.mem_cons_of_mem _ hp)), lookupProp_assignProp]
        simp [hgf]
      · intro g hg
        have hgf : g ≠ field := by
          intro e
          rw [e, hfalsy] at hg
          cases hg
        have : truthy (lookupProp g (assignProp field (rowAt data c) props)) = true := by
          rw [lookupProp_assignProp]; simpa [hgf] using hg
        rw [htruthy g this, lookupProp_assignProp]
        simp [hgf]
    · obtain ⟨props1, h1, hk, hother, htruthy⟩ := hydrate_scalars data cls rest props (c + 1)
      refine ⟨props1, ?_, hk, ?_, htruthy⟩
      · simp only [scalarEntries, List.map_cons, hydrate, hydrateEntry_scalar, hcond,
          bind, Except.bind]
        simp only [scalarEntries] at h1
        simp only [Bool.false_eq_true, if_false]
        rw [h1]
        simp only [List.length_cons]
        push_cast
        congr 2
        ring
      · intro g hg
        exact hother g (fun p hp => hg p (List.mem_cons_of_mem _ hp))


theorem resolveField_keys (cls1 cls2 : EntityClass) (props1 props2 : List (String × Val))
    (field : String) (bound : EntityClass) (hname : cls1.name = cls2.name)
    (h : props1.map Prod.fst = props2.map Prod.fst) :
    resolveField (Val.entity cls1 props1) field bound =
      resolveField (Val.entity cls2 props2) field bound := by
  simp only [resolveField, ownKeys, constructorName, h, hname]

theorem resolveField_entity (entity : Val) (field0 field : String) (bound : EntityClass)
    (h : resolveField entity field0 bound = .ok field) :
    ∃ cls props, entity = Val.entity cls props ∧ field ∈ props.map Prod.fst := by
  have hkey : ∀ keys : List String,
      (if keys.contains field0 = true then (pure field0 : Except JsError String)
        else if keys.contains (toPlural field0) = true then pure (toPlural field0)
        else if keys.contains (toSingular field0) = true then pure (toSingular field0)
        else do
          let owner ← constructorName entity
          throw (.error (fieldMessage owner bound.name field0))) = .ok field →
      field ∈ keys := by
    intro keys hk
    split_ifs at hk with h1 h2 h3
    · cases hk; simpa using h1
    · cases hk; simpa using h2
    · cases hk; simpa using h3
    · cases hc : constructorName entity with
      | error e => rw [hc] at hk; cases hk
      | ok owner => rw [hc] at hk; cases hk
  cases entity with
  | entity cls props =>
    refine ⟨cls, props, rfl, ?_⟩
    simp only [resolveField, ownKeys, bind, Except.bind] at h
    exact hkey _ h
  | undefined => simp [resolveField, ownKeys, bind, Except.bind] at h
  | null => simp [resolveField, ownKeys, bind, Except.bind] at h
  | num n =>
    simp only [resolveField, ownKeys, bind, Except.bind] at h
    exact absurd (hkey _ h) (by simp)
  | str s =>
    simp only [resolveField, ownKeys, bind, Except.bind] at h
    exact absurd (hkey _ h) (by simp)
  | bool b =>
    simp only [resolveField, ownKeys, bind, Except.bind] at h
    exact absurd (hkey _ h) (by simp)
  | array items =>
    simp only [resolveField, ownKeys, bind, Except.bind] at h
    exact absurd (hkey _ h) (by simp)

theorem hydrateEntry_null (data : List Cell) (cls : EntityClass) (props : List (String × Val))
    (c : Int) (field0 field : String) (bound : EntityClass) (type : MapType)
    (sub : List FieldEntry) (b : Val) (last : Int)
    (htype : type ≠ MapType.includeType)
    (hfield : resolveField (Val.entity cls props) field0 bound = .ok field)
    (hnull : rowAt data c = Val.null)
    (hsub : hydrate data (newEntity bound) c sub = .ok (b, last)) :
    hydrateEntry data (Val.entity cls props) c (FieldEntry.nested field0 bound type sub) =
      .ok (Val.entity cls (assignProp field
        (if !isArray (lookupProp field props) && type = MapType.single then Val.null
          else Val.array []) props), last + 1) := by
  cases type with
  | includeType => exact absurd rfl htype
  | single =>
    simp [hydrateEntry, hfield, hnull, strictEq, getProp, setProp, hsub, bind, Except.bind,
      pure, Except.pure]
  | many =>
    simp [hydrateEntry, hfield, hnull, strictEq, getProp, setProp, hsub, bind, Except.bind,
      pure, Except.pure]

theorem hydrateEntry_fresh (data : List Cell) (cls : EntityClass) (props : List (String × Val))
    (c : Int) (field0 field : String) (bound : EntityClass) (type : MapType)
    (sub : List FieldEntry) (b : Val) (last : Int)
    (htype : type ≠ MapType.includeType)
    (hfield : resolveField (Val.entity cls props) field0 bound = .ok field)
    (hvalue : strictEq (rowAt data c) Val.null = false)
    (hfalsy : truthy (lookupProp field props) = false)
    (hsub : hydrate data (newEntity bound) c sub = .ok (b, last)) :
    hydrateEntry data (Val.entity cls props) c (FieldEntry.nested field0 bound type sub) =
      .ok (Val.entity cls (assignProp field
        (if type = MapType.single then b else Val.array [b]) props), last + 1) := by
  cases type with
  | includeType => exact absurd rfl htype
  | single =>
    simp [hydrateEntry, hfield, hvalue, hfalsy, getProp, setProp, hsub, bind, Except.bind,
      pure, Except.pure]
  | many =>
    simp [hydrateEntry, hfield, hvalue, hfalsy, getProp, setProp, hsub, bind, Except.bind,
      pure, Except.pure]

theorem hydrateEntry_push (data : List Cell) (cls : EntityClass) (props : List (String × Val))
    (c : Int) (field0 field : String) (bound : EntityClass) (type : MapType)
    (sub : List FieldEntry) (items : List Val) (b : Val) (last : Int)
    (htype : type ≠ MapType.includeType)
    (hfield : resolveField (Val.entity cls props) field0 bound = .ok field)
    (hvalue : strictEq (rowAt data c) Val.null = false)
    (hitems : lookupProp field props = Val.array items)
    (hlast : reusedLast items (rowAt data c) = .ok none)
    (hsub : hydrate data (newEntity bound) c sub = .ok (b, last)) :
    hydrateEntry data (Val.entity cls props) c (FieldEntry.nested field0 bound type sub) =
      .ok (Val.entity cls (assignProp field (Val.array (items ++ [b])) props), last + 1) := by
  cases type with
  | includeType => exact absurd rfl htype
  | single =>
    simp [hydrateEntry, hfield, hvalue, hitems, hlast, truthy, getProp, setProp, hsub, bind,
      Except.bind, pure, Except.pure]
  | many =>
    simp [hydrateEntry, hfield, hvalue, hitems, hlast, truthy, getProp, setProp, hsub, bind,
      Except.bind, pure, Except.pure]

theorem hydrateEntry_reuse_last (data : List Cell) (cls : EntityClass)
    (props : List (String × Val)) (c : Int) (field0 field : String) (bound : EntityClass)
    (type : MapType) (sub : List FieldEntry) (items : List Val) (lastId b : Val) (last : Int)
    (htype : type ≠ MapType.includeType)
    (hfield : resolveField (Val.entity cls props) field0 bound = .ok field)
    (hvalue : strictEq (rowAt data c) Val.null = false)
    (hitems : lookupProp field props = Val.array items)
    (hlast : reusedLast items (rowAt data c) = .ok (some lastId))
    (hsub : hydrate data lastId c sub = .ok (b, last)) :
    hydrateEntry data (Val.entity cls props) c (FieldEntry.nested field0 bound type sub) =
      .ok (Val.entity cls props, last + 1) := by
  cases type with
  | includeType => exact absurd rfl htype
  | single =>
    simp [hydrateEntry, hfield, hvalue, hitems, hlast, truthy, getProp, hsub, bind,
      Except.bind, pure, Except.pure]
  | many =>
    simp [hydrateEntry, hfield, hvalue, hitems, hlast, truthy, getProp, hsub, bind,
      Except.bind, pure, Except.pure]

theorem hydrateEntry_collision (data : List Cell) (cls : EntityClass)
    (props : List (String × Val)) (c : Int) (field0 field : String) (bound : EntityClass)
    (type : MapType) (sub : List FieldEntry) (currentId b : Val) (last : Int)
    (htype : type ≠ MapType.includeType)
    (hfield : resolveField (Val.entity cls props) field0 bound = .ok field)
    (hvalue : strictEq (rowAt data c) Val.null = false)
    (htruthy : truthy (lookupProp field props) = true)
    (harray : isArray (lookupProp field props) = false)
    (hid : getProp (lookupProp field props) "id" = .ok currentId)
    (hne : strictEq currentId (rowAt data c) = false)
    (hsub : hydrate data (newEntity bound) c sub = .ok (b, last)) :
    hydrateEntry data (Val.entity cls props) c (FieldEntry.nested field0 bound type sub) =
      .ok (Val.entity cls (assignProp field (Val.array [lookupProp field props, b]) props),
        last + 1) := by
  cases hcur : lookupProp field props with
  | array items => rw [hcur] at harray; simp [isArray] at harray
  | undefined => rw [hcur] at htruthy; simp [truthy] at htruthy
  | null => rw [hcur] at htruthy; simp [truthy] at htruthy
  | num n =>
    rw [hcur] at hid htruthy
    have hundef : currentId = Val.undefined := by
      simp only [getProp] at hid
      cases hid
      rfl
    subst hundef
    cases type <;> first
      | exact absurd rfl htype
      | simp [hydrateEntry, hfield, hvalue, hcur, htruthy, hid, hne, getProp, setProp, hsub,
          bind, Except.bind, pure, Except.pure]
  | str s =>
    rw [hcur] at hid htruthy
    have hundef : currentId = Val.undefined := by
      simp only [getProp] at hid
      cases hid
      rfl
    subst hundef
    cases type <;> first
      | exact absurd rfl htype
      | simp [hydrateEntry, hfield, hvalue, hcur, htruthy, hid, hne, getProp, setProp, hsub,
          bind, Except.bind, pure, Except.pure]
  | bool v =>
    rw [hcur] at hid htruthy
    have hundef : currentId = Val.undefined := by
      simp only [getProp] at hid
      cases hid
      rfl
    subst hundef
    cases type <;> first
      | exact absurd rfl htype
      | simp [hydrateEntry, hfield, hvalue, hcur, htruthy, hid, hne, getProp, setProp, hsub,
          bind, Except.bind, pure, Except.pure]
  | entity ecls eprops =>
    rw [hcur] at hid htruthy
    have hundef : currentId = lookupProp "id" eprops := by
      simp only [getProp] at hid
      cases hid
      rfl
    subst hundef
    cases type <;> first
      | exact absurd rfl htype
      | simp [hydrateEntry, hfield, hvalue, hcur, htruthy, hid, hne, getProp, setProp, hsub,
          bind, Except.bind, pure, Except.pure]


/-- C8 on a row of `User.with(Post)`. -/
theorem hydrate_cursor_discipline_witness :
    ∃ e1 r, hydrate [Cell.num 1, Cell.str "ann", Cell.num 10, Cell.num 1]
        (newEntity userClass) 0 userPostMap = .ok (e1, r) ∧
      (r = 0 + columnCount userPostMap - 1 ∧
        ∀ (front : List FieldEntry) (entry : FieldEntry) (back : List FieldEntry),
          userPostMap = front ++ entry :: back →
          ∃ e2 e3, hydrate [Cell.num 1, Cell.str "ann", Cell.num 10, Cell.num 1]
              (newEntity userClass) 0 front = .ok (e2, 0 + columnCount front - 1) ∧
            hydrateEntry [Cell.num 1, Cell.str "ann", Cell.num 10, Cell.num 1] e2
              (0 + columnCount front) entry = .ok (e3, 0 + columnCount front + entry.columnCount) ∧
            hydrate [Cell.num 1, Cell.str "ann", Cell.num 10, Cell.num 1] e3
              (0 + columnCount front + entry.columnCount) back = .ok (e1, r)) :=
  ⟨_, _, rfl, hydrate_cursor_discipline _ _ _ _ _ _ rfl⟩

/-- C6. Null-child boundary: when the column at a `single` / `many` entry's first
position is null and the target field was not set before, `#hydrate` stores `null`
(`single`) or an empty array (`many`) in the field, and continues with the entries that
follow at the cursor advanced by the column count of the child's sub-map. -/
theorem hydrate_null_child (data : List Cell) (entity : Val) (c : Int)
    (field0 field : String) (bound : EntityClass) (type : MapType)
    (sub rest : List FieldEntry) (b : Val) (last : Int)
    (htype : type ≠ MapType.includeType)
    (hfield : resolveField entity field0 bound = .ok field)
    (hnull : rowAt data c = Val.null)
    (hunset : getProp entity field = .ok Val.undefined)
    (hsub : hydrate data (newEntity bound) c sub = .ok (b, last)) :
    ∃ entity1,
      setProp entity field (if type = MapType.single then Val.null else Val.array []) =
        .ok entity1 ∧
      getProp entity1 field = .ok (if type = MapType.single then Val.null else Val.array []) ∧
      hydrateEntry data entity c (FieldEntry.nested field0 bound type sub) =
        .ok (entity1, c + columnCount sub) ∧
      hydrate data entity c (FieldEntry.nested field0 bound type sub :: rest) =
        hydrate data entity1 (c + columnCount sub) rest := by
  obtain ⟨cls, props, rfl, -⟩ := resolveField_entity entity field0 field bound hfield
  have hcur : lookupProp field props = Val.undefined := by
    simp only [getProp] at hunset
    exact Except.ok.inj hunset
  have hstep := hydrateEntry_null data cls props c field0 field bound type sub b last htype
    hfield hnull hsub
  have hlast := hydrate_cursor data sub _ c b last hsub
  have hcursor : last + 1 = c + columnCount sub := by omega
  rw [hcur, hcursor] at hstep
  simp only [isArray, Bool.not_false, Bool.true_and, decide_eq_true_eq] at hstep
  refine ⟨_, rfl, ?_, hstep, ?_⟩
  · simp [getProp, lookupProp_assignProp]
  · simp only [hydrate, hstep, bind, Except.bind]

/-- C6 on a row of `User.with(Post)` whose `Post` key is null. -/
theorem hydrate_null_child_witness :
    ∃ entity1,
      setProp (Val.entity userClass [("id", Val.num 1), ("name", Val.str "ann"),
          ("posts", Val.undefined)]) "posts"
        (if MapType.many = MapType.single then Val.null else Val.array []) = .ok entity1 ∧
      getProp entity1 "posts" =
        .ok (if MapType.many = MapType.single then Val.null else Val.array []) ∧
      hydrateEntry [Cell.num 1, Cell.str "ann", Cell.null, Cell.null]
        (Val.entity userClass [("id", Val.num 1), ("name", Val.str "ann"),
          ("posts", Val.undefined)]) 2
        (FieldEntry.nested "post" postClass MapType.many
          [FieldEntry.scalar "id" "id", FieldEntry.scalar "userId" "user_id"]) =
        .ok (entity1, 2 + columnCount
          [FieldEntry.scalar "id" "id", FieldEntry.scalar "userId" "user_id"]) ∧
      hydrate [Cell.num 1, Cell.str "ann", Cell.null, Cell.null]
        (Val.entity userClass [("id", Val.num 1), ("name", Val.str "ann"),
          ("posts", Val.undefined)]) 2
        (FieldEntry.nested "post" postClass MapType.many
          [FieldEntry.scalar "id" "id", FieldEntry.scalar "userId" "user_id"] :: []) =
        hydrate [Cell.num 1, Cell.str "ann", Cell.null, Cell.null] entity1
          (2 + columnCount [FieldEntry.scalar "id" "id", FieldEntry.scalar "userId" "user_id"])
          [] :=
  hydrate_null_child [Cell.num 1, Cell.str "ann", Cell.null, Cell.null] _ 2 "post" "posts"
    postClass MapType.many _ [] _ _ (by decide) rfl rfl rfl rfl

/-- C7. For `User.with(Post.with(Comment))` and the rows (user 1, post 10, comment 100),
(user 1, post 10, comment 101), the second row repeats the key of the last `Post`;
line 245 binds the key `10` itself instead of that `Post`, and hydrating the `Comment`
entry into the number throws, so `execute` rejects where the claim expects one user
whose post 10 holds the comments 100 and 101. The first row alone hydrates. -/
theorem execute_repeated_child_key_throws :
    execute userPostCommentTree (fun _ => .ok
        [[Cell.num 1, Cell.str "ann", Cell.num 10, Cell.num 1, Cell.num 100, Cell.num 10],
         [Cell.num 1, Cell.str "ann", Cell.num 10, Cell.num 1, Cell.num 101, Cell.num 10]]) =
      .error (.error (fieldMessage "Number" "Comment" "comment")) ∧
    execute userPostCommentTree (fun _ => .ok
        [[Cell.num 1, Cell.str "ann", Cell.num 10, Cell.num 1, Cell.num 100, Cell.num 10]]) =
      .ok [Val.entity userClass [("id", Val.num 1), ("name", Val.str "ann"),
        ("posts", Val.array [Val.entity postClass [("id", Val.num 10), ("userId", Val.num 1),
          ("comments", Val.array [Val.entity commentClass
            [("id", Val.num 100), ("postId", Val.num 10)]])]])]] :=
  ⟨rfl, rfl⟩

/-- C9 fails: two rows of one `Order` carrying the `Address` keys 10 and 11 do not make
hydration fail; the `single` field `address` ends as a two-element array. -/
theorem single_collision_counterexample :
    hydrateRows orderClass orderAddressMap [] none
        [[Cell.num 1, Cell.num 10, Cell.num 10, Cell.str "a"],
         [Cell.num 1, Cell.num 11, Cell.num 11, Cell.str "b"]] =
      .ok [Val.entity orderClass [("id", Val.num 1), ("addressId", Val.num 10),
        ("address", Val.array
          [Val.entity addressClass [("id", Val.num 10), ("street", Val.str "a")],
           Val.entity addressClass [("id", Val.num 11), ("street", Val.str "b")]]),
        ("street", Val.undefined)]] :=
  rfl

/-- C9 as amended. When a `single` field already holds a value that is not an array and
whose `id` differs from the non-null child key of the row, `#hydrate` does not fail: it
hydrates a new child from the row and stores the array of the previous value and the
new child in the field. -/
theorem hydrate_single_collision_builds_list (data : List Cell) (entity : Val) (c : Int)
    (field0 field : String) (bound : EntityClass) (sub : List FieldEntry)
    (current currentId b : Val) (last : Int)
    (hfield : resolveField entity field0 bound = .ok field)
    (hvalue : strictEq (rowAt data c) Val.null = false)
    (hcurrent : getProp entity field = .ok current)
    (htruthy : truthy current = true) (harray : isArray current = false)
    (hid : getProp current "id" = .ok currentId)
    (hne : strictEq currentId (rowAt data c) = false)
    (hsub : hydrate data (newEntity bound) c sub = .ok (b, last)) :
    ∃ entity1,
      hydrateEntry data entity c (FieldEntry.nested field0 bound MapType.single sub) =
        .ok (entity1, last + 1) ∧
      getProp entity1 field = .ok (Val.array [current, b]) := by
  obtain ⟨cls, props, rfl, -⟩ := resolveField_entity entity field0 field bound hfield
  have hcur : lookupProp field props = current := by
    simp only [getProp] at hcurrent
    exact Except.ok.inj hcurrent
  subst hcur
  refine ⟨_, hydrateEntry_collision data cls props c field0 field bound MapType.single sub
    currentId b last (by decide) hfield hvalue htruthy harray hid hne hsub, ?_⟩
  simp [getProp, lookupProp_assignProp]

/-- C9 as amended, on an `Order` holding `Address` 10 and a row carrying `Address` 11. -/
theorem hydrate_single_collision_builds_list_witness :
    ∃ entity1,
      hydrateEntry [Cell.num 1, Cell.num 11, Cell.num 11, Cell.str "b"]
        (Val.entity orderClass [("id", Val.num 1), ("addressId", Val.num 10),
          ("address", Val.entity addressClass [("id", Val.num 10), ("street", Val.str "a")]),
          ("street", Val.undefined)]) 2
        (FieldEntry.nested "address" addressClass MapType.single
          [FieldEntry.scalar "id" "id", FieldEntry.scalar "street" "street"]) =
        .ok (entity1, 3 + 1) ∧
      getProp entity1 "address" =
        .ok (Val.array [Val.entity addressClass [("id", Val.num 10), ("street", Val.str "a")],
          Val.entity addressClass [("id", Val.num 11), ("street", Val.str "b")]]) :=
  hydrate_single_collision_builds_list [Cell.num 1, Cell.num 11, Cell.num 11, Cell.str "b"]
    _ 2 "address" "address" addressClass _ _ (Val.num 10) _ 3 rfl rfl rfl rfl rfl rfl rfl rfl


theorem columnsMap_scalarEntries :
    ∀ (keys : List String) (m : List FieldEntry), columnsMap keys = .ok m →
      ∃ pairs, m = scalarEntries pairs ∧ pairs.map Prod.snd = keys
  | [], m, h => by
    simp only [columnsMap] at h
    cases h
    exact ⟨[], rfl, rfl⟩
  | key :: keys, m, h => by
    simp only [columnsMap] at h
    obtain ⟨f, -, h⟩ := bind_eq_ok h
    obtain ⟨rest, hrest, h⟩ := bind_eq_ok h
    obtain ⟨pairs, hp, hk⟩ := columnsMap_scalarEntries keys rest hrest
    cases h
    exact ⟨(f, key) :: pairs, by simp [scalarEntries, hp], by simp [hk]⟩

theorem getFieldsMap_createAs_entity (parentCls childCls : EntityClass) (options : JoinOptions)
    (r : Resolved) (ownParent ownChild : List FieldEntry)
    (hr : resolve parentCls childCls options = .ok r)
    (hP : columnsMap parentCls.columns = .ok ownParent)
    (hC : columnsMap childCls.columns = .ok ownChild) :
    getFieldsMap (EntityQueryJoin.createAs parentCls (Child.entity childCls) options) =
      .ok (ownParent ++ (ownChild ++
            [FieldEntry.nested r.field r.entityClass MapType.includeType []]),
           [Join.mk r []]) := by
  simp [getFieldsMap, EntityQueryJoin.createAs, compileChildren, compileChild, hr, hP, hC,
    pushJoin, bind, Except.bind, pure, Except.pure]

theorem hydrate_include_marker (data : List Cell) (front : List FieldEntry) (field : String)
    (cls : EntityClass) (sub : List FieldEntry) (entity : Val) (c : Int) :
    hydrate data entity c (front ++ [FieldEntry.nested field cls MapType.includeType sub]) =
      hydrate data entity c front := by
  rw [hydrate_append]
  cases hfront : hydrate data entity c front with
  | error e => rfl
  | ok p =>
    simp only [bind, Except.bind, hydrate, hydrateEntry, pure, Except.pure]
    congr 2
    ring

/-- Flatten semantics when `as` is the first relation (`EntityQueryJoin.createAs`, reached
by the static `Entity.as` and by `EntityQuery.as` on a query without relation): the
compiled field map is A's columns, then B's columns as entries of A's own level, then an
include marker with an empty sub-map; hydrating any row with it is hydrating the flat
column list into the entity itself (the marker changes neither the entity nor the
cursor), and the field named after B keeps its value whenever no column of A or B is
decoded into a field of that very name. -/
theorem as_flattens (a b : EntityClass) (options : JoinOptions) (r : Resolved)
    (ownA ownB : List FieldEntry)
    (hr : resolve a b options = .ok r)
    (hA : columnsMap a.columns = .ok ownA) (hB : columnsMap b.columns = .ok ownB) :
    getFieldsMap (EntityQueryJoin.createAs a (Child.entity b) options) =
      .ok (ownA ++ (ownB ++ [FieldEntry.nested r.field b MapType.includeType []]),
           [Join.mk r []]) ∧
    scalarColumns (ownA ++ ownB) = a.columns ++ b.columns ∧
    (∀ (data : List Cell) (entity : Val) (c : Int),
      hydrate data entity c
          (ownA ++ (ownB ++ [FieldEntry.nested r.field b MapType.includeType []])) =
        hydrate data entity c (ownA ++ ownB)) ∧
    (∀ (data : List Cell) (cls : EntityClass) (props : List (String × Val)) (c : Int)
        (e1 : Val) (r1 : Int),
      (∀ column, FieldEntry.scalar r.field column ∉ ownA ++ ownB) →
      hydrate data (Val.entity cls props) c
          (ownA ++ (ownB ++ [FieldEntry.nested r.field b MapType.includeType []])) =
        .ok (e1, r1) →
      getProp e1 r.field = .ok (lookupProp r.field props)) := by
  have hcls := resolve_entityClass a b options r hr
  have hmarker : ∀ (data : List Cell) (entity : Val) (c : Int),
      hydrate data entity c
          (ownA ++ (ownB ++ [FieldEntry.nested r.field b MapType.includeType []])) =
        hydrate data entity c (ownA ++ ownB) := by
    intro data entity c
    rw [← List.append_assoc]
    exact hydrate_include_marker data (ownA ++ ownB) r.field b [] entity c
  refine ⟨?_, ?_, hmarker, ?_⟩
  · rw [getFieldsMap_createAs_entity a b options r ownA ownB hr hA hB, hcls]
  · rw [scalarColumns_append, columnsMap_scalarColumns _ _ hA, columnsMap_scalarColumns _ _ hB]
  · intro data cls props c e1 r1 hfree h
    rw [hmarker] at h
    obtain ⟨pa, rfl, -⟩ := columnsMap_scalarEntries _ _ hA
    obtain ⟨pb, rfl, -⟩ := columnsMap_scalarEntries _ _ hB
    have hjoin : scalarEntries pa ++ scalarEntries pb = scalarEntries (pa ++ pb) := by
      simp [scalarEntries]
    rw [hjoin] at h hfree
    obtain ⟨props1, h1, -, hother, -⟩ := hydrate_scalars data cls (pa ++ pb) props c
    rw [h1] at h
    cases h
    have hne : ∀ p ∈ pa ++ pb, p.1 ≠ r.field := by
      intro p hp heq
      apply hfree p.2
      simp only [scalarEntries, List.mem_map]
      exact ⟨p, hp, by rw [← heq]⟩
    simp [getProp, hother r.field hne]

/-- The flattening of `Order.as(Address)`, `as` being the first relation. -/
theorem as_flattens_witness :
    getFieldsMap (EntityQueryJoin.createAs orderClass (Child.entity addressClass) {}) =
      .ok ([FieldEntry.scalar "id" "id", FieldEntry.scalar "addressId" "address_id"] ++
            ([FieldEntry.scalar "id" "id", FieldEntry.scalar "street" "street"] ++
              [FieldEntry.nested "address" addressClass MapType.includeType []]),
           [Join.mk (Resolved.mk addressClass "address" "id" "address_id" none) []]) ∧
    scalarColumns ([FieldEntry.scalar "id" "id", FieldEntry.scalar "addressId" "address_id"] ++
        [FieldEntry.scalar "id" "id", FieldEntry.scalar "street" "street"]) =
      orderClass.columns ++ addressClass.columns ∧
    (∀ (data : List Cell) (entity : Val) (c : Int),
      hydrate data entity c
          ([FieldEntry.scalar "id" "id", FieldEntry.scalar "addressId" "address_id"] ++
            ([FieldEntry.scalar "id" "id", FieldEntry.scalar "street" "street"] ++
              [FieldEntry.nested "address" addressClass MapType.includeType []])) =
        hydrate data entity c
          ([FieldEntry.scalar "id" "id", FieldEntry.scalar "addressId" "address_id"] ++
            [FieldEntry.scalar "id" "id", FieldEntry.scalar "street" "street"])) ∧
    (∀ (data : List Cell) (cls : EntityClass) (props : List (String × Val)) (c : Int)
        (e1 : Val) (r1 : Int),
      (∀ column, FieldEntry.scalar "address" column ∉
        [FieldEntry.scalar "id" "id", FieldEntry.scalar "addressId" "address_id"] ++
          [FieldEntry.scalar "id" "id", FieldEntry.scalar "street" "street"]) →
      hydrate data (Val.entity cls props) c
          ([FieldEntry.scalar "id" "id", FieldEntry.scalar "addressId" "address_id"] ++
            ([FieldEntry.scalar "id" "id", FieldEntry.scalar "street" "street"] ++
              [FieldEntry.nested "address" addressClass MapType.includeType []])) =
        .ok (e1, r1) →
      getProp e1 "address" = .ok (lookupProp "address" props)) :=
  as_flattens orderClass addressClass {}
    (Resolved.mk addressClass "address" "id" "address_id" none) _ _ rfl rfl rfl


theorem rowAt_zero (x : Cell) (rest : List Cell) : rowAt (x :: rest) 0 = x.toVal := by
  simp [rowAt]

theorem getElem?_middle (y : Cell) (b : List Cell) :
    ∀ a : List Cell, (a ++ y :: b)[a.length]? = some y
  | [] => by simp
  | _ :: a => by simpa using getElem?_middle y b a

theorem rowAt_after (x y : Cell) (a b : List Cell) (k : Int) (hk : k = a.length + 1) :
    rowAt (x :: (a ++ y :: b)) k = y.toVal := by
  subst hk
  have h1 : ¬ ((a.length : Int) + 1 < 0) := by omega
  have h2 : ((a.length : Int) + 1).toNat = a.length + 1 := by omega
  simp only [rowAt, h1, h2, if_false, List.getElem?_cons_succ, getElem?_middle]

theorem lookupProp_undefined (g : String) :
    ∀ keys : List String, lookupProp g (keys.map (fun k => (k, Val.undefined))) = Val.undefined
  | [] => rfl
  | k :: ks => by
    by_cases h : k = g
    · simp [lookupProp, h]
    · simp [lookupProp, h, lookupProp_undefined g ks]

theorem newProps_cons (cls : EntityClass) :
    ∃ rest, newProps cls = ("id", Val.undefined) :: rest :=
  ⟨((uniqueKeys cls.fields).filter (fun x => x != "id")).map (fun k => (k, Val.undefined)),
    by simp [newProps, uniqueKeys]⟩

theorem hydrate_new_scalars (data : List Cell) (cls : EntityClass) (column : String)
    (pairs : List (String × String)) (c : Int) :
    ∃ props1, hydrate data (newEntity cls) c (scalarEntries (("id", column) :: pairs)) =
        .ok (Val.entity cls props1, c + pairs.length) ∧
      props1.map Prod.fst = (newProps cls).map Prod.fst ∧
      ((∀ p ∈ pairs, p.1 ≠ "id") ∨ truthy (rowAt data c) = true →
        lookupProp "id" props1 = rowAt data c) ∧
      (∀ g, g ≠ "id" → (∀ p ∈ pairs, p.1 ≠ g) → lookupProp g props1 = Val.undefined) := by
  obtain ⟨rest, hrest⟩ := newProps_cons cls
  have hmem : "id" ∈ (newProps cls).map Prod.fst := by simp [hrest]
  have hcond : (!truthy (lookupProp "id" (newProps cls)) &&
      ((newProps cls).map Prod.fst).contains "id") = true := by
    simp [hrest, lookupProp, truthy]
  obtain ⟨props1, h1, hk, hother, htruthy⟩ :=
    hydrate_scalars data cls pairs (assignProp "id" (rowAt data c) (newProps cls)) (c + 1)
  refine ⟨props1, ?_, ?_, ?_, ?_⟩
  · simp only [newEntity, scalarEntries, List.map_cons, hydrate, hydrateEntry_scalar, hcond,
      if_true, bind, Except.bind]
    simp only [scalarEntries] at h1
    rw [h1]
    congr 2
    ring
  · rw [hk, keys_assignProp "id" _ _ hmem]
  · intro h
    rcases h with h | h
    · rw [hother "id" h, lookupProp_assignProp]
      simp
    · have : truthy (lookupProp "id" (assignProp "id" (rowAt data c) (newProps cls))) = true := by
        rw [lookupProp_assignProp]; simpa using h
      rw [htruthy "id" this, lookupProp_assignProp]
      simp
  · intro g hg hpairs
    rw [hother g hpairs, lookupProp_assignProp]
    simp only [hg, if_false]
    exact lookupProp_undefined g _

theorem toVal_strictEq_null (v : Cell) (h : v ≠ Cell.null) :
    strictEq v.toVal Val.null = false := by
  cases v <;> simp_all [Cell.toVal, strictEq]

theorem hydrate_many_new_root (rootCls childCls : EntityClass)
    (field0 field idColumn childIdColumn : String)
    (rootPairs childPairs : List (String × String))
    (rootId : Int) (a b : List Cell) (childId : Cell)
    (hfield : resolveField (newEntity rootCls) field0 childCls = .ok field)
    (hfid : field ≠ "id") (hroot : ∀ p ∈ rootPairs, p.1 ≠ field)
    (hchild : ∀ p ∈ childPairs, p.1 ≠ "id")
    (hrootId : rootId ≠ 0) (ha : a.length = rootPairs.length) (hnull : childId ≠ Cell.null) :
    ∃ props1 child last,
      hydrate (Cell.num rootId :: (a ++ childId :: b)) (newEntity rootCls) 0
        (scalarEntries (("id", idColumn) :: rootPairs) ++
          [FieldEntry.nested field0 childCls MapType.many
            (scalarEntries (("id", childIdColumn) :: childPairs))]) =
        .ok (Val.entity rootCls props1, last) ∧
      props1.map Prod.fst = (newProps rootCls).map Prod.fst ∧
      lookupProp "id" props1 = Val.num rootId ∧
      lookupProp field props1 = Val.array [child] ∧
      getProp child "id" = .ok childId.toVal := by
  obtain ⟨props0, h0, hk0, hid0, hother0⟩ :=
    hydrate_new_scalars (Cell.num rootId :: (a ++ childId :: b)) rootCls idColumn rootPairs 0
  obtain ⟨cprops, hc, -, hcid, -⟩ :=
    hydrate_new_scalars (Cell.num rootId :: (a ++ childId :: b)) childCls childIdColumn
      childPairs (0 + (rootPairs.length : Int) + 1)
  have hat : rowAt (Cell.num rootId :: (a ++ childId :: b)) (0 + (rootPairs.length : Int) + 1) =
      childId.toVal := rowAt_after _ _ _ _ _ (by rw [ha]; ring)
  have hres : resolveField (Val.entity rootCls props0) field0 childCls = .ok field := by
    rw [resolveField_keys rootCls rootCls props0 (newProps rootCls) field0 childCls rfl hk0]
    exact hfield
  have hstep := hydrateEntry_fresh (Cell.num rootId :: (a ++ childId :: b)) rootCls props0
    (0 + (rootPairs.length : Int) + 1) field0 field childCls MapType.many _ _ _ (by decide) hres
    (by rw [hat]; exact toVal_strictEq_null _ hnull)
    (by rw [hother0 field hfid hroot]; rfl) hc
  refine ⟨assignProp field (Val.array [Val.entity childCls cprops]) props0,
    Val.entity childCls cprops,
    0 + (rootPairs.length : Int) + 1 + (childPairs.length : Int) + 1 - 1, ?_, ?_, ?_, ?_, ?_⟩
  · rw [hydrate_append, h0]
    simp only [bind, Except.bind, hydrate, hstep]
    rfl
  · rw [keys_assignProp field _ _ (by
      obtain ⟨_, _, he, hm⟩ := resolveField_entity _ _ _ _ hres
      cases he
      exact hm), hk0]
  · rw [lookupProp_assignProp]
    have hne : ¬ ("id" = field) := fun e => hfid e.symm
    simp only [hne, if_false]
    rw [hid0 (Or.inr (by rw [rowAt_zero]; simp [Cell.toVal, truthy, hrootId])), rowAt_zero]
    rfl
  · rw [lookupProp_assignProp]
    simp
  · rw [← hat]
    simp [getProp, hcid (Or.inl hchild)]


theorem hydrate_many_same_root (rootCls childCls : EntityClass)
    (field0 field idColumn childIdColumn : String)
    (rootPairs childPairs : List (String × String))
    (props : List (String × Val)) (items : List Val)
    (rootId : Cell) (a b : List Cell) (childId : Cell)
    (hfield : resolveField (newEntity rootCls) field0 childCls = .ok field)
    (hfid : field ≠ "id") (hroot : ∀ p ∈ rootPairs, p.1 ≠ field)
    (hchild : ∀ p ∈ childPairs, p.1 ≠ "id")
    (ha : a.length = rootPairs.length) (hnull : childId ≠ Cell.null)
    (hkeys : props.map Prod.fst = (newProps rootCls).map Prod.fst)
    (hid : truthy (lookupProp "id" props) = true)
    (hitems : lookupProp field props = Val.array items)
    (hlast : reusedLast items childId.toVal = .ok none) :
    ∃ props1 child last,
      hydrate (rootId :: (a ++ childId :: b)) (Val.entity rootCls props) 0
        (scalarEntries (("id", idColumn) :: rootPairs) ++
          [FieldEntry.nested field0 childCls MapType.many
            (scalarEntries (("id", childIdColumn) :: childPairs))]) =
        .ok (Val.entity rootCls props1, last) ∧
      props1.map Prod.fst = (newProps rootCls).map Prod.fst ∧
      lookupProp "id" props1 = lookupProp "id" props ∧
      lookupProp field props1 = Val.array (items ++ [child]) ∧
      getProp child "id" = .ok childId.toVal := by
  obtain ⟨props0, h0, hk0, hother0, htruthy0⟩ :=
    hydrate_scalars (rootId :: (a ++ childId :: b)) rootCls (("id", idColumn) :: rootPairs) props 0
  obtain ⟨cprops, hc, -, hcid, -⟩ :=
    hydrate_new_scalars (rootId :: (a ++ childId :: b)) childCls childIdColumn
      childPairs (0 + (rootPairs.length : Int) + 1)
  have hat : rowAt (rootId :: (a ++ childId :: b)) (0 + (rootPairs.length : Int) + 1) =
      childId.toVal := rowAt_after _ _ _ _ _ (by rw [ha]; ring)
  have hres : resolveField (Val.entity rootCls props0) field0 childCls = .ok field := by
    rw [resolveField_keys rootCls rootCls props0 (newProps rootCls) field0 childCls rfl
      (hk0.trans hkeys)]
    exact hfield
  have hfree : ∀ p ∈ ("id", idColumn) :: rootPairs, p.1 ≠ field := by
    intro p hp
    rcases List.mem_cons.mp hp with h | h
    · rw [h]; exact fun e => hfid e.symm
    · exact hroot p h
  have hstep := hydrateEntry_push (rootId :: (a ++ childId :: b)) rootCls props0
    (0 + (rootPairs.length : Int) + 1) field0 field childCls MapType.many _ items _ _
    (by decide) hres (by rw [hat]; exact toVal_strictEq_null _ hnull)
    (by rw [hother0 field hfree]; exact hitems) (by rw [hat]; exact hlast) hc
  have hlen : (0 : Int) + ((("id", idColumn) :: rootPairs).length : Int) - 1 + 1 =
      0 + (rootPairs.length : Int) + 1 := by
    simp only [List.length_cons]
    push_cast
    ring
  refine ⟨assignProp field (Val.array (items ++ [Val.entity childCls cprops])) props0,
    Val.entity childCls cprops,
    0 + (rootPairs.length : Int) + 1 + (childPairs.length : Int) + 1 - 1, ?_, ?_, ?_, ?_, ?_⟩
  · rw [hydrate_append, h0]
    simp only [bind, Except.bind, hydrate, hlen, hstep]
  · rw [keys_assignProp field _ _ (by
      obtain ⟨_, _, he, hm⟩ := resolveField_entity _ _ _ _ hres
      cases he
      exact hm), hk0, hkeys]
  · rw [lookupProp_assignProp]
    have hne : ¬ ("id" = field) := fun e => hfid e.symm
    simp only [hne, if_false]
    exact htruthy0 "id" hid
  · rw [lookupProp_assignProp]
    simp
  · rw [← hat]
    simp [getProp, hcid (Or.inl hchild)]

/-- C5. Many-row grouping. For a field map made of the root's columns (`id` first)
followed by one `many` entry over the child's columns (`id` first), a root class that
declares the relation field, and three rows whose root keys are 1, 1, 2 and whose child
keys are 10, 11 and a non-null `c`, the loop of `execute` returns exactly two roots: the
first with `id` 1 and the children 10, 11 in that order, the second with `id` 2 and the
single child `c`. In general the loop starts a new root exactly when `row[0]` is not
strictly equal to the `id` of the current root. -/
theorem many_row_grouping (rootCls childCls : EntityClass)
    (field0 field idColumn childIdColumn : String)
    (rootPairs childPairs : List (String × String))
    (a1 a2 a3 b1 b2 b3 : List Cell) (c3 : Cell)
    (hfield : resolveField (newEntity rootCls) field0 childCls = .ok field)
    (hfid : field ≠ "id") (hroot : ∀ p ∈ rootPairs, p.1 ≠ field)
    (hchild : ∀ p ∈ childPairs, p.1 ≠ "id")
    (ha1 : a1.length = rootPairs.length) (ha2 : a2.length = rootPairs.length)
    (ha3 : a3.length = rootPairs.length) (hc3 : c3 ≠ Cell.null) :
    (∃ root1 root2 child10 child11 child3,
      hydrateRows rootCls
        (scalarEntries (("id", idColumn) :: rootPairs) ++
          [FieldEntry.nested field0 childCls MapType.many
            (scalarEntries (("id", childIdColumn) :: childPairs))]) [] none
        [Cell.num 1 :: (a1 ++ Cell.num 10 :: b1), Cell.num 1 :: (a2 ++ Cell.num 11 :: b2),
         Cell.num 2 :: (a3 ++ c3 :: b3)] = .ok [root1, root2] ∧
      getProp root1 "id" = .ok (Val.num 1) ∧
      getProp root1 field = .ok (Val.array [child10, child11]) ∧
      getProp child10 "id" = .ok (Val.num 10) ∧ getProp child11 "id" = .ok (Val.num 11) ∧
      getProp root2 "id" = .ok (Val.num 2) ∧
      getProp root2 field = .ok (Val.array [child3]) ∧
      getProp child3 "id" = .ok c3.toVal) ∧
    (∀ (cls : EntityClass) (fieldMaps : List FieldEntry) (response : List Val)
        (entity entityId : Val) (rowData : List Cell) (rows : List (List Cell)),
      getProp entity "id" = .ok entityId →
      hydrateRows cls fieldMaps response (some entity) (rowData :: rows) =
        if strictEq entityId (rowAt rowData 0) = true then
          hydrate rowData entity 0 fieldMaps >>= fun p =>
            hydrateRows cls fieldMaps response (some p.1) rows
        else
          hydrate rowData (newEntity cls) 0 fieldMaps >>= fun p =>
            hydrateRows cls fieldMaps (response ++ [entity]) (some p.1) rows) := by
  constructor
  · obtain ⟨p1, ch10, l1, h1, hk1, hid1, hf1, hch10⟩ :=
      hydrate_many_new_root rootCls childCls field0 field idColumn childIdColumn rootPairs
        childPairs 1 a1 b1 (Cell.num 10) hfield hfid hroot hchild (by decide) ha1 (by decide)
    have hlast : reusedLast [ch10] (Cell.num 11).toVal = .ok none := by
      simp [reusedLast, hch10, Cell.toVal, strictEq, bind, Except.bind, pure, Except.pure]
    obtain ⟨p2, ch11, l2, h2, hk2, hid2, hf2, hch11⟩ :=
      hydrate_many_same_root rootCls childCls field0 field idColumn childIdColumn rootPairs
        childPairs p1 [ch10] (Cell.num 1) a2 b2 (Cell.num 11) hfield hfid hroot hchild ha2
        (by decide) hk1 (by rw [hid1]; rfl) hf1 hlast
    obtain ⟨p3, ch3, l3, h3, hk3, hid3, hf3, hch3⟩ :=
      hydrate_many_new_root rootCls childCls field0 field idColumn childIdColumn rootPairs
        childPairs 2 a3 b3 c3 hfield hfid hroot hchild (by decide) ha3 hc3
    refine ⟨Val.entity rootCls p2, Val.entity rootCls p3, ch10, ch11, ch3, ?_, ?_, ?_,
      hch10, hch11, ?_, ?_, hch3⟩
    · have e1 : strictEq Val.undefined (rowAt (Cell.num 1 :: (a1 ++ Cell.num 10 :: b1)) 0) =
          false := by rw [rowAt_zero]; rfl
      have e2 : strictEq (lookupProp "id" p1)
          (rowAt (Cell.num 1 :: (a2 ++ Cell.num 11 :: b2)) 0) = true := by
        rw [rowAt_zero, hid1]; rfl
      have e3 : strictEq (lookupProp "id" p2) (rowAt (Cell.num 2 :: (a3 ++ c3 :: b3)) 0) =
          false := by
        rw [rowAt_zero, hid2, hid1]; rfl
      simp [hydrateRows, e1, e2, e3, h1, h2, h3, getProp, bind, Except.bind, pure, Except.pure]
    · simp [getProp, hid2, hid1]
    · simp [getProp, hf2]
    · simp [getProp, hid3]
    · simp [getProp, hf3]
  · intro cls fieldMaps response entity entityId rowData rows hid
    simp only [hydrateRows, hid, bind, Except.bind, pure, Except.pure]
    cases strictEq entityId (rowAt rowData 0) <;> simp


/-- C5 on `User.with(Post)`: three rows with the user keys 1, 1, 2 and the post keys 10,
11, 12. -/
theorem many_row_grouping_witness :
    (∃ root1 root2 child10 child11 child3,
      hydrateRows userClass
        (scalarEntries (("id", "id") :: [("name", "name")]) ++
          [FieldEntry.nested "post" postClass MapType.many
            (scalarEntries (("id", "id") :: [("userId", "user_id")]))]) [] none
        [Cell.num 1 :: ([Cell.str "ann"] ++ Cell.num 10 :: [Cell.num 1]),
         Cell.num 1 :: ([Cell.str "ann"] ++ Cell.num 11 :: [Cell.num 1]),
         Cell.num 2 :: ([Cell.str "bob"] ++ Cell.num 12 :: [Cell.num 2])] = .ok [root1, root2] ∧
      getProp root1 "id" = .ok (Val.num 1) ∧
      getProp root1 "posts" = .ok (Val.array [child10, child11]) ∧
      getProp child10 "id" = .ok (Val.num 10) ∧ getProp child11 "id" = .ok (Val.num 11) ∧
      getProp root2 "id" = .ok (Val.num 2) ∧
      getProp root2 "posts" = .ok (Val.array [child3]) ∧
      getProp child3 "id" = .ok (Cell.num 12).toVal) ∧
    (∀ (cls : EntityClass) (fieldMaps : List FieldEntry) (response : List Val)
        (entity entityId : Val) (rowData : List Cell) (rows : List (List Cell)),
      getProp entity "id" = .ok entityId →
      hydrateRows cls fieldMaps response (some entity) (rowData :: rows) =
        if strictEq entityId (rowAt rowData 0) = true then
          hydrate rowData entity 0 fieldMaps >>= fun p =>
            hydrateRows cls fieldMaps response (some p.1) rows
        else
          hydrate rowData (newEntity cls) 0 fieldMaps >>= fun p =>
            hydrateRows cls fieldMaps (response ++ [entity]) (some p.1) rows) :=
  many_row_grouping userClass postClass "post" "posts" "id" "id" [("name", "name")]
    [("userId", "user_id")] [Cell.str "ann"] [Cell.str "ann"] [Cell.str "bob"]
    [Cell.num 1] [Cell.num 1] [Cell.num 2] (Cell.num 12)
    rfl (by decide) (by decide) (by decide) rfl rfl rfl (by decide)

/-- C11. For `Author.with(Book).with(Award)` and the sorted cross product of the books 10, 11
with the awards 100, 101 of author 1, `#hydrate` compares each award key with the last
element of `awards` only, so the awards 100 and 101 are pushed again when the book
changes: `awards` holds the keys 100, 101, 100, 101 where the claim says every key occurs
once. The row stream is in the order of the compiled `ORDER BY`. -/
theorem execute_sibling_many_duplicates :
    execute authorBooksAwardsTree (fun _ => .ok authorCrossProductRows) =
      .ok [Val.entity authorClass [("id", Val.num 1), ("name", Val.str "amy"),
        ("books", Val.array
          [Val.entity bookClass [("id", Val.num 10), ("authorId", Val.num 1)],
           Val.entity bookClass [("id", Val.num 11), ("authorId", Val.num 1)]]),
        ("awards", Val.array
          [Val.entity awardClass [("id", Val.num 100), ("authorId", Val.num 1)],
           Val.entity awardClass [("id", Val.num 101), ("authorId", Val.num 1)],
           Val.entity awardClass [("id", Val.num 100), ("authorId", Val.num 1)],
           Val.entity awardClass [("id", Val.num 101), ("authorId", Val.num 1)]])]] ∧
    (compilePlan authorBooksAwardsTree).map (fun p => p.2.orderBy) =
      .ok ["Author.id ASC", "Author_Book.id ASC", "Author_Award.id ASC"] :=
  ⟨rfl, rfl⟩

/-- C13. For a `User` declaring both `address` and `addresses` and an `Address` holding
`user_id`, `User.with(Address)` compiles a `many` entry, and hydration stores the list of
addresses under `address` (the first declared candidate) and leaves `addresses`
undefined, where the docstring of `with` says `user.addresses`. -/
theorem with_many_stores_under_singular_field :
    (getFieldsMap (EntityQueryJoin.create residentClass (Child.entity homeClass) {})).map
        (fun p => p.1) =
      .ok [FieldEntry.scalar "id" "id",
        FieldEntry.nested "address" homeClass MapType.many
          [FieldEntry.scalar "id" "id", FieldEntry.scalar "userId" "user_id"]] ∧
    execute (EntityQueryJoin.create residentClass (Child.entity homeClass) {})
        (fun _ => .ok [[Cell.num 1, Cell.num 10, Cell.num 1],
          [Cell.num 1, Cell.num 11, Cell.num 1]]) =
      .ok [Val.entity residentClass [("id", Val.num 1),
        ("address", Val.array
          [Val.entity homeClass [("id", Val.num 10), ("userId", Val.num 1)],
           Val.entity homeClass [("id", Val.num 11), ("userId", Val.num 1)]]),
        ("addresses", Val.undefined)]] :=
  ⟨rfl, rfl⟩

/-- C20 fails: the name of user 1 is first written from a row as the empty string, and
the expansion row that follows overwrites it. -/
theorem scalar_falsy_overwritten_counterexample :
    hydrateRows userClass userPostMap [] none
        [[Cell.num 1, Cell.str "", Cell.num 10, Cell.num 1],
         [Cell.num 1, Cell.str "ann", Cell.num 11, Cell.num 1]] =
      .ok [Val.entity userClass [("id", Val.num 1), ("name", Val.str "ann"),
        ("posts", Val.array
          [Val.entity postClass [("id", Val.num 10), ("userId", Val.num 1),
             ("comments", Val.undefined)],
           Val.entity postClass [("id", Val.num 11), ("userId", Val.num 1),
             ("comments", Val.undefined)]])]] :=
  rfl

/-- C20 as amended. A scalar entry leaves an entity unchanged when its field holds a truthy
value; when the field is declared and holds a falsy value (`undefined`, `null`, `0`, the
empty string, `false`), the entry replaces it by the column it reads and changes no
other field. -/
theorem scalar_write_rule (data : List Cell) (cls : EntityClass)
    (props : List (String × Val)) (c : Int) (field column : String) :
    (truthy (lookupProp field props) = true →
      hydrateEntry data (Val.entity cls props) c (FieldEntry.scalar field column) =
        .ok (Val.entity cls props, c + 1)) ∧
    (truthy (lookupProp field props) = false → field ∈ props.map Prod.fst →
      ∃ props1,
        hydrateEntry data (Val.entity cls props) c (FieldEntry.scalar field column) =
          .ok (Val.entity cls props1, c + 1) ∧
        lookupProp field props1 = rowAt data c ∧
        ∀ g, g ≠ field → lookupProp g props1 = lookupProp g props) := by
  constructor
  · intro h
    rw [hydrateEntry_scalar]
    simp [h]
  · intro h hmem
    refine ⟨assignProp field (rowAt data c) props, ?_, ?_, ?_⟩
    · have hkey : (props.map Prod.fst).contains field = true := by simpa using hmem
      rw [hydrateEntry_scalar, h, hkey]
      rfl
    · rw [lookupProp_assignProp]; simp
    · intro g hg
      rw [lookupProp_assignProp]; simp [hg]

/-- C17 fails: `User` declares no field for `Address`, yet with an empty row sequence
`execute` resolves with an empty list; the missing-field error appears only once a row
is hydrated. -/
theorem missing_field_empty_rows_counterexample :
    execute (EntityQueryJoin.create lonerClass (Child.entity homeClass) {}) (fun _ => .ok []) =
      .ok [] ∧
    execute (EntityQueryJoin.create lonerClass (Child.entity homeClass) {})
        (fun _ => .ok [[Cell.num 1, Cell.num 10, Cell.num 1]]) =
      .error (.error (fieldMessage "User" "Address" "address")) :=
  ⟨rfl, rfl⟩

/-- C17 as amended. An error of plan compilation (an unresolvable foreign key is one:
`resolve` is run by `getFieldsMap`) makes `execute` fail before the storage round trip,
whatever the storage would return. Once the plan compiles, a storage error is passed
on unchanged and an empty row sequence gives an empty result: an undeclared target
field is detected only while a row is hydrated. -/
theorem configuration_errors_and_execution :
    (∀ (root : EntityQueryJoin) (e : JsError)
        (storage : QueryBuilder → Except JsError (List (List Cell))),
      compilePlan root = .error e → execute root storage = .error e) ∧
    (∀ (parent child : EntityClass) (options : JoinOptions) (e : JsError) (qb : QueryBuilder)
        (own : List FieldEntry)
        (storage : QueryBuilder → Except JsError (List (List Cell))),
      EntityQuery.newBuilder parent = .ok qb → columnsMap parent.columns = .ok own →
      resolve parent child options = .error e →
      execute (EntityQueryJoin.create parent (Child.entity child) options) storage = .error e) ∧
    (∀ (root : EntityQueryJoin) (fieldMaps : List FieldEntry) (qb : QueryBuilder),
      compilePlan root = .ok (fieldMaps, qb) →
      execute root (fun _ => .ok []) = .ok [] ∧
      ∀ e, execute root (fun _ => .error e) = .error e) := by
  refine ⟨?_, ?_, ?_⟩
  · intro root e storage h
    simp [execute, h, bind, Except.bind]
  · intro parent child options e qb own storage hqb hown hres
    simp [execute, compilePlan, getFieldsMap, EntityQueryJoin.create, compileChildren,
      compileChild, hqb, hown, hres, bind, Except.bind]
  · intro root fieldMaps qb h
    constructor
    · simp [execute, h, bind, Except.bind, hydrateRows]
    · intro e
      simp [execute, h, bind, Except.bind]

theorem rowAt_past_end (data : List Cell) (i : Int) (h : (data.length : Int) ≤ i) :
    rowAt data i = Val.undefined := by
  have h1 : ¬ i < 0 := by omega
  have h2 : data.length ≤ i.toNat := by omega
  simp [rowAt, h1, List.getElem?_eq_none h2]

mutual
theorem hydrateEntry_congr_data (data data1 : List Cell) :
    ∀ (entry : FieldEntry) (entity : Val) (c : Int),
      (∀ i : Int, c ≤ i → i ≤ c + entry.columnCount → rowAt data i = rowAt data1 i) →
      hydrateEntry data entity c entry = hydrateEntry data1 entity c entry
  | .scalar field col, entity, c, h => by
    have hc : rowAt data c = rowAt data1 c :=
      h c (le_refl _) (by simp [FieldEntry.columnCount])
    simp only [hydrateEntry, hc]
  | .nested field cls .includeType sub, entity, c, _ => by
    simp only [hydrateEntry]
  | .nested field cls .single sub, entity, c, h => by
    have hc : rowAt data c = rowAt data1 c := h c (le_refl _) (by omega)
    have ih : ∀ target, hydrate data target c sub = hydrate data1 target c sub :=
      fun target => hydrate_congr_data data data1 sub target c
        (fun i h1 h2 => h i h1 (by simpa [FieldEntry.columnCount] using h2))
    simp only [hydrateEntry, hc, ih]
  | .nested field cls .many sub, entity, c, h => by
    have hc : rowAt data c = rowAt data1 c := h c (le_refl _) (by omega)
    have ih : ∀ target, hydrate data target c sub = hydrate data1 target c sub :=
      fun target => hydrate_congr_data data data1 sub target c
        (fun i h1 h2 => h i h1 (by simpa [FieldEntry.columnCount] using h2))
    simp only [hydrateEntry, hc, ih]
theorem hydrate_congr_data (data data1 : List Cell) :
    ∀ (fieldsMap : List FieldEntry) (entity : Val) (c : Int),
      (∀ i : Int, c ≤ i → i ≤ c + columnCount fieldsMap → rowAt data i = rowAt data1 i) →
      hydrate data entity c fieldsMap = hydrate data1 entity c fieldsMap
  | [], entity, c, _ => by
    simp only [hydrate]
  | entry :: rest, entity, c, h => by
    have hE := hydrateEntry_congr_data data data1 entry entity c
      (fun i h1 h2 => h i h1 (by simp only [columnCount]; push_cast; omega))
    simp only [hydrate, ← hE]
    cases hR : hydrateEntry data entity c entry with
    | error e => rfl
    | ok p =>
      have hcur := hydrateEntry_cursor data entry entity c p.1 p.2 hR
      simp only [bind, Except.bind]
      exact hydrate_congr_data data data1 rest p.1 p.2
        (fun i h1 h2 => h i (by omega) (by simp only [columnCount]; push_cast; omega))
end

/-- C16 fails: rows of 3 and of 5 columns are hydrated with the field map of
`User.with(Post)`, which declares 4 columns; `execute` does not reject. -/
theorem row_length_not_checked_counterexample :
    columnCount userPostMap = 4 ∧
    hydrateRows userClass userPostMap [] none [[Cell.num 1, Cell.str "ann", Cell.num 10]] =
      .ok [Val.entity userClass [("id", Val.num 1), ("name", Val.str "ann"),
        ("posts", Val.array [Val.entity postClass [("id", Val.num 10),
          ("userId", Val.undefined), ("comments", Val.undefined)]])]] ∧
    hydrateRows userClass userPostMap [] none
        [[Cell.num 1, Cell.str "ann", Cell.num 10, Cell.num 1, Cell.str "extra"]] =
      .ok [Val.entity userClass [("id", Val.num 1), ("name", Val.str "ann"),
        ("posts", Val.array [Val.entity postClass [("id", Val.num 10),
          ("userId", Val.num 1), ("comments", Val.undefined)]])]] :=
  ⟨rfl, rfl, rfl⟩

/-- C16 as amended. No column count is checked: for a field map declaring `n` columns the
result of hydrating a row depends only on the values read at the positions `0..n`, a
position past the end of the row reading `undefined`; and a field map of column entries
only hydrates every row, whatever its length. -/
theorem hydrate_ignores_row_length :
    (∀ (data data1 : List Cell) (entity : Val) (fieldsMap : List FieldEntry),
      (∀ i : Int, 0 ≤ i → i ≤ columnCount fieldsMap → rowAt data i = rowAt data1 i) →
      hydrate data entity 0 fieldsMap = hydrate data1 entity 0 fieldsMap) ∧
    (∀ (data : List Cell) (i : Int), (data.length : Int) ≤ i → rowAt data i = Val.undefined) ∧
    (∀ (data : List Cell) (cls : EntityClass) (pairs : List (String × String)),
      ∃ props1, hydrate data (newEntity cls) 0 (scalarEntries pairs) =
        .ok (Val.entity cls props1, 0 + pairs.length - 1)) := by
  refine ⟨?_, rowAt_past_end, ?_⟩
  · intro data data1 entity fieldsMap h
    exact hydrate_congr_data data data1 fieldsMap entity 0
      (fun i h1 h2 => h i h1 (by omega))
  · intro data cls pairs
    obtain ⟨props1, h1, -⟩ := hydrate_scalars data cls pairs (newProps cls) 0
    exact ⟨props1, h1⟩

theorem startsWithChars_append (part rest : List Char) :
    startsWithChars part (part ++ rest) = true := by
  induction part with
  | nil => cases rest <;> rfl
  | cons p ps ih => simp [startsWithChars, ih]

theorem includesChars_append (part : List Char) :
    ∀ (front back : List Char), includesChars part (front ++ (part ++ back)) = true
  | [], back => by
    cases h : part ++ back with
    | nil =>
      have : part = [] := by
        cases part with
        | nil => rfl
        | cons p ps => simp at h
      simp [includesChars, this, startsWithChars]
    | cons c cs =>
      simp only [List.nil_append, h, includesChars, Bool.or_eq_true]
      left
      rw [← h]
      exact startsWithChars_append part back
  | f :: front, back => by
    simp only [List.cons_append, includesChars, Bool.or_eq_true]
    right
    exact includesChars_append part front back

theorem includes_append (front part back : String) :
    includes (front ++ part ++ back) part = true := by
  simp only [includes, String.data_append, List.append_assoc]
  exact includesChars_append part.data front.data back.data

/-- C15 fails: the message of the error `join` throws for `User` and `Address` does not
contain the candidate column names `address_id` and `user_id` that were tried. -/
theorem foreign_key_message_counterexample :
    resolve userClass addressClass {} =
      .error (.error (foreignKeyMessage "User" "Address" "address" "user")) ∧
    includes (foreignKeyMessage "User" "Address" "address" "user") "address_id" = false ∧
    includes (foreignKeyMessage "User" "Address" "address" "user") "user_id" = false ∧
    includes (foreignKeyMessage "User" "Address" "address" "user") "addresses" = false :=
  ⟨rfl, by decide, by decide, by decide⟩

theorem includesChars_prepend (part front rest : List Char)
    (h : includesChars part rest = true) : includesChars part (front ++ rest) = true := by
  induction front with
  | nil => exact h
  | cons c cs ih => simp [includesChars, ih]

theorem toSnakeCase_error (name : String) (e : JsError) (h : toSnakeCase name = .error e) :
    e = JsError.typeError := by
  unfold toSnakeCase at h
  cases hd : name.data with
  | nil => rw [hd] at h; cases h; rfl
  | cons c cs => rw [hd] at h; cases h

theorem bind_eq_error {α β : Type} {x : Except JsError α} {f : α → Except JsError β}
    {e : JsError} (h : (x >>= f) = .error e) :
    x = .error e ∨ ∃ a, x = .ok a ∧ f a = .error e := by
  cases x with
  | error e1 =>
    left
    have h1 : (Except.error e1 : Except JsError β) = .error e := h
    rw [Except.error.inj h1]
  | ok a => right; exact ⟨a, rfl, h⟩

theorem capitalizeParts_error :
    ∀ (parts : List (List Char)) (e : JsError), capitalizeParts parts = .error e →
      e = JsError.typeError
  | [], e, h => by cases h
  | [] :: ps, e, h => by cases h; rfl
  | (c :: cs) :: ps, e, h => by
    simp only [capitalizeParts, capitalizePart] at h
    rcases bind_eq_error h with h1 | ⟨q, -, h1⟩
    · cases h1
    · rcases bind_eq_error h1 with h2 | ⟨r, -, h2⟩
      · exact capitalizeParts_error ps e h2
      · cases h2

theorem toCamelCaseChars_error (word : List Char) (e : JsError)
    (h : toCamelCaseChars word = .error e) : e = JsError.typeError := by
  unfold toCamelCaseChars at h
  split at h
  · cases h
  · rename_i p ps _
    rcases bind_eq_error h with h1 | ⟨r, -, h1⟩
    · exact capitalizeParts_error ps e h1
    · cases h1

theorem lowerFirstCamel_error (name : String) (e : JsError)
    (h : lowerFirstCamel name = .error e) : e = JsError.typeError := by
  unfold lowerFirstCamel at h
  split at h
  · cases h; rfl
  · rename_i c cs _
    rcases bind_eq_error h with h1 | ⟨r, -, h1⟩
    · exact toCamelCaseChars_error cs e h1
    · cases h1

theorem withDefault_error (value : Option String) (defaultValue : Except JsError String)
    (e : JsError) (hd : ∀ e1, defaultValue = .error e1 → e1 = JsError.typeError)
    (h : withDefault value defaultValue = .error e) : e = JsError.typeError := by
  cases value with
  | none => exact hd e h
  | some v => cases h

theorem resolveColumns_error (parent child : EntityClass) (options : JoinOptions)
    (key parentKey field : String) (e : JsError)
    (h : resolveColumns parent child options key parentKey field = .error e) :
    e = JsError.error (foreignKeyMessage parent.name child.name parentKey key) := by
  simp only [resolveColumns] at h
  split_ifs at h <;> cases h <;> rfl

/-- C15 as amended. Whenever `join` fails with the missing-foreign-key error for a parent
and a child type, the message contains the parent's name, the child's name and the two
base keys: the snake-cased child name (or `parentKey`) and the snake-cased parent name (or
`key`), as such, without the suffix `_id` and without their plural or singular forms. -/
theorem foreign_key_message_content (parent child : EntityClass) (options : JoinOptions)
    (message : String)
    (h : resolve parent child options = .error (.error message)) :
    ∃ key parentKey,
      withDefault options.key (toSnakeCase parent.name) = .ok key ∧
      withDefault options.parentKey (toSnakeCase child.name) = .ok parentKey ∧
      message = foreignKeyMessage parent.name child.name parentKey key ∧
      includes message parent.name = true ∧ includes message child.name = true ∧
      includes message parentKey = true ∧ includes message key = true := by
  simp only [resolve] at h
  cases hk : withDefault options.key (toSnakeCase parent.name) with
  | error e =>
    rw [hk] at h
    have := withDefault_error _ _ e (toSnakeCase_error _) hk
    subst this
    cases h
  | ok key =>
    cases hp : withDefault options.parentKey (toSnakeCase child.name) with
    | error e =>
      rw [hk, hp] at h
      have := withDefault_error _ _ e (toSnakeCase_error _) hp
      subst this
      cases h
    | ok parentKey =>
      cases hf : withDefault options.field (lowerFirstCamel child.name) with
      | error e =>
        rw [hk, hp, hf] at h
        have := withDefault_error _ _ e (lowerFirstCamel_error _) hf
        subst this
        cases h
      | ok field =>
        rw [hk, hp, hf] at h
        have hmsg := resolveColumns_error parent child options key parentKey field _ h
        have hm : message = foreignKeyMessage parent.name child.name parentKey key := by
          cases hmsg
          rfl
        subst hm
        refine ⟨key, parentKey, rfl, rfl, rfl, ?_, ?_, ?_, ?_⟩ <;>
          simp only [includes, foreignKeyMessage, String.data_append, List.append_assoc] <;>
          repeat (first
            | exact includesChars_append _ _ _
            | apply includesChars_prepend)

/-- C15 as amended, on `User.with(Address)` where neither side holds a key column. -/
theorem foreign_key_message_content_witness :
    ∃ key parentKey,
      withDefault ({} : JoinOptions).key (toSnakeCase userClass.name) = .ok key ∧
      withDefault ({} : JoinOptions).parentKey (toSnakeCase addressClass.name) = .ok parentKey ∧
      foreignKeyMessage "User" "Address" "address" "user" =
        foreignKeyMessage userClass.name addressClass.name parentKey key ∧
      includes (foreignKeyMessage "User" "Address" "address" "user") userClass.name = true ∧
      includes (foreignKeyMessage "User" "Address" "address" "user") addressClass.name = true ∧
      includes (foreignKeyMessage "User" "Address" "address" "user") parentKey = true ∧
      includes (foreignKeyMessage "User" "Address" "address" "user") key = true :=
  foreign_key_message_content userClass addressClass {}
    (foreignKeyMessage "User" "Address" "address" "user") rfl

mutual
theorem recursiveAddJoin_clauses (parentAlias : String) (qb : QueryBuilder) :
    ∀ (j : Join) (qb1 : QueryBuilder), recursiveAddJoin parentAlias qb j = .ok qb1 →
      ∃ nodes, j.preorder parentAlias = .ok nodes ∧
        qb1.join = qb.join ++ nodes.map joinClause ∧
        qb1.orderBy = qb.orderBy ++ nodes.map orderClause
  | .mk join joins, qb1, h => by
    simp only [recursiveAddJoin] at h
    obtain ⟨table, htable, h⟩ := bind_eq_ok h
    obtain ⟨camel, hcamel, h⟩ := bind_eq_ok h
    obtain ⟨nodes, hnodes, hj, ho⟩ := recursiveAddJoins_clauses _ _ joins qb1 h
    refine ⟨JoinNode.mk table (parentAlias ++ "_" ++ camel) parentAlias join.column
      join.parentColumn join.condition :: nodes, ?_, ?_, ?_⟩
    · simp only [Join.preorder, htable, hcamel, hnodes, bind, Except.bind, pure, Except.pure]
    · rw [hj]
      simp [joinClause]
    · rw [ho]
      simp [orderClause]
theorem recursiveAddJoins_clauses (parentAlias : String) (qb : QueryBuilder) :
    ∀ (js : List Join) (qb1 : QueryBuilder), recursiveAddJoins parentAlias qb js = .ok qb1 →
      ∃ nodes, joinsPreorder parentAlias js = .ok nodes ∧
        qb1.join = qb.join ++ nodes.map joinClause ∧
        qb1.orderBy = qb.orderBy ++ nodes.map orderClause
  | [], qb1, h => by
    simp only [recursiveAddJoins] at h
    cases h
    exact ⟨[], rfl, by simp, by simp⟩
  | j :: js, qb1, h => by
    simp only [recursiveAddJoins] at h
    obtain ⟨qb2, h1, h⟩ := bind_eq_ok h
    obtain ⟨n1, hn1, hj1, ho1⟩ := recursiveAddJoin_clauses parentAlias qb j qb2 h1
    obtain ⟨n2, hn2, hj2, ho2⟩ := recursiveAddJoins_clauses parentAlias qb2 js qb1 h
    refine ⟨n1 ++ n2, ?_, ?_, ?_⟩
    · simp only [joinsPreorder, hn1, hn2, bind, Except.bind, pure, Except.pure]
    · rw [hj2, hj1]; simp
    · rw [ho2, ho1]; simp
end

/-- C19 fails: the join clause compiled for `User.with(Post)` has no `AS` between the
table and the alias and ends with a blank; it is not the text the claim gives. -/
theorem join_clause_text_counterexample :
    (compilePlan (EntityQueryJoin.create userClass (Child.entity postClass) {})).map
        (fun p => p.2.join) =
      .ok ["LEFT JOIN post User_Post ON User_Post.user_id = User.id "] ∧
    "LEFT JOIN post User_Post ON User_Post.user_id = User.id " ≠
      "LEFT JOIN post AS User_Post ON User_Post.user_id = User.id" :=
  ⟨rfl, by decide⟩

/-- C19 as amended. For every join tree whose plan compiles, the join list holds one
clause per non-root node, depth first with a node before its descendants, of the form
`LEFT JOIN <table> <alias> ON <alias>.<column> = <parentAlias>.<parentColumn> ` followed by
`AND <condition>` exactly when the relation has a truthy condition; the order-by list is
`<Root>.id ASC` followed by `<alias>.id ASC` for each non-root node in the same order. -/
theorem compilePlan_join_and_order_lists (root : EntityQueryJoin)
    (fieldMaps : List FieldEntry) (qb : QueryBuilder)
    (h : compilePlan root = .ok (fieldMaps, qb)) :
    ∃ joins nodes, getFieldsMap root = .ok (fieldMaps, joins) ∧
      joinsPreorder root.entityClass.name joins = .ok nodes ∧
      qb.join = nodes.map joinClause ∧
      qb.orderBy = (root.entityClass.name ++ ".id" ++ " " ++ "ASC") :: nodes.map orderClause := by
  simp only [compilePlan, EntityQuery.newBuilder] at h
  obtain ⟨qb0, hqb0, h⟩ := bind_eq_ok h
  obtain ⟨table, -, hqb0⟩ := bind_eq_ok hqb0
  obtain ⟨⟨fm, joins⟩, hfm, h⟩ := bind_eq_ok h
  obtain ⟨qb1, hrec, h⟩ := bind_eq_ok h
  have e1 := pure_eq_ok hqb0
  have e3 := pure_eq_ok h
  dsimp only at e3
  obtain ⟨hA, hB⟩ := Prod.mk.inj e3
  subst hA hB
  obtain ⟨nodes, hnodes, hj, ho⟩ := recursiveAddJoins_clauses _ _ _ _ hrec
  refine ⟨joins, nodes, hfm, hnodes, ?_, ?_⟩
  · rw [hj, ← e1]; simp
  · rw [ho, ← e1]; simp

/-- C19 as amended, on `User.with(Post, {condition: 'User_Post.id > 0'})`. -/
theorem compilePlan_join_and_order_lists_witness :
    ∃ fieldMaps qb, compilePlan userPostConditionTree = .ok (fieldMaps, qb) ∧
      ∃ joins nodes, getFieldsMap userPostConditionTree = .ok (fieldMaps, joins) ∧
        joinsPreorder userPostConditionTree.entityClass.name joins = .ok nodes ∧
        qb.join = nodes.map joinClause ∧
        qb.orderBy = (userPostConditionTree.entityClass.name ++ ".id" ++ " " ++ "ASC") ::
          nodes.map orderClause :=
  ⟨_, _, rfl, compilePlan_join_and_order_lists userPostConditionTree _ _ rfl⟩

theorem getProp_entity (cls : EntityClass) (props : List (String × Val)) (field : String) :
    getProp (Val.entity cls props) field = .ok (lookupProp field props) := rfl

theorem setProp_entity (cls : EntityClass) (props : List (String × Val)) (field : String)
    (x : Val) :
    setProp (Val.entity cls props) field x = .ok (Val.entity cls (assignProp field x props)) :=
  rfl

theorem hydrateEntry_nested_cases (data : List Cell) (field0 : String) (bound : EntityClass)
    (type : MapType) (sub : List FieldEntry) (htype : type ≠ MapType.includeType)
    (entity : Val) (c : Int) (e1 : Val) (r : Int)
    (h : hydrateEntry data entity c (FieldEntry.nested field0 bound type sub) = .ok (e1, r)) :
    ∃ cls props field target b last,
      entity = Val.entity cls props ∧ resolveField entity field0 bound = .ok field ∧
      field ∈ props.map Prod.fst ∧
      hydrate data target c sub = .ok (b, last) ∧ r = last + 1 ∧
      ((target = newEntity bound ∧ ∃ v, e1 = Val.entity cls (assignProp field v props) ∧
          (v = Val.null ∨ v = Val.array [] ∨ v = b ∨ v = Val.array [b] ∨
           (∃ items, lookupProp field props = Val.array items ∧ v = Val.array (items ++ [b])) ∨
           v = Val.array [lookupProp field props, b])) ∨
       (target = lookupProp field props ∧ e1 = Val.entity cls (assignProp field b props)) ∨
       (∃ items lastItem, lookupProp field props = Val.array items ∧
          items.getLast? = some lastItem ∧ getProp lastItem "id" = .ok target ∧
          e1 = entity)) := by
  rcases type with _ | _ | _
  · exact absurd rfl htype
  all_goals
    simp only [hydrateEntry] at h
    obtain ⟨f, hf, h⟩ := bind_eq_ok h
    obtain ⟨cls, props, rfl, hmem⟩ := resolveField_entity entity field0 f bound hf
    simp only [getProp_entity, setProp_entity, bind, Except.bind, pure, Except.pure] at h
    split at h
    · -- null child
      cases hsub : hydrate data (newEntity bound) c sub with
      | error e => rw [hsub] at h; cases h
      | ok p =>
        rw [hsub] at h
        obtain ⟨b, last⟩ := p
        simp only [Except.ok.injEq, Prod.mk.injEq] at h
        obtain ⟨he, hr⟩ := h
        refine ⟨cls, props, f, newEntity bound, b, last, rfl, hf, hmem, hsub, hr.symm, ?_⟩
        left
        refine ⟨rfl, _, he.symm, ?_⟩
        split <;> simp
    · split at h
      · -- the field is set
        split at h
        · -- an array
          rename_i items hitems
          cases hre : reusedLast items (rowAt data c) with
          | error e => rw [hre] at h; cases h
          | ok reused =>
            rw [hre] at h
            cases reused with
            | some target =>
              simp only at h
              cases hsub : hydrate data target c sub with
              | error e => rw [hsub] at h; cases h
              | ok p =>
                rw [hsub] at h
                obtain ⟨b, last⟩ := p
                simp only [Except.ok.injEq, Prod.mk.injEq] at h
                obtain ⟨he, hr⟩ := h
                refine ⟨cls, props, f, target, b, last, rfl, hf, hmem, hsub, hr.symm, ?_⟩
                right; right
                unfold reusedLast at hre
                cases hl : items.getLast? with
                | none => rw [hl] at hre; cases hre
                | some lastItem =>
                  rw [hl] at hre
                  simp only [bind, Except.bind, pure, Except.pure] at hre
                  cases hid : getProp lastItem "id" with
                  | error e => rw [hid] at hre; cases hre
                  | ok lastId =>
                    rw [hid] at hre
                    simp only [Except.ok.injEq] at hre
                    split at hre
                    · cases hre
                      exact ⟨items, lastItem, hitems, hl, hid, he.symm⟩
                    · cases hre
            | none =>
              simp only at h
              cases hsub : hydrate data (newEntity bound) c sub with
              | error e => rw [hsub] at h; cases h
              | ok p =>
                rw [hsub] at h
                obtain ⟨b, last⟩ := p
                simp only [Except.ok.injEq, Prod.mk.injEq] at h
                obtain ⟨he, hr⟩ := h
                refine ⟨cls, props, f, newEntity bound, b, last, rfl, hf, hmem, hsub,
                  hr.symm, ?_⟩
                left
                exact ⟨rfl, _, he.symm, Or.inr (Or.inr (Or.inr (Or.inr (Or.inl
                  ⟨items, hitems, rfl⟩))))⟩
        · -- not an array
          cases hid : getProp (lookupProp f props) "id" with
          | error e => rw [hid] at h; cases h
          | ok currentId =>
            rw [hid] at h
            simp only at h
            split at h
            · cases hsub : hydrate data (lookupProp f props) c sub with
              | error e => rw [hsub] at h; cases h
              | ok p =>
                rw [hsub] at h
                obtain ⟨b, last⟩ := p
                simp only [Except.ok.injEq, Prod.mk.injEq] at h
                obtain ⟨he, hr⟩ := h
                refine ⟨cls, props, f, lookupProp f props, b, last, rfl, hf, hmem, hsub,
                  hr.symm, ?_⟩
                right; left
                exact ⟨rfl, he.symm⟩
            · cases hsub : hydrate data (newEntity bound) c sub with
              | error e => rw [hsub] at h; cases h
              | ok p =>
                rw [hsub] at h
                obtain ⟨b, last⟩ := p
                simp only [Except.ok.injEq, Prod.mk.injEq] at h
                obtain ⟨he, hr⟩ := h
                refine ⟨cls, props, f, newEntity bound, b, last, rfl, hf, hmem, hsub,
                  hr.symm, ?_⟩
                left
                exact ⟨rfl, _, he.symm, Or.inr (Or.inr (Or.inr (Or.inr (Or.inr rfl))))⟩
      · -- the field is unset
        cases hsub : hydrate data (newEntity bound) c sub with
        | error e => rw [hsub] at h; cases h
        | ok p =>
          rw [hsub] at h
          obtain ⟨b, last⟩ := p
          simp only [Except.ok.injEq, Prod.mk.injEq] at h
          obtain ⟨he, hr⟩ := h
          refine ⟨cls, props, f, newEntity bound, b, last, rfl, hf, hmem, hsub, hr.symm, ?_⟩
          left
          refine ⟨rfl, _, he.symm, ?_⟩
          first
            | exact Or.inr (Or.inr (Or.inl rfl))
            | exact Or.inr (Or.inr (Or.inr (Or.inl rfl)))

theorem resolve_field (parent child : EntityClass) (options : JoinOptions) (r : Resolved)
    (h : resolve parent child options = .ok r) :
    withDefault options.field (lowerFirstCamel child.name) = .ok r.field := by
  simp only [resolve] at h
  obtain ⟨key, -, h⟩ := bind_eq_ok h
  obtain ⟨parentKey, -, h⟩ := bind_eq_ok h
  obtain ⟨field, hfield, h⟩ := bind_eq_ok h
  simp only [resolveColumns] at h
  rw [hfield]
  split_ifs at h <;> cases h <;> rfl

theorem resolveField_eq (cls : EntityClass) (props : List (String × Val)) (field0 : String)
    (bound : EntityClass) :
    resolveField (Val.entity cls props) field0 bound =
      if field0 ∈ props.map Prod.fst then .ok field0
      else if toPlural field0 ∈ props.map Prod.fst then .ok (toPlural field0)
      else if toSingular field0 ∈ props.map Prod.fst then .ok (toSingular field0)
      else .error (.error (fieldMessage cls.name bound.name field0)) := by
  have hc : ∀ k : String, (props.map Prod.fst).contains k = true ↔ k ∈ props.map Prod.fst :=
    fun k => by simp
  simp only [resolveField, ownKeys, constructorName, bind, Except.bind, pure, Except.pure, hc]
  split_ifs <;> rfl

/-- C12. With no `field` option the relation field is the lower-camel-cased child type
name. Hydrating the entry stores the relation under that name when the owner declares
it, otherwise under its plural when declared, otherwise under its singular when
declared; no other field of the owner changes. When none of the three is declared,
hydrating the entry throws an error whose message contains the missing field name and
tells the caller to define option `field`. -/
theorem default_target_field (parent child : EntityClass) (options : JoinOptions)
    (r : Resolved) (field0 : String)
    (hnone : options.field = none)
    (hname : lowerFirstCamel child.name = .ok field0)
    (hr : resolve parent child options = .ok r) :
    r.field = field0 ∧
    (∀ (cls : EntityClass) (props : List (String × Val)),
      resolveField (Val.entity cls props) field0 child =
        if field0 ∈ props.map Prod.fst then .ok field0
        else if toPlural field0 ∈ props.map Prod.fst then .ok (toPlural field0)
        else if toSingular field0 ∈ props.map Prod.fst then .ok (toSingular field0)
        else .error (.error (fieldMessage cls.name child.name field0))) ∧
    (∀ (data : List Cell) (cls : EntityClass) (props : List (String × Val)) (c : Int)
        (type : MapType) (sub : List FieldEntry) (field : String) (e1 : Val) (r1 : Int),
      type ≠ MapType.includeType →
      resolveField (Val.entity cls props) field0 child = .ok field →
      hydrateEntry data (Val.entity cls props) c (FieldEntry.nested field0 child type sub) =
        .ok (e1, r1) →
      ∃ props1, e1 = Val.entity cls props1 ∧ props1.map Prod.fst = props.map Prod.fst ∧
        ∀ g, g ≠ field → lookupProp g props1 = lookupProp g props) ∧
    (∀ (data : List Cell) (cls : EntityClass) (props : List (String × Val)) (c : Int)
        (type : MapType) (sub : List FieldEntry) (field : String) (b : Val) (last : Int),
      type ≠ MapType.includeType →
      resolveField (Val.entity cls props) field0 child = .ok field →
      strictEq (rowAt data c) Val.null = false →
      truthy (lookupProp field props) = false →
      hydrate data (newEntity child) c sub = .ok (b, last) →
      ∃ props1,
        hydrateEntry data (Val.entity cls props) c (FieldEntry.nested field0 child type sub) =
          .ok (Val.entity cls props1, last + 1) ∧
        lookupProp field props1 = if type = MapType.single then b else Val.array [b]) ∧
    (∀ (data : List Cell) (cls : EntityClass) (props : List (String × Val)) (c : Int)
        (type : MapType) (sub : List FieldEntry),
      type ≠ MapType.includeType →
      field0 ∉ props.map Prod.fst → toPlural field0 ∉ props.map Prod.fst →
      toSingular field0 ∉ props.map Prod.fst →
      hydrateEntry data (Val.entity cls props) c (FieldEntry.nested field0 child type sub) =
        .error (.error (fieldMessage cls.name child.name field0))) ∧
    (∀ owner : String,
      includes (fieldMessage owner child.name field0) field0 = true ∧
      includes (fieldMessage owner child.name field0) "Define option \x27field\x27" = true) := by
  have hfield : r.field = field0 := by
    have h1 := resolve_field parent child options r hr
    rw [hnone] at h1
    have h2 : lowerFirstCamel child.name = .ok r.field := h1
    rw [hname] at h2
    exact (Except.ok.inj h2).symm
  refine ⟨hfield, fun cls props => resolveField_eq cls props field0 child, ?_, ?_, ?_, ?_⟩
  · intro data cls props c type sub field e1 r1 htype hres h
    obtain ⟨cls1, props0, field1, target, b, last, he, hres1, hmem, -, -, hcases⟩ :=
      hydrateEntry_nested_cases data field0 child type sub htype _ c e1 r1 h
    cases he
    rw [hres] at hres1
    cases hres1
    rcases hcases with ⟨-, v, he1, -⟩ | ⟨-, he1⟩ | ⟨_, _, -, -, -, he1⟩
    · exact ⟨_, he1, keys_assignProp _ _ _ hmem, fun g hg => by
        rw [lookupProp_assignProp]; simp [hg]⟩
    · exact ⟨_, he1, keys_assignProp _ _ _ hmem, fun g hg => by
        rw [lookupProp_assignProp]; simp [hg]⟩
    · exact ⟨_, he1, rfl, fun _ _ => rfl⟩
  · intro data cls props c type sub field b last htype hres hvalue hfalsy hsub
    refine ⟨_, hydrateEntry_fresh data cls props c field0 field child type sub b last htype
      hres hvalue hfalsy hsub, ?_⟩
    rw [lookupProp_assignProp]
    simp
  · intro data cls props c type sub htype h1 h2 h3
    have hres := resolveField_eq cls props field0 child
    simp only [h1, h2, h3, if_false] at hres
    cases type with
    | includeType => exact absurd rfl htype
    | single => simp only [hydrateEntry, hres, bind, Except.bind]
    | many => simp only [hydrateEntry, hres, bind, Except.bind]
  · intro owner
    constructor
    · simp only [includes, fieldMessage, String.data_append, List.append_assoc]
      repeat (first
        | exact includesChars_append _ _ _
        | apply includesChars_prepend)
    · simp only [includes, fieldMessage, String.data_append, List.append_assoc]
      repeat apply includesChars_prepend
      decide

/-- C12 on `User.with(Post)`: the default field `post` is not declared by `User`, its
plural `posts` is. -/
theorem default_target_field_witness :
    (Resolved.mk postClass "post" "user_id" "id" none).field = "post" ∧
    (∀ (cls : EntityClass) (props : List (String × Val)),
      resolveField (Val.entity cls props) "post" postClass =
        if "post" ∈ props.map Prod.fst then .ok "post"
        else if toPlural "post" ∈ props.map Prod.fst then .ok (toPlural "post")
        else if toSingular "post" ∈ props.map Prod.fst then .ok (toSingular "post")
        else .error (.error (fieldMessage cls.name postClass.name "post"))) ∧
    (∀ (data : List Cell) (cls : EntityClass) (props : List (String × Val)) (c : Int)
        (type : MapType) (sub : List FieldEntry) (field : String) (e1 : Val) (r1 : Int),
      type ≠ MapType.includeType →
      resolveField (Val.entity cls props) "post" postClass = .ok field →
      hydrateEntry data (Val.entity cls props) c (FieldEntry.nested "post" postClass type sub) =
        .ok (e1, r1) →
      ∃ props1, e1 = Val.entity cls props1 ∧ props1.map Prod.fst = props.map Prod.fst ∧
        ∀ g, g ≠ field → lookupProp g props1 = lookupProp g props) ∧
    (∀ (data : List Cell) (cls : EntityClass) (props : List (String × Val)) (c : Int)
        (type : MapType) (sub : List FieldEntry) (field : String) (b : Val) (last : Int),
      type ≠ MapType.includeType →
      resolveField (Val.entity cls props) "post" postClass = .ok field →
      strictEq (rowAt data c) Val.null = false →
      truthy (lookupProp field props) = false →
      hydrate data (newEntity postClass) c sub = .ok (b, last) →
      ∃ props1,
        hydrateEntry data (Val.entity cls props) c
            (FieldEntry.nested "post" postClass type sub) =
          .ok (Val.entity cls props1, last + 1) ∧
        lookupProp field props1 = if type = MapType.single then b else Val.array [b]) ∧
    (∀ (data : List Cell) (cls : EntityClass) (props : List (String × Val)) (c : Int)
        (type : MapType) (sub : List FieldEntry),
      type ≠ MapType.includeType →
      "post" ∉ props.map Prod.fst → toPlural "post" ∉ props.map Prod.fst →
      toSingular "post" ∉ props.map Prod.fst →
      hydrateEntry data (Val.entity cls props) c (FieldEntry.nested "post" postClass type sub) =
        .error (.error (fieldMessage cls.name postClass.name "post"))) ∧
    (∀ owner : String,
      includes (fieldMessage owner postClass.name "post") "post" = true ∧
      includes (fieldMessage owner postClass.name "post") "Define option \x27field\x27" = true) :=
  default_target_field userClass postClass {} (Resolved.mk postClass "post" "user_id" "id" none)
    "post" rfl rfl rfl

theorem holdsInstance_lookupProp (cls : EntityClass) (g : String) :
    ∀ props : List (String × Val), propsHoldInstance cls props = false →
      (lookupProp g props).holdsInstance cls = false
  | [], _ => rfl
  | (k, v) :: rest, h => by
    simp only [propsHoldInstance, Bool.or_eq_false_iff] at h
    by_cases hk : k = g
    · simp [lookupProp, hk, h.1]
    · simp [lookupProp, hk, holdsInstance_lookupProp cls g rest h.2]

theorem propsHoldInstance_assignProp (cls : EntityClass) (g : String) (x : Val)
    (hx : x.holdsInstance cls = false) :
    ∀ props : List (String × Val), propsHoldInstance cls props = false →
      propsHoldInstance cls (assignProp g x props) = false
  | [], _ => by simp [assignProp, propsHoldInstance, hx]
  | (k, v) :: rest, h => by
    simp only [propsHoldInstance, Bool.or_eq_false_iff] at h
    by_cases hk : k = g
    · simp [assignProp, hk, propsHoldInstance, hx, h.2]
    · simp [assignProp, hk, propsHoldInstance, h.1,
        propsHoldInstance_assignProp cls g x hx rest h.2]

theorem itemsHoldInstance_append (cls : EntityClass) (back : List Val) :
    ∀ front : List Val, itemsHoldInstance cls (front ++ back) =
      (itemsHoldInstance cls front || itemsHoldInstance cls back)
  | [] => by simp [itemsHoldInstance]
  | v :: rest => by
    simp [itemsHoldInstance, itemsHoldInstance_append cls back rest, Bool.or_assoc]

theorem holdsInstance_of_mem (cls : EntityClass) :
    ∀ (items : List Val) (x : Val), itemsHoldInstance cls items = false → x ∈ items →
      x.holdsInstance cls = false
  | [], _, _, hx => by simp at hx
  | v :: rest, x, h, hx => by
    simp only [itemsHoldInstance, Bool.or_eq_false_iff] at h
    rcases List.mem_cons.mp hx with rfl | hx
    · exact h.1
    · exact holdsInstance_of_mem cls rest x h.2 hx

theorem propsHoldInstance_undefined (cls : EntityClass) :
    ∀ keys : List String,
      propsHoldInstance cls (keys.map (fun k => (k, Val.undefined))) = false
  | [] => rfl
  | k :: ks => by
    simp [propsHoldInstance, Val.holdsInstance, propsHoldInstance_undefined cls ks]

theorem holdsInstance_newEntity (cls bound : EntityClass) (h : bound ≠ cls) :
    (newEntity bound).holdsInstance cls = false := by
  simp [newEntity, Val.holdsInstance, h, newProps, propsHoldInstance_undefined]

theorem holdsInstance_rowAt (cls : EntityClass) (data : List Cell) (c : Int) :
    (rowAt data c).holdsInstance cls = false := by
  unfold rowAt
  split
  · rfl
  · split
    · rename_i cell _
      cases cell <;> rfl
    · rfl

theorem holdsInstance_getProp (cls : EntityClass) (v x : Val) (g : String)
    (hv : v.holdsInstance cls = false) (h : getProp v g = .ok x) :
    x.holdsInstance cls = false := by
  cases v with
  | entity c props =>
    simp only [getProp_entity] at h
    cases h
    simp only [Val.holdsInstance, Bool.or_eq_false_iff] at hv
    exact holdsInstance_lookupProp cls g props hv.2
  | undefined => cases h
  | null => cases h
  | num n => cases h; rfl
  | str s => cases h; rfl
  | bool b => cases h; rfl
  | array items => cases h; rfl

theorem holdsInstance_assign (cls ecls : EntityClass) (props : List (String × Val))
    (g : String) (x : Val) (he : (Val.entity ecls props).holdsInstance cls = false)
    (hx : x.holdsInstance cls = false) :
    (Val.entity ecls (assignProp g x props)).holdsInstance cls = false := by
  simp only [Val.holdsInstance, Bool.or_eq_false_iff] at he ⊢
  exact ⟨he.1, propsHoldInstance_assignProp cls g x hx props he.2⟩

theorem hydrateEntry_avoids_nested (cls : EntityClass) (data : List Cell) (field0 : String)
    (bound : EntityClass) (type : MapType) (sub : List FieldEntry)
    (htype : type ≠ MapType.includeType) (hbound : bound ≠ cls)
    (ih : ∀ (target b : Val) (last : Int) {c : Int}, target.holdsInstance cls = false →
      hydrate data target c sub = .ok (b, last) → b.holdsInstance cls = false)
    (entity : Val) (c : Int) (e1 : Val) (r : Int)
    (he : entity.holdsInstance cls = false)
    (h : hydrateEntry data entity c (FieldEntry.nested field0 bound type sub) = .ok (e1, r)) :
    e1.holdsInstance cls = false := by
  obtain ⟨ecls, props, field, target, b, last, rfl, -, -, hsub, -, hcases⟩ :=
    hydrateEntry_nested_cases data field0 bound type sub htype entity c e1 r h
  have hprops : propsHoldInstance cls props = false := by
    simp only [Val.holdsInstance, Bool.or_eq_false_iff] at he
    exact he.2
  have hcur : (lookupProp field props).holdsInstance cls = false :=
    holdsInstance_lookupProp cls field props hprops
  rcases hcases with ⟨ht, v, he1, hv⟩ | ⟨ht, he1⟩ | ⟨items, lastItem, hitems, hl, hid, he1⟩
  · have hb : b.holdsInstance cls = false :=
      ih target b last (by rw [ht]; exact holdsInstance_newEntity cls bound hbound) hsub
    rw [he1]
    apply holdsInstance_assign cls ecls props field v he
    rcases hv with rfl | rfl | rfl | rfl | ⟨items, hitems, rfl⟩ | rfl
    · rfl
    · rfl
    · exact hb
    · simp [Val.holdsInstance, itemsHoldInstance, hb]
    · rw [hitems] at hcur
      simp only [Val.holdsInstance] at hcur ⊢
      rw [itemsHoldInstance_append]
      simp [hcur, itemsHoldInstance, hb]
    · simp [Val.holdsInstance, itemsHoldInstance, hb, hcur]
  · have hb : b.holdsInstance cls = false := ih target b last (by rw [ht]; exact hcur) hsub
    rw [he1]
    exact holdsInstance_assign cls ecls props field b he hb
  · rw [he1]
    exact he

mutual
theorem hydrateEntry_avoids (cls : EntityClass) (data : List Cell) :
    ∀ (entry : FieldEntry) (entity : Val) (c : Int) (e1 : Val) (r : Int),
      entry.bindsClass cls = false → entity.holdsInstance cls = false →
      hydrateEntry data entity c entry = .ok (e1, r) → e1.holdsInstance cls = false
  | .scalar field col, entity, c, e1, r, _, he, h => by
    cases entity with
    | entity ecls props =>
      rw [hydrateEntry_scalar] at h
      cases h
      split
      · exact holdsInstance_assign cls ecls props field _ he (holdsInstance_rowAt cls data c)
      · exact he
    | undefined => cases h
    | null => cases h
    | num n => cases h; rfl
    | str s => cases h; rfl
    | bool b => cases h; rfl
    | array items => cases h; exact he
  | .nested field bound .includeType sub, entity, c, e1, r, _, he, h => by
    simp only [hydrateEntry] at h
    cases h
    exact he
  | .nested field bound .single sub, entity, c, e1, r, hb, he, h => by
    simp only [FieldEntry.bindsClass, Bool.or_eq_false_iff, beq_eq_false_iff_ne] at hb
    exact hydrateEntry_avoids_nested cls data field bound MapType.single sub (by decide) hb.1
      (fun target b last c1 ht hs => hydrate_avoids cls data sub target c1 b last hb.2 ht hs)
      entity c e1 r he h
  | .nested field bound .many sub, entity, c, e1, r, hb, he, h => by
    simp only [FieldEntry.bindsClass, Bool.or_eq_false_iff, beq_eq_false_iff_ne] at hb
    exact hydrateEntry_avoids_nested cls data field bound MapType.many sub (by decide) hb.1
      (fun target b last c1 ht hs => hydrate_avoids cls data sub target c1 b last hb.2 ht hs)
      entity c e1 r he h
theorem hydrate_avoids (cls : EntityClass) (data : List Cell) :
    ∀ (fieldsMap : List FieldEntry) (entity : Val) (c : Int) (e1 : Val) (r : Int),
      bindsClass cls fieldsMap = false → entity.holdsInstance cls = false →
      hydrate data entity c fieldsMap = .ok (e1, r) → e1.holdsInstance cls = false
  | [], entity, c, e1, r, _, he, h => by
    simp only [hydrate] at h
    cases h
    exact he
  | entry :: rest, entity, c, e1, r, hb, he, h => by
    simp only [bindsClass, Bool.or_eq_false_iff] at hb
    simp only [hydrate] at h
    obtain ⟨⟨e2, n⟩, h1, h⟩ := bind_eq_ok h
    exact hydrate_avoids cls data rest e2 n e1 r hb.2
      (hydrateEntry_avoids cls data entry entity c e2 n hb.1 he h1) h
end

theorem hydrateRows_avoids (cls rootCls : EntityClass) (fieldMaps : List FieldEntry)
    (hroot : rootCls ≠ cls) (hmap : bindsClass cls fieldMaps = false) :
    ∀ (rows : List (List Cell)) (response : List Val) (entity : Option Val)
      (result : List Val),
      (∀ x ∈ response, x.holdsInstance cls = false) →
      (∀ e, entity = some e → e.holdsInstance cls = false) →
      hydrateRows rootCls fieldMaps response entity rows = .ok result →
      ∀ x ∈ result, x.holdsInstance cls = false
  | [], response, entity, result, hres, hent, h => by
    simp only [hydrateRows] at h
    cases h
    intro x hx
    rcases List.mem_append.mp hx with hx | hx
    · exact hres x hx
    · cases entity with
      | none => simp at hx
      | some e =>
        simp only [Option.toList, List.mem_singleton] at hx
        rw [hx]
        exact hent e rfl
  | rowData :: rows, response, none, result, hres, _, h => by
    simp only [hydrateRows] at h
    split at h
    · obtain ⟨⟨e1, n⟩, h1, h⟩ := bind_eq_ok h
      have he1 := hydrate_avoids cls rowData fieldMaps _ 0 e1 n hmap
        (holdsInstance_newEntity cls rootCls hroot) h1
      exact hydrateRows_avoids cls rootCls fieldMaps hroot hmap rows response (some e1) result
        hres (fun e he => by cases he; exact he1) h
    · obtain ⟨_, -, h⟩ := bind_eq_ok h
      exact hydrateRows_avoids cls rootCls fieldMaps hroot hmap rows response none result
        hres (fun e he => by cases he) h
  | rowData :: rows, response, some entity, result, hres, hent, h => by
    simp only [hydrateRows] at h
    obtain ⟨entityId, -, h⟩ := bind_eq_ok h
    split at h
    · obtain ⟨⟨e1, n⟩, h1, h⟩ := bind_eq_ok h
      have he1 := hydrate_avoids cls rowData fieldMaps _ 0 e1 n hmap
        (holdsInstance_newEntity cls rootCls hroot) h1
      refine hydrateRows_avoids cls rootCls fieldMaps hroot hmap rows (response ++ [entity])
        (some e1) result ?_ (fun e he => by cases he; exact he1) h
      intro x hx
      rcases List.mem_append.mp hx with hx | hx
      · exact hres x hx
      · simp only [List.mem_singleton] at hx
        rw [hx]
        exact hent entity rfl
    · obtain ⟨⟨e1, n⟩, h1, h⟩ := bind_eq_ok h
      have he1 := hydrate_avoids cls rowData fieldMaps entity 0 e1 n hmap (hent entity rfl) h1
      exact hydrateRows_avoids cls rootCls fieldMaps hroot hmap rows response (some e1) result
        hres (fun e he => by cases he; exact he1) h

theorem bindsClass_append (cls : EntityClass) (back : List FieldEntry) :
    ∀ front : List FieldEntry,
      bindsClass cls (front ++ back) = (bindsClass cls front || bindsClass cls back)
  | [] => by simp [bindsClass]
  | e :: rest => by simp [bindsClass, bindsClass_append cls back rest, Bool.or_assoc]

theorem bindsClass_columnsMap (cls : EntityClass) :
    ∀ (keys : List String) (m : List FieldEntry), columnsMap keys = .ok m →
      bindsClass cls m = false
  | [], m, h => by
    simp only [columnsMap] at h
    cases h
    rfl
  | key :: keys, m, h => by
    simp only [columnsMap] at h
    obtain ⟨f, -, h⟩ := bind_eq_ok h
    obtain ⟨rest, hrest, h⟩ := bind_eq_ok h
    cases h
    simp [bindsClass, FieldEntry.bindsClass, bindsClass_columnsMap cls keys rest hrest]

theorem getFieldsMap_create_through (p v d : EntityClass) (options throughOptions : JoinOptions)
    (rv rd : Resolved) (ownP ownV ownD : List FieldEntry)
    (hv : resolve p v options = .ok rv)
    (hd : resolve v d { throughOptions with field := options.field } = .ok rd)
    (hP : columnsMap p.columns = .ok ownP) (hV : columnsMap v.columns = .ok ownV)
    (hD : columnsMap d.columns = .ok ownD) :
    getFieldsMap (EntityQueryJoin.create p (Entity.through d v throughOptions) options) =
      .ok (ownP ++ (ownV ++ [FieldEntry.nested rd.field rd.entityClass
              (if rd.column = "id" then MapType.single else MapType.many) ownD] ++
            [FieldEntry.nested rv.field rv.entityClass MapType.includeType []]),
           [Join.mk rv [Join.mk rd []]]) := by
  simp [getFieldsMap, EntityQueryJoin.create, Entity.through, compileChildren, compileChild,
    hv, hd, hP, hV, hD, pushJoin, bind, Except.bind, pure, Except.pure]

/-- C14. Through-link transparency. For a parent `P`, a pivot `V` and a destination `D`
(the pivot being neither `P` nor `D`) whose keys resolve, the field map of
`P.with(D.through(V))` is `P`'s columns, `V`'s columns as entries of `P`'s level, one
`single` / `many` entry for `D`, and the include marker of `V`; it has no `single` /
`many` entry for `V`, and hydrating any row stream with it yields roots that hold no
instance of `V` at any depth. -/
theorem through_link_transparent (p v d : EntityClass) (options throughOptions : JoinOptions)
    (rv rd : Resolved) (ownP ownV ownD : List FieldEntry)
    (hv : resolve p v options = .ok rv)
    (hd : resolve v d { throughOptions with field := options.field } = .ok rd)
    (hP : columnsMap p.columns = .ok ownP) (hV : columnsMap v.columns = .ok ownV)
    (hD : columnsMap d.columns = .ok ownD)
    (hvp : p ≠ v) (hvd : d ≠ v) :
    getFieldsMap (EntityQueryJoin.create p (Entity.through d v throughOptions) options) =
      .ok (ownP ++ (ownV ++ [FieldEntry.nested rd.field d
              (if rd.column = "id" then MapType.single else MapType.many) ownD] ++
            [FieldEntry.nested rv.field v MapType.includeType []]),
           [Join.mk rv [Join.mk rd []]]) ∧
    scalarColumns (ownP ++ ownV) = p.columns ++ v.columns ∧
    bindsClass v (ownP ++ (ownV ++ [FieldEntry.nested rd.field d
        (if rd.column = "id" then MapType.single else MapType.many) ownD] ++
      [FieldEntry.nested rv.field v MapType.includeType []])) = false ∧
    (∀ (rows : List (List Cell)) (result : List Val),
      hydrateRows p (ownP ++ (ownV ++ [FieldEntry.nested rd.field d
          (if rd.column = "id" then MapType.single else MapType.many) ownD] ++
        [FieldEntry.nested rv.field v MapType.includeType []])) [] none rows = .ok result →
      ∀ root ∈ result, root.holdsInstance v = false) := by
  have hcv := resolve_entityClass p v options rv hv
  have hcd := resolve_entityClass v d _ rd hd
  have hbinds : bindsClass v (ownP ++ (ownV ++ [FieldEntry.nested rd.field d
        (if rd.column = "id" then MapType.single else MapType.many) ownD] ++
      [FieldEntry.nested rv.field v MapType.includeType []])) = false := by
    have hne : (d == v) = false := by simpa using hvd
    by_cases hc : rd.column = "id" <;>
      simp [hc, bindsClass_append, bindsClass, FieldEntry.bindsClass, hne,
        bindsClass_columnsMap v _ _ hP, bindsClass_columnsMap v _ _ hV,
        bindsClass_columnsMap v _ _ hD]
  refine ⟨?_, ?_, hbinds, ?_⟩
  · rw [getFieldsMap_create_through p v d options throughOptions rv rd ownP ownV ownD
      hv hd hP hV hD, hcv, hcd]
  · rw [scalarColumns_append, columnsMap_scalarColumns _ _ hP, columnsMap_scalarColumns _ _ hV]
  · intro rows result h
    exact hydrateRows_avoids v p _ hvp hbinds rows [] none result
      (fun x hx => by simp at hx) (fun e he => by cases he) h

/-- C14 on `Student.with(Course.through(Enrollment))`. -/
theorem through_link_transparent_witness :
    getFieldsMap (EntityQueryJoin.create studentClass
        (Entity.through courseClass enrollmentClass {}) {}) =
      .ok ([FieldEntry.scalar "id" "id", FieldEntry.scalar "name" "name"] ++
            ([FieldEntry.scalar "id" "id", FieldEntry.scalar "studentId" "student_id",
              FieldEntry.scalar "courseId" "course_id"] ++
              [FieldEntry.nested (Resolved.mk courseClass "course" "id" "course_id" none).field
                courseClass
                (if (Resolved.mk courseClass "course" "id" "course_id" none).column = "id"
                  then MapType.single else MapType.many)
                [FieldEntry.scalar "id" "id", FieldEntry.scalar "title" "title"]] ++
            [FieldEntry.nested
              (Resolved.mk enrollmentClass "enrollment" "student_id" "id" none).field
              enrollmentClass MapType.includeType []]),
           [Join.mk (Resolved.mk enrollmentClass "enrollment" "student_id" "id" none)
             [Join.mk (Resolved.mk courseClass "course" "id" "course_id" none) []]]) ∧
    scalarColumns ([FieldEntry.scalar "id" "id", FieldEntry.scalar "name" "name"] ++
        [FieldEntry.scalar "id" "id", FieldEntry.scalar "studentId" "student_id",
          FieldEntry.scalar "courseId" "course_id"]) =
      studentClass.columns ++ enrollmentClass.columns ∧
    bindsClass enrollmentClass
      ([FieldEntry.scalar "id" "id", FieldEntry.scalar "name" "name"] ++
        ([FieldEntry.scalar "id" "id", FieldEntry.scalar "studentId" "student_id",
          FieldEntry.scalar "courseId" "course_id"] ++
          [FieldEntry.nested (Resolved.mk courseClass "course" "id" "course_id" none).field
            courseClass
            (if (Resolved.mk courseClass "course" "id" "course_id" none).column = "id"
              then MapType.single else MapType.many)
            [FieldEntry.scalar "id" "id", FieldEntry.scalar "title" "title"]] ++
        [FieldEntry.nested
          (Resolved.mk enrollmentClass "enrollment" "student_id" "id" none).field
          enrollmentClass MapType.includeType []])) = false ∧
    (∀ (rows : List (List Cell)) (result : List Val),
      hydrateRows studentClass
        ([FieldEntry.scalar "id" "id", FieldEntry.scalar "name" "name"] ++
          ([FieldEntry.scalar "id" "id", FieldEntry.scalar "studentId" "student_id",
            FieldEntry.scalar "courseId" "course_id"] ++
            [FieldEntry.nested (Resolved.mk courseClass "course" "id" "course_id" none).field
              courseClass
              (if (Resolved.mk courseClass "course" "id" "course_id" none).column = "id"
                then MapType.single else MapType.many)
              [FieldEntry.scalar "id" "id", FieldEntry.scalar "title" "title"]] ++
          [FieldEntry.nested
            (Resolved.mk enrollmentClass "enrollment" "student_id" "id" none).field
            enrollmentClass MapType.includeType []])) [] none rows = .ok result →
      ∀ root ∈ result, root.holdsInstance enrollmentClass = false) :=
  through_link_transparent studentClass enrollmentClass courseClass {} {}
    (Resolved.mk enrollmentClass "enrollment" "student_id" "id" none)
    (Resolved.mk courseClass "course" "id" "course_id" none) _ _ _
    rfl rfl rfl rfl rfl (by decide) (by decide)

/-- C18 fails: the two joins of `Message` to `User` are distinct nodes (they pair with
different columns of the parent) and both get the alias `Message_User`. -/
theorem alias_shared_counterexample :
    (getFieldsMap messageUsersTree >>= fun p => joinsPreorder "Message" p.2).map
        (fun nodes => nodes.map (fun n => (n.parentColumn, n.joinAlias))) =
      .ok [("sender_id", "Message_User"), ("recipient_id", "Message_User")] ∧
    getAlias "Message" ["User"] = .ok "Message_User" :=
  ⟨rfl, rfl⟩

theorem toUpper_ne_underscore (c : Char) (h : c ≠ '_') : c.toUpper ≠ '_' := by
  by_cases hr : c.toNat ≥ 97 ∧ c.toNat ≤ 122
  · have hc : c = Char.ofNat c.toNat := (Char.ofNat_toNat c).symm
    obtain ⟨h1, h2⟩ := hr
    generalize c.toNat = n at hc h1 h2
    subst hc
    interval_cases n <;> decide
  · simp only [Char.toUpper, hr, if_false]
    exact h

theorem splitUnderscore_ne_nil : ∀ w : List Char, splitUnderscore w ≠ []
  | [] => by simp [splitUnderscore]
  | c :: cs => by
    simp only [splitUnderscore]
    split
    · simp
    · split <;> simp

theorem splitUnderscore_parts : ∀ (w : List Char), ∀ part ∈ splitUnderscore w, '_' ∉ part
  | [], part, h => by
    simp only [splitUnderscore, List.mem_singleton] at h
    simp [h]
  | c :: cs, part, h => by
    have ih := splitUnderscore_parts cs
    simp only [splitUnderscore] at h
    split at h
    · rcases List.mem_cons.mp h with h | h
      · simp [h]
      · exact ih part h
    · rename_i hc
      split at h
      · rename_i heq
        exact absurd heq (splitUnderscore_ne_nil cs)
      · rename_i p ps heq
        rcases List.mem_cons.mp h with h | h
        · rw [h]
          intro hmem
          rcases List.mem_cons.mp hmem with hm | hm
          · exact hc hm.symm
          · exact ih p (by rw [heq]; exact List.mem_cons_self _ _) hm
        · exact ih part (by rw [heq]; exact List.mem_cons_of_mem _ h)

theorem capitalizeParts_no_underscore :
    ∀ (parts : List (List Char)) (r : List Char), (∀ part ∈ parts, '_' ∉ part) →
      capitalizeParts parts = .ok r → '_' ∉ r
  | [], r, _, h => by
    cases h
    simp
  | [] :: ps, r, _, h => by cases h
  | (c :: cs) :: ps, r, hparts, h => by
    simp only [capitalizeParts, capitalizePart] at h
    obtain ⟨q, hq, h⟩ := bind_eq_ok h
    obtain ⟨rest, hrest, h⟩ := bind_eq_ok h
    have hq1 := pure_eq_ok hq
    have hr := pure_eq_ok h
    subst hq1 hr
    have hpart := hparts (c :: cs) (List.mem_cons_self _ _)
    have ih := capitalizeParts_no_underscore ps rest
      (fun part hp => hparts part (List.mem_cons_of_mem _ hp)) hrest
    intro hmem
    rcases List.mem_append.mp hmem with hm | hm
    · rcases List.mem_cons.mp hm with hm | hm
      · exact toUpper_ne_underscore c (fun e => hpart (by rw [e]; exact List.mem_cons_self _ _))
          hm.symm
      · exact hpart (List.mem_cons_of_mem _ hm)
    · exact ih hm

theorem toCamelCase_no_underscore (name camel : String) (h : toCamelCase name = .ok camel) :
    '_' ∉ camel.data := by
  unfold toCamelCase toCamelCaseChars at h
  have hparts := splitUnderscore_parts name.data
  split at h
  · cases h
    simp
  · rename_i p ps heq
    rw [heq] at hparts
    cases hr : capitalizeParts ps with
    | error e => rw [hr] at h; cases h
    | ok r =>
      rw [hr] at h
      cases h
      have h1 := capitalizeParts_no_underscore ps r
        (fun part hp => hparts part (List.mem_cons_of_mem _ hp)) hr
      intro hmem
      rcases List.mem_append.mp hmem with hm | hm
      · exact hparts p (List.mem_cons_self _ _) hm
      · exact h1 hm

theorem underscore_prefix_unique :
    ∀ (p q x y : List Char), '_' ∉ p → '_' ∉ q → p ++ '_' :: x = q ++ '_' :: y →
      p = q ∧ x = y
  | [], [], x, y, _, _, h => by
    simp only [List.nil_append, List.cons.injEq, true_and] at h
    exact ⟨rfl, h⟩
  | [], b :: q, x, y, _, hq, h => by
    simp only [List.nil_append, List.cons_append, List.cons.injEq] at h
    exact absurd (List.mem_cons_self _ _) (h.1 ▸ hq)
  | a :: p, [], x, y, hp, _, h => by
    simp only [List.nil_append, List.cons_append, List.cons.injEq] at h
    exact absurd (List.mem_cons_self _ _) (h.1 ▸ hp)
  | a :: p, b :: q, x, y, hp, hq, h => by
    simp only [List.cons_append, List.cons.injEq] at h
    obtain ⟨h1, h2⟩ := underscore_prefix_unique p q x y
      (fun hm => hp (List.mem_cons_of_mem _ hm)) (fun hm => hq (List.mem_cons_of_mem _ hm)) h.2
    exact ⟨by rw [h.1, h1], h2⟩

theorem underscore_suffix_unique (x y c d : List Char) (hc : '_' ∉ c) (hd : '_' ∉ d)
    (h : x ++ '_' :: c = y ++ '_' :: d) : x = y ∧ c = d := by
  have hrev := congrArg List.reverse h
  simp only [List.reverse_append, List.reverse_cons, List.append_assoc, List.singleton_append]
    at hrev
  obtain ⟨h1, h2⟩ := underscore_prefix_unique c.reverse d.reverse x.reverse y.reverse
    (by simpa using hc) (by simpa using hd) hrev
  exact ⟨List.reverse_injective h2, List.reverse_injective h1⟩

theorem aliasSuffix_injective :
    ∀ (cs ds : List String), (∀ c ∈ cs, '_' ∉ c.data) → (∀ d ∈ ds, '_' ∉ d.data) →
      aliasSuffix cs = aliasSuffix ds → cs = ds
  | [], [], _, _, _ => rfl
  | [], d :: ds, _, _, h => by
    have hl := congrArg List.length h
    simp only [aliasSuffix, List.length_append, List.length_cons, List.length_nil] at hl
    omega
  | c :: cs, [], _, _, h => by
    have hl := congrArg List.length h
    simp only [aliasSuffix, List.length_append, List.length_cons, List.length_nil] at hl
    omega
  | c :: cs, d :: ds, hc, hd, h => by
    simp only [aliasSuffix] at h
    obtain ⟨h1, h2⟩ := underscore_suffix_unique _ _ _ _ (hc c (List.mem_cons_self _ _))
      (hd d (List.mem_cons_self _ _)) h
    have ih := aliasSuffix_injective cs ds (fun x hx => hc x (List.mem_cons_of_mem _ hx))
      (fun x hx => hd x (List.mem_cons_of_mem _ hx)) h1
    rw [ih, String.ext h2]

theorem getAlias_data (root : String) :
    ∀ (chain : List String) (a : String), getAlias root chain = .ok a →
      ∃ cs, camelChain chain = .ok cs ∧ (∀ c ∈ cs, '_' ∉ c.data) ∧
        a.data = root.data ++ aliasSuffix cs
  | [], a, h => by
    cases h
    exact ⟨[], rfl, by simp, by simp [aliasSuffix]⟩
  | name :: parents, a, h => by
    simp only [getAlias] at h
    obtain ⟨pa, hpa, h⟩ := bind_eq_ok h
    obtain ⟨camel, hcamel, h⟩ := bind_eq_ok h
    have ha := pure_eq_ok h
    subst ha
    obtain ⟨cs, hcs, hfree, hdata⟩ := getAlias_data root parents pa hpa
    refine ⟨camel :: cs, ?_, ?_, ?_⟩
    · simp only [camelChain, hcs, hcamel]
      rfl
    · intro c hc
      rcases List.mem_cons.mp hc with hc | hc
      · rw [hc]
        exact toCamelCase_no_underscore name camel hcamel
      · exact hfree c hc
    · simp only [String.data_append, hdata, aliasSuffix, List.append_assoc]
      rfl

/-- C18, amended: the root's alias is its type name, a node's alias is its parent's
alias, `_` and the camel-cased type name, and the aliases of two nodes of one tree are
equal exactly when the camel-cased type names along their parent chains are equal: two
nodes on different paths of names never share an alias, two children of one parent with
the same type always do. -/
theorem alias_determined_by_name_path (root : String) :
    getAlias root [] = .ok root ∧
    (∀ name parents parentAlias camel, getAlias root parents = .ok parentAlias →
      toCamelCase name = .ok camel →
      getAlias root (name :: parents) = .ok (parentAlias ++ "_" ++ camel)) ∧
    (∀ chain1 chain2 alias1 alias2, getAlias root chain1 = .ok alias1 →
      getAlias root chain2 = .ok alias2 →
      (alias1 = alias2 ↔ camelChain chain1 = camelChain chain2)) := by
  refine ⟨rfl, ?_, ?_⟩
  · intro name parents parentAlias camel hp hc
    simp only [getAlias, hp, hc]
    rfl
  · intro chain1 chain2 alias1 alias2 h1 h2
    obtain ⟨cs, hcs, hfc, hd1⟩ := getAlias_data root chain1 alias1 h1
    obtain ⟨ds, hds, hfd, hd2⟩ := getAlias_data root chain2 alias2 h2
    rw [hcs, hds]
    constructor
    · intro h
      have hdata : root.data ++ aliasSuffix cs = root.data ++ aliasSuffix ds := by
        rw [← hd1, ← hd2, h]
      rw [aliasSuffix_injective cs ds hfc hfd (List.append_cancel_left hdata)]
    · intro h
      have hcd : cs = ds := Except.ok.inj h
      exact String.ext (by rw [hd1, hd2, hcd])

/-- C22. For `User.with(Address, {parentKey: 'home'})` where `User` holds the column `homes`,
the plural test of `join` finds `homes` (tested without suffix, as `parentKey` is given)
but writes `parentColumn = toPlural(parentKey) + joinSuffix`, that is `homes_id`, which
is no column of `User`; the compiled join clause refers to `User.homes_id`. -/
theorem join_plural_parent_column_missing :
    resolve tenantClass addressClass { parentKey := some "home" } =
      .ok (Resolved.mk addressClass "address" "id" "homes_id" none) ∧
    "homes_id" ∉ tenantClass.columns ∧
    fieldsLookup tenantClass "homes_id" = false ∧
    fieldsLookup tenantClass "homes" = true ∧
    (compilePlan (EntityQueryJoin.create tenantClass (Child.entity addressClass)
        { parentKey := some "home" })).map (fun p => p.2.join) =
      .ok ["LEFT JOIN address User_Address ON User_Address.id = User.homes_id "] :=
  ⟨rfl, by decide, by decide, by decide, rfl⟩

theorem lower_range (c : Char) (h : c.isLower = true) : 97 ≤ c.toNat ∧ c.toNat ≤ 122 := by
  simp only [Char.isLower, Bool.and_eq_true, decide_eq_true_eq] at h
  obtain ⟨h1, h2⟩ := h
  have a : (97 : UInt32).toNat ≤ c.val.toNat := h1
  have b : c.val.toNat ≤ (122 : UInt32).toNat := h2
  exact ⟨a, b⟩

theorem upper_range (c : Char) (h : c.isUpper = true) : 65 ≤ c.toNat ∧ c.toNat ≤ 90 := by
  simp only [Char.isUpper, Bool.and_eq_true, decide_eq_true_eq] at h
  obtain ⟨h1, h2⟩ := h
  have a : (65 : UInt32).toNat ≤ c.val.toNat := h1
  have b : c.val.toNat ≤ (90 : UInt32).toNat := h2
  exact ⟨a, b⟩

theorem digit_range (c : Char) (h : c.isDigit = true) : 48 ≤ c.toNat ∧ c.toNat ≤ 57 := by
  simp only [Char.isDigit, Bool.and_eq_true, decide_eq_true_eq] at h
  obtain ⟨h1, h2⟩ := h
  have a : (48 : UInt32).toNat ≤ c.val.toNat := h1
  have b : c.val.toNat ≤ (57 : UInt32).toNat := h2
  exact ⟨a, b⟩

theorem lower_facts (c : Char) (h : c.isLower = true) :
    c ≠ c.toUpper ∧ c.toLower = c ∧ c ≠ '_' ∧ c.toUpper = c.toUpper.toUpper ∧
      c.toUpper.toLower = c ∧ c.isUpper = false := by
  obtain ⟨h1, h2⟩ := lower_range c h
  have hc : c = Char.ofNat c.toNat := (Char.ofNat_toNat c).symm
  generalize c.toNat = n at hc h1 h2
  subst hc
  interval_cases n <;> decide

theorem digit_facts (c : Char) (h : c.isDigit = true) :
    c = c.toUpper ∧ c.toLower = c ∧ c ≠ '_' ∧ c.isUpper = false := by
  obtain ⟨h1, h2⟩ := digit_range c h
  have hc : c = Char.ofNat c.toNat := (Char.ofNat_toNat c).symm
  generalize c.toNat = n at hc h1 h2
  subst hc
  interval_cases n <;> decide

theorem upper_facts (c : Char) (h : c.isUpper = true) :
    c = c.toUpper ∧ c.toLower ≠ '_' ∧ c ≠ '_' ∧ c.toLower.toUpper = c := by
  obtain ⟨h1, h2⟩ := upper_range c h
  have hc : c = Char.ofNat c.toNat := (Char.ofNat_toNat c).symm
  generalize c.toNat = n at hc h1 h2
  subst hc
  interval_cases n <;> decide

theorem splitUnderscore_free : ∀ w : List Char, '_' ∉ w → splitUnderscore w = [w]
  | [], _ => rfl
  | c :: cs, h => by
    have hc : c ≠ '_' := fun e => h (by rw [e]; exact List.mem_cons_self _ _)
    have ih := splitUnderscore_free cs (fun hm => h (List.mem_cons_of_mem _ hm))
    simp [splitUnderscore, hc, ih]

theorem splitUnderscore_append : ∀ (w rest : List Char), '_' ∉ w →
    splitUnderscore (w ++ '_' :: rest) = w :: splitUnderscore rest
  | [], rest, _ => by simp [splitUnderscore]
  | c :: cs, rest, h => by
    have hc : c ≠ '_' := fun e => h (by rw [e]; exact List.mem_cons_self _ _)
    have ih := splitUnderscore_append cs rest (fun hm => h (List.mem_cons_of_mem _ hm))
    simp [splitUnderscore, hc, ih]

theorem snakeLetters_append : ∀ a b : List Char,
    snakeLetters (a ++ b) = snakeLetters a ++ snakeLetters b
  | [], b => rfl
  | c :: cs, b => by simp [snakeLetters, snakeLetters_append cs b]

theorem snakeLetters_lower : ∀ cs : List Char, cs.all Char.isLower = true → snakeLetters cs = cs
  | [], _ => rfl
  | c :: cs, h => by
    simp only [List.all_cons, Bool.and_eq_true] at h
    obtain ⟨h1, h2, -⟩ := lower_facts c h.1
    simp [snakeLetters, snakeLetter, h1, h2, snakeLetters_lower cs h.2]

theorem lower_all_no_underscore : ∀ cs : List Char, cs.all Char.isLower = true → '_' ∉ cs
  | [], _ => by simp
  | c :: cs, h => by
    simp only [List.all_cons, Bool.and_eq_true] at h
    intro hm
    rcases List.mem_cons.mp hm with hm | hm
    · exact (lower_facts c h.1).2.2.1 hm.symm
    · exact lower_all_no_underscore cs h.2 hm

theorem plainWord_no_underscore (w : List Char) (h : plainWord w = true) : '_' ∉ w := by
  cases w with
  | nil => simp [plainWord] at h
  | cons c cs =>
    simp only [plainWord, Bool.and_eq_true, Bool.or_eq_true] at h
    intro hm
    rcases List.mem_cons.mp hm with hm | hm
    · rcases h.1 with hl | hd
      · exact (lower_facts c hl).2.2.1 hm.symm
      · exact (digit_facts c hd).2.2.1 hm.symm
    · exact lower_all_no_underscore cs h.2 hm

theorem splitUnderscore_joined : ∀ (w : List Char) (ws : List (List Char)), '_' ∉ w →
    (∀ x ∈ ws, '_' ∉ x) → splitUnderscore (w ++ prefixUnderscore ws) = w :: ws
  | w, [], hw, _ => by simp [prefixUnderscore, splitUnderscore_free w hw]
  | w, x :: ws, hw, h => by
    simp only [prefixUnderscore, List.cons_append]
    rw [splitUnderscore_append w _ hw]
    rw [splitUnderscore_joined x ws (h x (List.mem_cons_self _ _))
      (fun y hy => h y (List.mem_cons_of_mem _ hy))]

theorem capitalizeParts_plain : ∀ ws : List (List Char), (∀ w ∈ ws, plainWord w = true) →
    ∃ r, capitalizeParts ws = .ok r ∧ snakeLetters r = prefixUnderscore ws
  | [], _ => ⟨[], rfl, rfl⟩
  | [] :: ws, h => by
    have := h [] (List.mem_cons_self _ _)
    simp [plainWord] at this
  | (c :: cs) :: ws, h => by
    obtain ⟨r, hr, hs⟩ := capitalizeParts_plain ws (fun w hw => h w (List.mem_cons_of_mem _ hw))
    have hw := h (c :: cs) (List.mem_cons_self _ _)
    simp only [plainWord, Bool.and_eq_true, Bool.or_eq_true] at hw
    refine ⟨c.toUpper :: cs ++ r, ?_, ?_⟩
    · simp [capitalizeParts, capitalizePart, hr, bind, Except.bind, pure, Except.pure]
    · have hfirst : snakeLetter c.toUpper = ['_', c] := by
        rcases hw.1 with hl | hd
        · obtain ⟨-, -, -, h4, h5, -⟩ := lower_facts c hl
          simp only [snakeLetter, ← h4, if_true, h5]
        · obtain ⟨h1, h2, -, -⟩ := digit_facts c hd
          simp only [snakeLetter, ← h1, if_true, h2]
      show snakeLetter c.toUpper ++ snakeLetters (cs ++ r) =
        '_' :: (c :: cs) ++ prefixUnderscore ws
      rw [hfirst, snakeLetters_append, snakeLetters_lower cs hw.2, hs]
      simp

theorem toSnakeCaseChars_plain (c : Char) (cs r : List Char)
    (hc : c.isLower = true ∨ c.isDigit = true) (hcs : cs.all Char.isLower = true) :
    toSnakeCaseChars (c :: cs ++ r) = .ok (c :: cs ++ snakeLetters r) := by
  have h2 : c.toLower = c := by
    rcases hc with hl | hd
    · exact (lower_facts c hl).2.1
    · exact (digit_facts c hd).2.1
  show Except.ok (c.toLower :: snakeLetters (cs ++ r)) = _
  rw [h2, snakeLetters_append, snakeLetters_lower cs hcs]
  rfl

/-- C21 fails: `address_line1` is a snake_case identifier of lowercase letters and digits,
and converting it to camel case and back gives `address_line_1`. -/
theorem snake_round_trip_digit_counterexample :
    "address_line1".data = joinUnderscore ["address".data, "line1".data] ∧
    (["address".data, "line1".data].all snakeWord) = true ∧
    toCamelCase "address_line1" = .ok "addressLine1" ∧
    toSnakeCase "addressLine1" = .ok "address_line_1" :=
  ⟨rfl, by decide, rfl, rfl⟩

theorem snake_round_trip_chars (words : List (List Char)) (hne : words ≠ [])
    (h : ∀ w ∈ words, plainWord w = true) :
    (toCamelCaseChars (joinUnderscore words) >>= toSnakeCaseChars) =
      .ok (joinUnderscore words) := by
  cases words with
  | nil => exact absurd rfl hne
  | cons w ws =>
    have hw := h w (List.mem_cons_self _ _)
    have hws : ∀ x ∈ ws, plainWord x = true := fun x hx => h x (List.mem_cons_of_mem _ hx)
    obtain ⟨r, hr, hs⟩ := capitalizeParts_plain ws hws
    have hsplit : splitUnderscore (joinUnderscore (w :: ws)) = w :: ws :=
      splitUnderscore_joined w ws (plainWord_no_underscore w hw)
        (fun x hx => plainWord_no_underscore x (hws x hx))
    cases w with
    | nil => simp [plainWord] at hw
    | cons c cs =>
      simp only [plainWord, Bool.and_eq_true, Bool.or_eq_true] at hw
      have hcamel : toCamelCaseChars (joinUnderscore ((c :: cs) :: ws)) =
          .ok (c :: cs ++ r) := by
        simp only [toCamelCaseChars, hsplit, hr, bind, Except.bind, pure, Except.pure]
      rw [hcamel]
      show toSnakeCaseChars (c :: cs ++ r) = _
      rw [toSnakeCaseChars_plain c cs r hw.1 hw.2, hs]
      rfl

theorem alnum_ne_underscore (c : Char) (h : c.isAlphanum = true) : c ≠ '_' := by
  simp only [Char.isAlphanum, Char.isAlpha, Bool.or_eq_true] at h
  rcases h with (hu | hl) | hd
  · exact (upper_facts c hu).2.2.1
  · exact (lower_facts c hl).2.2.1
  · exact (digit_facts c hd).2.2.1

theorem alnum_snakeLetter (c : Char) (h : c.isAlphanum = true) :
    (snakeLetter c = [c] ∧ c.isLower = true) ∨
    (∃ d, snakeLetter c = ['_', d] ∧ d ≠ '_' ∧ d.toUpper = c) := by
  simp only [Char.isAlphanum, Char.isAlpha, Bool.or_eq_true] at h
  rcases h with (hu | hl) | hd
  · obtain ⟨h1, h2, -, h4⟩ := upper_facts c hu
    right
    refine ⟨c.toLower, ?_, h2, h4⟩
    simp only [snakeLetter, ← h1, if_true]
  · obtain ⟨h1, h2, -, -, -, -⟩ := lower_facts c hl
    left
    refine ⟨?_, hl⟩
    simp only [snakeLetter, h1, if_false, h2]
  · obtain ⟨h1, h2, h3, -⟩ := digit_facts c hd
    right
    refine ⟨c, ?_, h3, h1.symm⟩
    simp only [snakeLetter, ← h1, if_true, h2]

theorem capitalizeParts_snakeLetters : ∀ (cs : List Char) (d : Char) (q : List Char),
    cs.all Char.isAlphanum = true → '_' ∉ d :: q →
    capitalizeParts (splitUnderscore (d :: q ++ snakeLetters cs)) = .ok (d.toUpper :: q ++ cs)
  | [], d, q, _, hq => by
    simp only [snakeLetters, List.append_nil]
    rw [splitUnderscore_free _ hq]
    simp [capitalizeParts, capitalizePart, bind, Except.bind, pure, Except.pure]
  | c :: cs, d, q, h, hq => by
    simp only [List.all_cons, Bool.and_eq_true] at h
    rcases alnum_snakeLetter c h.1 with ⟨hs, hl⟩ | ⟨e, hs, he, hup⟩
    · have hq1 : '_' ∉ d :: (q ++ [c]) := by
        intro hm
        rcases List.mem_cons.mp hm with hm | hm
        · exact hq (by rw [hm]; exact List.mem_cons_self _ _)
        · rcases List.mem_append.mp hm with hm | hm
          · exact hq (List.mem_cons_of_mem _ hm)
          · simp only [List.mem_singleton] at hm
            exact alnum_ne_underscore c h.1 hm.symm
      have ih := capitalizeParts_snakeLetters cs d (q ++ [c]) h.2 hq1
      have e1 : d :: q ++ snakeLetters (c :: cs) = d :: (q ++ [c]) ++ snakeLetters cs := by
        simp [snakeLetters, hs]
      have e2 : d.toUpper :: q ++ c :: cs = d.toUpper :: (q ++ [c]) ++ cs := by simp
      rw [e1, ih, e2]
    · have he1 : '_' ∉ e :: ([] : List Char) := by
        simp only [List.mem_singleton]
        exact fun hm => he hm.symm
      have ih := capitalizeParts_snakeLetters cs e [] h.2 he1
      have e1 : d :: q ++ snakeLetters (c :: cs) =
          (d :: q) ++ '_' :: (e :: [] ++ snakeLetters cs) := by
        simp [snakeLetters, hs]
      rw [e1, splitUnderscore_append _ _ hq]
      simp only [capitalizeParts, capitalizePart, ih, bind, Except.bind, pure, Except.pure, hup]
      simp

theorem toCamelCaseChars_snakeLetters : ∀ (cs : List Char) (p : List Char),
    cs.all Char.isAlphanum = true → '_' ∉ p →
    toCamelCaseChars (p ++ snakeLetters cs) = .ok (p ++ cs)
  | [], p, _, hp => by
    simp only [snakeLetters, List.append_nil, toCamelCaseChars]
    rw [splitUnderscore_free _ hp]
    simp [capitalizeParts, bind, Except.bind, pure, Except.pure]
  | c :: cs, p, h, hp => by
    simp only [List.all_cons, Bool.and_eq_true] at h
    rcases alnum_snakeLetter c h.1 with ⟨hs, hl⟩ | ⟨e, hs, he, hup⟩
    · have hp1 : '_' ∉ p ++ [c] := by
        intro hm
        rcases List.mem_append.mp hm with hm | hm
        · exact hp hm
        · simp only [List.mem_singleton] at hm
          exact alnum_ne_underscore c h.1 hm.symm
      have ih := toCamelCaseChars_snakeLetters cs (p ++ [c]) h.2 hp1
      have e1 : p ++ snakeLetters (c :: cs) = (p ++ [c]) ++ snakeLetters cs := by
        simp [snakeLetters, hs]
      have e2 : p ++ c :: cs = (p ++ [c]) ++ cs := by simp
      rw [e1, ih, e2]
    · have he1 : '_' ∉ e :: ([] : List Char) := by
        simp only [List.mem_singleton]
        exact fun hm => he hm.symm
      have hcap := capitalizeParts_snakeLetters cs e [] h.2 he1
      have e1 : p ++ snakeLetters (c :: cs) = p ++ '_' :: (e :: [] ++ snakeLetters cs) := by
        simp [snakeLetters, hs]
      simp only [toCamelCaseChars]
      rw [e1, splitUnderscore_append _ _ hp]
      simp only [hcap, bind, Except.bind, pure, Except.pure, hup]
      simp

theorem camel_round_trip_chars (w : List Char) (h : lowerCamelWord w = true) :
    (toSnakeCaseChars w >>= toCamelCaseChars) = .ok w := by
  cases w with
  | nil => simp [lowerCamelWord] at h
  | cons c cs =>
    simp only [lowerCamelWord, List.all_cons, Bool.and_eq_true, Bool.not_eq_true'] at h
    obtain ⟨hnu, hc, hcs⟩ := h
    have h2 : c.toLower = c := by
      simp only [Char.isAlphanum, Char.isAlpha, Bool.or_eq_true] at hc
      rcases hc with (hu | hl) | hd
      · rw [hu] at hnu
        cases hnu
      · exact (lower_facts c hl).2.1
      · exact (digit_facts c hd).2.1
    have hp : '_' ∉ [c] := by
      simp only [List.mem_singleton]
      exact fun hm => alnum_ne_underscore c hc hm.symm
    show toCamelCaseChars (c.toLower :: snakeLetters cs) = _
    rw [h2]
    exact toCamelCaseChars_snakeLetters cs [c] hcs hp

/-- C21 as amended. Converting a snake_case identifier to camel case and back gives the
identifier again when every word is made of lowercase ASCII letters, a digit being
allowed only as the first character of a word (a digit elsewhere gains an underscore).
Converting a lower-camel identifier of ASCII letters and digits (first character not
upper case) to snake case and back gives the identifier again. -/
theorem case_conversion_round_trip :
    (∀ words : List (List Char), words ≠ [] → (∀ w ∈ words, plainWord w = true) →
      (toCamelCase (String.mk (joinUnderscore words)) >>= toSnakeCase) =
        .ok (String.mk (joinUnderscore words))) ∧
    (∀ w : String, lowerCamelWord w.data = true →
      (toSnakeCase w >>= toCamelCase) = .ok w) := by
  constructor
  · intro words hne h
    have hc := snake_round_trip_chars words hne h
    obtain ⟨r, hr, hs⟩ := bind_eq_ok hc
    simp only [toCamelCase, toSnakeCase, hr, hs, Except.map, bind, Except.bind]
  · intro w h
    have hc := camel_round_trip_chars w.data h
    obtain ⟨r, hr, hs⟩ := bind_eq_ok hc
    simp only [toCamelCase, toSnakeCase, hr, hs, Except.map, bind, Except.bind]

theorem newProps_keys (cls : EntityClass) :
    (newProps cls).map Prod.fst = declaredKeys cls := by
  simp [newProps, declaredKeys, List.map_map, Function.comp_def]

theorem keysDeclared_lookupProp (g : String) :
    ∀ props : List (String × Val), propsKeysDeclared props = true →
      (lookupProp g props).keysDeclared = true
  | [], _ => rfl
  | (k, v) :: rest, h => by
    simp only [propsKeysDeclared, Bool.and_eq_true] at h
    by_cases hk : k = g
    · simp [lookupProp, hk, h.1]
    · simp [lookupProp, hk, keysDeclared_lookupProp g rest h.2]

theorem propsKeysDeclared_assignProp (g : String) (x : Val) (hx : x.keysDeclared = true) :
    ∀ props : List (String × Val), propsKeysDeclared props = true →
      propsKeysDeclared (assignProp g x props) = true
  | [], _ => by simp [assignProp, propsKeysDeclared, hx]
  | (k, v) :: rest, h => by
    simp only [propsKeysDeclared, Bool.and_eq_true] at h
    by_cases hk : k = g
    · simp [assignProp, hk, propsKeysDeclared, hx, h.2]
    · simp [assignProp, hk, propsKeysDeclared, h.1,
        propsKeysDeclared_assignProp g x hx rest h.2]

theorem itemsKeysDeclared_append (back : List Val) :
    ∀ front : List Val, itemsKeysDeclared (front ++ back) =
      (itemsKeysDeclared front && itemsKeysDeclared back)
  | [] => by simp [itemsKeysDeclared]
  | v :: rest => by
    simp [itemsKeysDeclared, itemsKeysDeclared_append back rest, Bool.and_assoc]

theorem propsKeysDeclared_undefined :
    ∀ keys : List String, propsKeysDeclared (keys.map (fun k => (k, Val.undefined))) = true
  | [] => rfl
  | k :: ks => by
    simp [propsKeysDeclared, Val.keysDeclared, propsKeysDeclared_undefined ks]

theorem keysDeclared_newEntity (cls : EntityClass) : (newEntity cls).keysDeclared = true := by
  simp only [newEntity, Val.keysDeclared, newProps_keys, decide_True, Bool.true_and]
  exact propsKeysDeclared_undefined _

theorem keysDeclared_rowAt (data : List Cell) (c : Int) :
    (rowAt data c).keysDeclared = true := by
  unfold rowAt
  split
  · rfl
  · split
    · rename_i cell _
      cases cell <;> rfl
    · rfl

theorem keysDeclared_assign (cls : EntityClass) (props : List (String × Val)) (g : String)
    (x : Val) (he : (Val.entity cls props).keysDeclared = true)
    (hg : g ∈ props.map Prod.fst) (hx : x.keysDeclared = true) :
    (Val.entity cls (assignProp g x props)).keysDeclared = true := by
  simp only [Val.keysDeclared, Bool.and_eq_true, decide_eq_true_eq] at he ⊢
  exact ⟨by rw [keys_assignProp g x props hg]; exact he.1,
    propsKeysDeclared_assignProp g x hx props he.2⟩

theorem hydrateEntry_keysDeclared_nested (data : List Cell) (field0 : String)
    (bound : EntityClass) (type : MapType) (sub : List FieldEntry)
    (htype : type ≠ MapType.includeType)
    (ih : ∀ (target b : Val) (last : Int) {c : Int}, target.keysDeclared = true →
      hydrate data target c sub = .ok (b, last) → b.keysDeclared = true)
    (entity : Val) (c : Int) (e1 : Val) (r : Int)
    (he : entity.keysDeclared = true)
    (h : hydrateEntry data entity c (FieldEntry.nested field0 bound type sub) = .ok (e1, r)) :
    e1.keysDeclared = true := by
  obtain ⟨ecls, props, field, target, b, last, rfl, -, hmem, hsub, -, hcases⟩ :=
    hydrateEntry_nested_cases data field0 bound type sub htype entity c e1 r h
  have hprops : propsKeysDeclared props = true := by
    simp only [Val.keysDeclared, Bool.and_eq_true] at he
    exact he.2
  have hcur : (lookupProp field props).keysDeclared = true :=
    keysDeclared_lookupProp field props hprops
  rcases hcases with ⟨ht, v, he1, hv⟩ | ⟨ht, he1⟩ | ⟨items, lastItem, hitems, hl, hid, he1⟩
  · have hb : b.keysDeclared = true :=
      ih target b last (by rw [ht]; exact keysDeclared_newEntity bound) hsub
    rw [he1]
    apply keysDeclared_assign ecls props field v he hmem
    rcases hv with rfl | rfl | rfl | rfl | ⟨items, hitems, rfl⟩ | rfl
    · rfl
    · rfl
    · exact hb
    · simp [Val.keysDeclared, itemsKeysDeclared, hb]
    · rw [hitems] at hcur
      simp only [Val.keysDeclared] at hcur ⊢
      rw [itemsKeysDeclared_append]
      simp [hcur, itemsKeysDeclared, hb]
    · simp [Val.keysDeclared, itemsKeysDeclared, hb, hcur]
  · have hb : b.keysDeclared = true := ih target b last (by rw [ht]; exact hcur) hsub
    rw [he1]
    exact keysDeclared_assign ecls props field b he hmem hb
  · rw [he1]
    exact he

mutual
theorem hydrateEntry_keysDeclared (data : List Cell) :
    ∀ (entry : FieldEntry) (entity : Val) (c : Int) (e1 : Val) (r : Int),
      entity.keysDeclared = true →
      hydrateEntry data entity c entry = .ok (e1, r) → e1.keysDeclared = true
  | .scalar field col, entity, c, e1, r, he, h => by
    cases entity with
    | entity ecls props =>
      rw [hydrateEntry_scalar] at h
      cases h
      split
      · rename_i hcond
        simp only [Bool.and_eq_true] at hcond
        exact keysDeclared_assign ecls props field _ he (by simpa using hcond.2)
          (keysDeclared_rowAt data c)
      · exact he
    | undefined => cases h
    | null => cases h
    | num n => cases h; rfl
    | str s => cases h; rfl
    | bool b => cases h; rfl
    | array items => cases h; exact he
  | .nested field bound .includeType sub, entity, c, e1, r, he, h => by
    simp only [hydrateEntry] at h
    cases h
    exact he
  | .nested field bound .single sub, entity, c, e1, r, he, h =>
    hydrateEntry_keysDeclared_nested data field bound MapType.single sub (by decide)
      (fun target b last c1 ht hs => hydrate_keysDeclared data sub target c1 b last ht hs)
      entity c e1 r he h
  | .nested field bound .many sub, entity, c, e1, r, he, h =>
    hydrateEntry_keysDeclared_nested data field bound MapType.many sub (by decide)
      (fun target b last c1 ht hs => hydrate_keysDeclared data sub target c1 b last ht hs)
      entity c e1 r he h
theorem hydrate_keysDeclared (data : List Cell) :
    ∀ (fieldsMap : List FieldEntry) (entity : Val) (c : Int) (e1 : Val) (r : Int),
      entity.keysDeclared = true →
      hydrate data entity c fieldsMap = .ok (e1, r) → e1.keysDeclared = true
  | [], entity, c, e1, r, he, h => by
    simp only [hydrate] at h
    cases h
    exact he
  | entry :: rest, entity, c, e1, r, he, h => by
    simp only [hydrate] at h
    obtain ⟨⟨e2, n⟩, h1, h⟩ := bind_eq_ok h
    exact hydrate_keysDeclared data rest e2 n e1 r
      (hydrateEntry_keysDeclared data entry entity c e2 n he h1) h
end

theorem hydrateEntry_same_keys (data : List Cell) (entry : FieldEntry) (cls : EntityClass)
    (props : List (String × Val)) (c : Int) (e1 : Val) (r : Int)
    (h : hydrateEntry data (Val.entity cls props) c entry = .ok (e1, r)) :
    ∃ props1, e1 = Val.entity cls props1 ∧ props1.map Prod.fst = props.map Prod.fst := by
  cases entry with
  | scalar field column =>
    rw [hydrateEntry_scalar] at h
    cases h
    split
    · rename_i hcond
      simp only [Bool.and_eq_true] at hcond
      exact ⟨_, rfl, keys_assignProp field _ props (by simpa using hcond.2)⟩
    · exact ⟨props, rfl, rfl⟩
  | nested field0 bound type sub =>
    by_cases htype : type = MapType.includeType
    · subst htype
      simp only [hydrateEntry] at h
      cases h
      exact ⟨props, rfl, rfl⟩
    · obtain ⟨ecls, eprops, field, target, b, last, hent, -, hmem, -, -, hcases⟩ :=
        hydrateEntry_nested_cases data field0 bound type sub htype _ c e1 r h
      cases hent
      rcases hcases with ⟨-, v, he1, -⟩ | ⟨-, he1⟩ | ⟨_, _, -, -, -, he1⟩
      · exact ⟨_, he1, keys_assignProp field v props hmem⟩
      · exact ⟨_, he1, keys_assignProp field b props hmem⟩
      · exact ⟨props, he1, rfl⟩

theorem hydrate_same_keys (data : List Cell) :
    ∀ (fieldsMap : List FieldEntry) (cls : EntityClass) (props : List (String × Val))
      (c : Int) (e1 : Val) (r : Int),
      hydrate data (Val.entity cls props) c fieldsMap = .ok (e1, r) →
      ∃ props1, e1 = Val.entity cls props1 ∧ props1.map Prod.fst = props.map Prod.fst
  | [], cls, props, c, e1, r, h => by
    simp only [hydrate] at h
    cases h
    exact ⟨props, rfl, rfl⟩
  | entry :: rest, cls, props, c, e1, r, h => by
    simp only [hydrate] at h
    obtain ⟨⟨e2, n⟩, h1, h⟩ := bind_eq_ok h
    obtain ⟨props2, rfl, hk2⟩ := hydrateEntry_same_keys data entry cls props c e2 n h1
    obtain ⟨props1, he1, hk1⟩ := hydrate_same_keys data rest cls props2 n e1 r h
    exact ⟨props1, he1, hk1.trans hk2⟩

theorem hydrateRows_keysDeclared (rootCls : EntityClass) (fieldMaps : List FieldEntry) :
    ∀ (rows : List (List Cell)) (response : List Val) (entity : Option Val)
      (result : List Val),
      (∀ x ∈ response, x.keysDeclared = true) →
      (∀ e, entity = some e → e.keysDeclared = true) →
      hydrateRows rootCls fieldMaps response entity rows = .ok result →
      ∀ x ∈ result, x.keysDeclared = true
  | [], response, entity, result, hres, hent, h => by
    simp only [hydrateRows] at h
    cases h
    intro x hx
    rcases List.mem_append.mp hx with hx | hx
    · exact hres x hx
    · cases entity with
      | none => simp at hx
      | some e =>
        simp only [Option.toList, List.mem_singleton] at hx
        rw [hx]
        exact hent e rfl
  | rowData :: rows, response, none, result, hres, _, h => by
    simp only [hydrateRows] at h
    split at h
    · obtain ⟨⟨e1, n⟩, h1, h⟩ := bind_eq_ok h
      have he1 := hydrate_keysDeclared rowData fieldMaps _ 0 e1 n
        (keysDeclared_newEntity rootCls) h1
      exact hydrateRows_keysDeclared rootCls fieldMaps rows response (some e1) result
        hres (fun e he => by cases he; exact he1) h
    · obtain ⟨_, -, h⟩ := bind_eq_ok h
      exact hydrateRows_keysDeclared rootCls fieldMaps rows response none result
        hres (fun e he => by cases he) h
  | rowData :: rows, response, some entity, result, hres, hent, h => by
    simp only [hydrateRows] at h
    obtain ⟨entityId, -, h⟩ := bind_eq_ok h
    split at h
    · obtain ⟨⟨e1, n⟩, h1, h⟩ := bind_eq_ok h
      have he1 := hydrate_keysDeclared rowData fieldMaps _ 0 e1 n
        (keysDeclared_newEntity rootCls) h1
      refine hydrateRows_keysDeclared rootCls fieldMaps rows (response ++ [entity])
        (some e1) result ?_ (fun e he => by cases he; exact he1) h
      intro x hx
      rcases List.mem_append.mp hx with hx | hx
      · exact hres x hx
      · simp only [List.mem_singleton] at hx
        rw [hx]
        exact hent entity rfl
    · obtain ⟨⟨e1, n⟩, h1, h⟩ := bind_eq_ok h
      have he1 := hydrate_keysDeclared rowData fieldMaps entity 0 e1 n (hent entity rfl) h1
      exact hydrateRows_keysDeclared rootCls fieldMaps rows response (some e1) result
        hres (fun e he => by cases he; exact he1) h

/-- C24. Hydration adds no fields. When `#hydrate` returns on an entity, the entity has the
same property names as before; if every entity it held had the names its class declares
(a fresh instance has exactly those), so has every entity it holds afterwards, at any
depth, the created children included. A scalar entry whose field is not a property of
the entity leaves the entity unchanged and advances the cursor by one. Every root that
`execute` builds from a row stream has, at any depth, the declared names only. -/
theorem hydrate_adds_no_fields (data : List Cell) (cls : EntityClass)
    (props : List (String × Val)) (c : Int) (fieldsMap : List FieldEntry) (e1 : Val) (r : Int)
    (h : hydrate data (Val.entity cls props) c fieldsMap = .ok (e1, r)) :
    (∃ props1, e1 = Val.entity cls props1 ∧ props1.map Prod.fst = props.map Prod.fst) ∧
    ((Val.entity cls props).keysDeclared = true → e1.keysDeclared = true) ∧
    (∀ bound : EntityClass, (newEntity bound).keysDeclared = true ∧
      (newProps bound).map Prod.fst = declaredKeys bound) ∧
    (∀ (field column : String) (c1 : Int), field ∉ props.map Prod.fst →
      hydrateEntry data (Val.entity cls props) c1 (FieldEntry.scalar field column) =
        .ok (Val.entity cls props, c1 + 1)) ∧
    (∀ (rows : List (List Cell)) (result : List Val),
      hydrateRows cls fieldsMap [] none rows = .ok result →
      ∀ root ∈ result, root.keysDeclared = true) := by
  refine ⟨hydrate_same_keys data fieldsMap cls props c e1 r h,
    fun he => hydrate_keysDeclared data fieldsMap _ c e1 r he h,
    fun bound => ⟨keysDeclared_newEntity bound, newProps_keys bound⟩, ?_, ?_⟩
  · intro field column c1 hmem
    have hkey : (props.map Prod.fst).contains field = false := by simpa using hmem
    rw [hydrateEntry_scalar, hkey]
    simp
  · intro rows result hrows
    exact hydrateRows_keysDeclared cls fieldsMap rows [] none result
      (fun x hx => by simp at hx) (fun e he => by cases he) hrows

/-- C24 on one row of `User.with(Post)`, hydrated into a fresh `User`. -/
theorem hydrate_adds_no_fields_witness :
    (∃ props1,
      Val.entity userClass [("id", Val.num 1), ("name", Val.str "ann"),
        ("posts", Val.array [Val.entity postClass [("id", Val.num 10),
          ("userId", Val.num 1), ("comments", Val.undefined)]])] =
        Val.entity userClass props1 ∧
      props1.map Prod.fst = (newProps userClass).map Prod.fst) ∧
    ((Val.entity userClass (newProps userClass)).keysDeclared = true →
      (Val.entity userClass [("id", Val.num 1), ("name", Val.str "ann"),
        ("posts", Val.array [Val.entity postClass [("id", Val.num 10),
          ("userId", Val.num 1), ("comments", Val.undefined)]])]).keysDeclared = true) ∧
    (∀ bound : EntityClass, (newEntity bound).keysDeclared = true ∧
      (newProps bound).map Prod.fst = declaredKeys bound) ∧
    (∀ (field column : String) (c1 : Int), field ∉ (newProps userClass).map Prod.fst →
      hydrateEntry [Cell.num 1, Cell.str "ann", Cell.num 10, Cell.num 1]
          (Val.entity userClass (newProps userClass)) c1 (FieldEntry.scalar field column) =
        .ok (Val.entity userClass (newProps userClass), c1 + 1)) ∧
    (∀ (rows : List (List Cell)) (result : List Val),
      hydrateRows userClass userPostMap [] none rows = .ok result →
      ∀ root ∈ result, root.keysDeclared = true) :=
  hydrate_adds_no_fields [Cell.num 1, Cell.str "ann", Cell.num 10, Cell.num 1] userClass
    (newProps userClass) 0 userPostMap _ 3 rfl

theorem resolve_parent_key_column (parent child : EntityClass) (options : JoinOptions)
    (r : Resolved) (childSnake : String)
    (hkey : options.parentKey = none) (hcs : toSnakeCase child.name = .ok childSnake)
    (hcol : childSnake ++ "_id" ∈ parent.columns)
    (h : resolve parent child options = .ok r) :
    r.column = "id" ∧ r.parentColumn = childSnake ++ "_id" := by
  simp only [resolve] at h
  obtain ⟨key, -, h⟩ := bind_eq_ok h
  obtain ⟨parentKey, hpk, h⟩ := bind_eq_ok h
  obtain ⟨field, -, h⟩ := bind_eq_ok h
  rw [hkey] at hpk
  have hpk1 : parentKey = childSnake := by
    simp only [withDefault, hcs] at hpk
    exact (Except.ok.inj hpk).symm
  subst hpk1
  have hl : fieldsLookup parent (parentKey ++ "_id") = true := by
    simp [fieldsLookup, hcol]
  simp only [resolveColumns, hkey, optTruthy, Bool.false_eq_true, if_false, hl, if_true] at h
  cases h
  exact ⟨rfl, rfl⟩

theorem hydrateEntry_primitive (data : List Cell) (entry : FieldEntry) (entity : Val) (c : Int)
    (e1 : Val) (r : Int) (hne : ∀ cls props, entity ≠ Val.entity cls props)
    (h : hydrateEntry data entity c entry = .ok (e1, r)) : e1 = entity := by
  cases entry with
  | scalar field column =>
    cases entity with
    | entity cls props => exact absurd rfl (hne cls props)
    | undefined => cases h
    | null => cases h
    | num n => cases h; rfl
    | str s => cases h; rfl
    | bool b => cases h; rfl
    | array items => cases h; rfl
  | nested field0 bound type sub =>
    by_cases htype : type = MapType.includeType
    · subst htype
      simp only [hydrateEntry] at h
      cases h
      rfl
    · obtain ⟨cls, props, _, _, _, _, hent, -⟩ :=
        hydrateEntry_nested_cases data field0 bound type sub htype entity c e1 r h
      exact absurd hent (hne cls props)

theorem hydrateEntry_not_array (data : List Cell) (entry : FieldEntry) (entity : Val) (c : Int)
    (e1 : Val) (r : Int) (ha : isArray entity = false)
    (h : hydrateEntry data entity c entry = .ok (e1, r)) : isArray e1 = false := by
  by_cases he : ∃ cls props, entity = Val.entity cls props
  · obtain ⟨cls, props, rfl⟩ := he
    obtain ⟨props1, rfl, -⟩ := hydrateEntry_same_keys data entry cls props c e1 r h
    rfl
  · have := hydrateEntry_primitive data entry entity c e1 r
      (fun cls props hh => he ⟨cls, props, hh⟩) h
    rw [this]
    exact ha

theorem hydrate_not_array (data : List Cell) :
    ∀ (fieldsMap : List FieldEntry) (entity : Val) (c : Int) (e1 : Val) (r : Int),
      isArray entity = false → hydrate data entity c fieldsMap = .ok (e1, r) →
      isArray e1 = false
  | [], entity, c, e1, r, ha, h => by
    simp only [hydrate] at h
    cases h
    exact ha
  | entry :: rest, entity, c, e1, r, ha, h => by
    simp only [hydrate] at h
    obtain ⟨⟨e2, n⟩, h1, h⟩ := bind_eq_ok h
    exact hydrate_not_array data rest e2 n e1 r
      (hydrateEntry_not_array data entry entity c e2 n ha h1) h

theorem lookupProp_assign_self (field : String) (x : Val) (props : List (String × Val)) :
    lookupProp field (assignProp field x props) = x := by
  rw [lookupProp_assignProp]
  simp

theorem hydrateEntry_single_list_origin (data : List Cell) (field0 : String)
    (bound : EntityClass) (sub : List FieldEntry) (cls : EntityClass)
    (props : List (String × Val)) (c : Int) (field : String) (e1 : Val) (r : Int)
    (hfield : resolveField (Val.entity cls props) field0 bound = .ok field)
    (hcur : isArray (lookupProp field props) = false)
    (h : hydrateEntry data (Val.entity cls props) c
      (FieldEntry.nested field0 bound MapType.single sub) = .ok (e1, r)) :
    ∃ props1, e1 = Val.entity cls props1 ∧
      (isArray (lookupProp field props1) = true →
        strictEq (rowAt data c) Val.null = false ∧ truthy (lookupProp field props) = true ∧
        (∃ currentId, getProp (lookupProp field props) "id" = .ok currentId ∧
          strictEq currentId (rowAt data c) = false) ∧
        ∃ b, lookupProp field props1 = Val.array [lookupProp field props, b]) := by
  simp only [hydrateEntry] at h
  obtain ⟨f, hf, h⟩ := bind_eq_ok h
  have hff : f = field := Except.ok.inj (hf.symm.trans hfield)
  subst hff
  simp only [getProp_entity, setProp_entity, bind, Except.bind, pure, Except.pure] at h
  split at h
  · -- null child
    cases hsub : hydrate data (newEntity bound) c sub with
    | error e => rw [hsub] at h; cases h
    | ok p =>
      rw [hsub] at h
      simp only [Except.ok.injEq, Prod.mk.injEq] at h
      refine ⟨_, h.1.symm, ?_⟩
      intro ha
      rw [lookupProp_assign_self, hcur] at ha
      simp [isArray] at ha
  · rename_i hnn
    split at h
    · rename_i htruthy
      split at h
      · rename_i items hitems
        rw [hitems] at hcur
        simp [isArray] at hcur
      · cases hid : getProp (lookupProp f props) "id" with
        | error e => rw [hid] at h; cases h
        | ok currentId =>
          rw [hid] at h
          simp only at h
          split at h
          · cases hsub : hydrate data (lookupProp f props) c sub with
            | error e => rw [hsub] at h; cases h
            | ok p =>
              rw [hsub] at h
              obtain ⟨b, last⟩ := p
              simp only [Except.ok.injEq, Prod.mk.injEq] at h
              refine ⟨_, h.1.symm, ?_⟩
              intro ha
              rw [lookupProp_assign_self] at ha
              rw [hydrate_not_array data sub _ c b last hcur hsub] at ha
              cases ha
          · rename_i hne
            cases hsub : hydrate data (newEntity bound) c sub with
            | error e => rw [hsub] at h; cases h
            | ok p =>
              rw [hsub] at h
              obtain ⟨b, last⟩ := p
              simp only [Except.ok.injEq, Prod.mk.injEq] at h
              refine ⟨_, h.1.symm, ?_⟩
              intro _
              refine ⟨by simpa using hnn, htruthy, ⟨currentId, rfl, by simpa using hne⟩,
                b, lookupProp_assign_self _ _ _⟩
    · cases hsub : hydrate data (newEntity bound) c sub with
      | error e => rw [hsub] at h; cases h
      | ok p =>
        rw [hsub] at h
        obtain ⟨b, last⟩ := p
        simp only [Except.ok.injEq, Prod.mk.injEq] at h
        refine ⟨_, h.1.symm, ?_⟩
        intro ha
        rw [lookupProp_assign_self] at ha
        simp only [if_true] at ha
        rw [hydrate_not_array data sub (newEntity bound) c b last rfl hsub] at ha
        cases ha

/-- The rows of three students hydrated through the pivot `Enrollment`: one linked course
gives a bare `Course`, no enrollment gives `null`, two distinct courses give a list. -/
theorem through_link_rows_example :
    execute studentCoursesTree (fun _ => .ok studentCoursesRows) =
      .ok [Val.entity studentClass [("id", Val.num 1), ("name", Val.str "amy"),
             ("course", Val.entity courseClass [("id", Val.num 7), ("title", Val.str "math")])],
           Val.entity studentClass [("id", Val.num 2), ("name", Val.str "bob"),
             ("course", Val.null)],
           Val.entity studentClass [("id", Val.num 3), ("name", Val.str "cat"),
             ("course", Val.array
               [Val.entity courseClass [("id", Val.num 7), ("title", Val.str "math")],
                Val.entity courseClass [("id", Val.num 8), ("title", Val.str "art")]])]] :=
  rfl

/-- C23. Through-link cardinality. For `P.with(D.through(V))` with no `parentKey` in the
through options, where the pivot `V` holds the column `snake(D)_id` and the keys resolve,
the entry compiled for `D` is `single`. Hydrating that entry on an entity whose field is
not a list stores `null` when the row's `D` key is `null`, stores a bare instance of `D`
when the key is not `null` and the field is unset, and leaves a list in the field only
if the field held a value whose key differs from the row's: the list is then the
previous value followed by the new instance. -/
theorem through_link_cardinality (p v d : EntityClass) (options throughOptions : JoinOptions)
    (rv rd : Resolved) (ownP ownV ownD : List FieldEntry) (destSnake : String)
    (hv : resolve p v options = .ok rv)
    (hd : resolve v d { throughOptions with field := options.field } = .ok rd)
    (hP : columnsMap p.columns = .ok ownP) (hV : columnsMap v.columns = .ok ownV)
    (hD : columnsMap d.columns = .ok ownD)
    (hkey : throughOptions.parentKey = none)
    (hsnake : toSnakeCase d.name = .ok destSnake)
    (hcol : destSnake ++ "_id" ∈ v.columns) :
    rd.column = "id" ∧ rd.parentColumn = destSnake ++ "_id" ∧
    getFieldsMap (EntityQueryJoin.create p (Entity.through d v throughOptions) options) =
      .ok (ownP ++ (ownV ++ [FieldEntry.nested rd.field d MapType.single ownD] ++
            [FieldEntry.nested rv.field v MapType.includeType []]),
           [Join.mk rv [Join.mk rd []]]) ∧
    (∀ (data : List Cell) (cls : EntityClass) (props : List (String × Val)) (c : Int)
        (field : String),
      resolveField (Val.entity cls props) rd.field d = .ok field →
      isArray (lookupProp field props) = false →
      (rowAt data c = Val.null →
        ∃ r, hydrateEntry data (Val.entity cls props) c
            (FieldEntry.nested rd.field d MapType.single ownD) =
          .ok (Val.entity cls (assignProp field Val.null props), r)) ∧
      (strictEq (rowAt data c) Val.null = false → truthy (lookupProp field props) = false →
        ∃ propsD r, hydrateEntry data (Val.entity cls props) c
            (FieldEntry.nested rd.field d MapType.single ownD) =
          .ok (Val.entity cls (assignProp field (Val.entity d propsD) props), r)) ∧
      (∀ (e1 : Val) (r : Int),
        hydrateEntry data (Val.entity cls props) c
            (FieldEntry.nested rd.field d MapType.single ownD) = .ok (e1, r) →
        ∃ props1, e1 = Val.entity cls props1 ∧
          (isArray (lookupProp field props1) = true →
            strictEq (rowAt data c) Val.null = false ∧
            truthy (lookupProp field props) = true ∧
            (∃ currentId, getProp (lookupProp field props) "id" = .ok currentId ∧
              strictEq currentId (rowAt data c) = false) ∧
            ∃ b, lookupProp field props1 = Val.array [lookupProp field props, b]))) := by
  obtain ⟨hc1, hc2⟩ := resolve_parent_key_column v d
    { throughOptions with field := options.field } rd destSnake hkey hsnake hcol hd
  have hcv := resolve_entityClass p v options rv hv
  have hcd := resolve_entityClass v d _ rd hd
  refine ⟨hc1, hc2, ?_, ?_⟩
  · rw [getFieldsMap_create_through p v d options throughOptions rv rd ownP ownV ownD
      hv hd hP hV hD, hcv, hcd, hc1]
    rfl
  · intro data cls props c field hfield hcur
    obtain ⟨pairs, hpairs, -⟩ := columnsMap_scalarEntries d.columns ownD hD
    obtain ⟨propsD, hsub, -⟩ := hydrate_scalars data d pairs (newProps d) c
    rw [← hpairs] at hsub
    refine ⟨?_, ?_, ?_⟩
    · intro hnull
      refine ⟨c + pairs.length - 1 + 1, ?_⟩
      rw [hydrateEntry_null data cls props c rd.field field d MapType.single ownD _ _
        (by decide) hfield hnull hsub, hcur]
      rfl
    · intro hvalue hfalsy
      refine ⟨propsD, c + pairs.length - 1 + 1, ?_⟩
      rw [hydrateEntry_fresh data cls props c rd.field field d MapType.single ownD _ _
        (by decide) hfield hvalue hfalsy hsub]
      rfl
    · intro e1 r h
      exact hydrateEntry_single_list_origin data rd.field d ownD cls props c field e1 r
        hfield hcur h

/-- C23 on `Student.with(Course.through(Enrollment))`: `Enrollment` holds `course_id`. -/
theorem through_link_cardinality_witness :
    (Resolved.mk courseClass "course" "id" "course_id" none).column = "id" ∧
    (Resolved.mk courseClass "course" "id" "course_id" none).parentColumn = "course" ++ "_id" ∧
    getFieldsMap (EntityQueryJoin.create studentClass
        (Entity.through courseClass enrollmentClass {}) {}) =
      .ok ([FieldEntry.scalar "id" "id", FieldEntry.scalar "name" "name"] ++
            ([FieldEntry.scalar "id" "id", FieldEntry.scalar "studentId" "student_id",
              FieldEntry.scalar "courseId" "course_id"] ++
              [FieldEntry.nested (Resolved.mk courseClass "course" "id" "course_id" none).field
                courseClass MapType.single
                [FieldEntry.scalar "id" "id", FieldEntry.scalar "title" "title"]] ++
            [FieldEntry.nested
              (Resolved.mk enrollmentClass "enrollment" "student_id" "id" none).field
              enrollmentClass MapType.includeType []]),
           [Join.mk (Resolved.mk enrollmentClass "enrollment" "student_id" "id" none)
             [Join.mk (Resolved.mk courseClass "course" "id" "course_id" none) []]]) ∧
    (∀ (data : List Cell) (cls : EntityClass) (props : List (String × Val)) (c : Int)
        (field : String),
      resolveField (Val.entity cls props)
        (Resolved.mk courseClass "course" "id" "course_id" none).field courseClass =
          .ok field →
      isArray (lookupProp field props) = false →
      (rowAt data c = Val.null →
        ∃ r, hydrateEntry data (Val.entity cls props) c
            (FieldEntry.nested (Resolved.mk courseClass "course" "id" "course_id" none).field
              courseClass MapType.single
              [FieldEntry.scalar "id" "id", FieldEntry.scalar "title" "title"]) =
          .ok (Val.entity cls (assignProp field Val.null props), r)) ∧
      (strictEq (rowAt data c) Val.null = false → truthy (lookupProp field props) = false →
        ∃ propsD r, hydrateEntry data (Val.entity cls props) c
            (FieldEntry.nested (Resolved.mk courseClass "course" "id" "course_id" none).field
              courseClass MapType.single
              [FieldEntry.scalar "id" "id", FieldEntry.scalar "title" "title"]) =
          .ok (Val.entity cls (assignProp field (Val.entity courseClass propsD) props), r)) ∧
      (∀ (e1 : Val) (r : Int),
        hydrateEntry data (Val.entity cls props) c
            (FieldEntry.nested (Resolved.mk courseClass "course" "id" "course_id" none).field
              courseClass MapType.single
              [FieldEntry.scalar "id" "id", FieldEntry.scalar "title" "title"]) =
          .ok (e1, r) →
        ∃ props1, e1 = Val.entity cls props1 ∧
          (isArray (lookupProp field props1) = true →
            strictEq (rowAt data c) Val.null = false ∧
            truthy (lookupProp field props) = true ∧
            (∃ currentId, getProp (lookupProp field props) "id" = .ok currentId ∧
              strictEq currentId (rowAt data c) = false) ∧
            ∃ b, lookupProp field props1 = Val.array [lookupProp field props, b]))) :=
  through_link_cardinality studentClass enrollmentClass courseClass {} {}
    (Resolved.mk enrollmentClass "enrollment" "student_id" "id" none)
    (Resolved.mk courseClass "course" "id" "course_id" none) _ _ _ "course"
    rfl rfl rfl rfl rfl rfl rfl (by decide)

/-- On the sample trees the first call of `getFieldsMap` on the persistent objects returns
the field map and leaves the `#joins` that `getFieldsMap` on a fresh tree describes. -/
theorem first_call_agrees_example :
    (sampleTree.initialState.getFieldsMap).map (fun p => (p.1, p.2.getJoins)) =
      getFieldsMap sampleTree ∧
    (userPostCommentTree.initialState.getFieldsMap).map (fun p => (p.1, p.2.getJoins)) =
      getFieldsMap userPostCommentTree :=
  ⟨rfl, rfl⟩

theorem pushReference_length (pushed : Option Nat × Join) (joins : List (Option Nat × Join)) :
    (pushReference pushed joins).length = joins.length + 1 := by
  unfold pushReference
  split <;> simp [refreshJoins]

theorem compileChildrenState_length (parent : EntityClass) :
    ∀ (children : List (ChildState × JoinOptions)) (index : Nat)
      (joins : List (Option Nat × Join)) (entries : List FieldEntry)
      (children1 : List (ChildState × JoinOptions)) (joins1 : List (Option Nat × Join)),
      compileChildrenState parent index children joins = .ok (entries, children1, joins1) →
      joins1.length = joins.length + children.length ∧ children1.length = children.length
  | [], index, joins, entries, children1, joins1, h => by
    simp only [compileChildrenState] at h
    cases h
    exact ⟨rfl, rfl⟩
  | (child, options) :: rest, index, joins, entries, children1, joins1, h => by
    simp only [compileChildrenState] at h
    obtain ⟨⟨e1, pushed, child1⟩, -, h⟩ := bind_eq_ok h
    obtain ⟨⟨more, rest1, joins2⟩, hrest, h⟩ := bind_eq_ok h
    have e := pure_eq_ok h
    dsimp only at e
    obtain ⟨-, e2⟩ := Prod.mk.inj e
    obtain ⟨e3, e4⟩ := Prod.mk.inj e2
    subst e3 e4
    obtain ⟨ih1, ih2⟩ := compileChildrenState_length parent rest (index + 1) _ more rest1 joins2 hrest
    rw [pushReference_length] at ih1
    simp only [List.length_cons]
    omega

/-- C25. `getFieldsMap` pushes every resolved child onto `#joins` at each call and nothing
empties `#joins`: a returning call adds one element per attached relation to the ones
already there. For `User.with(Post)` (one relation) both calls return the same field
map, and `getJoins()` holds 1 join after the first call and 2 after the second. The
builder of the query is appended to as well: the first `execute` compiles one join
clause, the second hands the storage a builder with three, and with the columns of
`Post` selected three times. -/
theorem getFieldsMap_accumulates_joins :
    (∀ (node : NodeState) (fieldsMap : List FieldEntry) (node1 : NodeState),
      node.getFieldsMap = .ok (fieldsMap, node1) →
      node1.getJoins.length = node.getJoins.length + node.children.length) ∧
    userPostTree.initialState.children.length = 1 ∧
    (userPostTree.initialState.getFieldsMap >>= fun first =>
        first.2.getFieldsMap.map (fun second =>
          (first.2.getJoins.length, second.2.getJoins.length))) = .ok (1, 2) ∧
    (userPostTree.initialState.getFieldsMap).map (fun first => first.1) = .ok userPostMap ∧
    (userPostTree.initialState.getFieldsMap >>= fun first =>
        first.2.getFieldsMap.map (fun second => second.1)) = .ok userPostMap ∧
    (EntityQuery.newState userPostTree >>= fun query => query.compile >>= fun first =>
        first.2.compile.map (fun second =>
          (first.2.queryBuilder.join, second.2.queryBuilder.join))) =
      .ok (["LEFT JOIN post User_Post ON User_Post.user_id = User.id "],
           ["LEFT JOIN post User_Post ON User_Post.user_id = User.id ",
            "LEFT JOIN post User_Post ON User_Post.user_id = User.id ",
            "LEFT JOIN post User_Post ON User_Post.user_id = User.id "]) ∧
    (EntityQuery.newState userPostTree >>= fun query => query.compile >>= fun first =>
        first.2.compile.map (fun second =>
          (first.2.queryBuilder.select, second.2.queryBuilder.select))) =
      .ok (["User.id", "User.name", "User_Post.id", "User_Post.user_id"],
           ["User.id", "User.name", "User_Post.id", "User_Post.user_id",
            "User_Post.id", "User_Post.user_id", "User_Post.id", "User_Post.user_id"]) := by
  refine ⟨?_, rfl, rfl, rfl, rfl, rfl, rfl⟩
  intro node fieldsMap node1 h
  simp only [NodeState.getFieldsMap] at h
  obtain ⟨own, -, h⟩ := bind_eq_ok h
  obtain ⟨⟨sub, children1, joins1⟩, hsub, h⟩ := bind_eq_ok h
  have e := pure_eq_ok h
  dsimp only at e
  obtain ⟨-, e2⟩ := Prod.mk.inj e
  subst e2
  obtain ⟨h1, -⟩ := compileChildrenState_length node.entityClass node.children 0 node.joins
    sub children1 joins1 hsub
  simp only [NodeState.getJoins, List.length_map]
  exact h1

theorem refreshJoins_none (index : Nat) (node : Join) :
    ∀ joins : List (Option Nat × Join), (∀ e ∈ joins, ∀ i, e.1 = some i → i < index) →
      refreshJoins index node joins = joins
  | [], _ => rfl
  | e :: rest, h => by
    have he : e.1 ≠ some index := fun hh =>
      absurd (h e (List.mem_cons_self _ _) index hh) (Nat.lt_irrefl _)
    have ih := refreshJoins_none index node rest (fun x hx => h x (List.mem_cons_of_mem _ hx))
    unfold refreshJoins at ih ⊢
    simp [he, ih]

theorem pushReference_fresh (pushed : Option Nat × Join) (index : Nat)
    (joins : List (Option Nat × Join))
    (htag : pushed.1 = none ∨ pushed.1 = some index)
    (h : ∀ e ∈ joins, ∀ i, e.1 = some i → i < index) :
    pushReference pushed joins = joins ++ [pushed] ∧
      ∀ e ∈ pushReference pushed joins, ∀ i, e.1 = some i → i < index + 1 := by
  have h1 : pushReference pushed joins = joins ++ [pushed] := by
    unfold pushReference
    rcases htag with ht | ht
    · rw [ht]
    · rw [ht]
      simp only
      rw [refreshJoins_none index pushed.2 joins h]
  refine ⟨h1, ?_⟩
  rw [h1]
  intro e he i hi
  rcases List.mem_append.mp he with he | he
  · exact Nat.lt_succ_of_lt (h e he i hi)
  · simp only [List.mem_singleton] at he
    rw [he] at hi
    rcases htag with ht | ht
    · rw [ht] at hi
      cases hi
    · rw [ht] at hi
      cases hi
      exact Nat.lt_succ_self _

mutual
theorem compileChildState_initial (parent : EntityClass) (options : JoinOptions) (index : Nat) :
    ∀ (child : Child) (entries : List FieldEntry) (j : Join),
      compileChild parent options child = .ok (entries, j) →
      ∃ tag child1, compileChildState parent options index child.initialState =
          .ok (entries, (tag, j), child1) ∧ (tag = none ∨ tag = some index)
  | .entity cls, entries, j, h => by
    simp only [compileChild] at h
    obtain ⟨r, hr, h⟩ := bind_eq_ok h
    obtain ⟨own, hown, h⟩ := bind_eq_ok h
    have e := pure_eq_ok h
    try dsimp only at e
    refine ⟨none, ChildState.entity cls, ?_, Or.inl rfl⟩
    simp only [Child.initialState, compileChildState, hr, hown, bind, Except.bind, pure,
      Except.pure]
    rw [e]
  | .join type cls children, entries, j, h => by
    simp only [compileChild] at h
    obtain ⟨r, hr, h⟩ := bind_eq_ok h
    obtain ⟨own, hown, h⟩ := bind_eq_ok h
    obtain ⟨⟨sub, joins⟩, hsub, h⟩ := bind_eq_ok h
    have e := pure_eq_ok h
    try dsimp only at e
    obtain ⟨children1, joins1, hstate, hjoins⟩ :=
      compileChildrenState_initial cls children 0 [] sub joins (fun e he => by simp at he) hsub
    refine ⟨some index, ChildState.node type cls children1 joins1, ?_, Or.inr rfl⟩
    simp only [Child.initialState, compileChildState, hr, hown, hstate, bind, Except.bind,
      pure, Except.pure]
    rw [hjoins]
    simp only [List.map_nil, List.nil_append]
    rw [e]
  | .through dest joinTable topts, entries, j, h => by
    simp only [compileChild] at h
    obtain ⟨r, hr, h⟩ := bind_eq_ok h
    obtain ⟨own, hown, h⟩ := bind_eq_ok h
    obtain ⟨rd, hrd, h⟩ := bind_eq_ok h
    obtain ⟨downs, hdown, h⟩ := bind_eq_ok h
    have e := pure_eq_ok h
    try dsimp only at e
    refine ⟨none, ChildState.through dest joinTable topts, ?_, Or.inl rfl⟩
    simp only [Child.initialState, compileChildState, hr, hown, hrd, hdown, bind, Except.bind,
      pure, Except.pure]
    rw [e]
theorem compileChildrenState_initial (parent : EntityClass) :
    ∀ (children : List (Child × JoinOptions)) (index : Nat) (joins0 : List (Option Nat × Join))
      (entries : List FieldEntry) (joins : List Join),
      (∀ e ∈ joins0, ∀ i, e.1 = some i → i < index) →
      compileChildren parent children = .ok (entries, joins) →
      ∃ children1 joins1,
        compileChildrenState parent index (childrenInitialState children) joins0 =
          .ok (entries, children1, joins1) ∧
        joins1.map Prod.snd = joins0.map Prod.snd ++ joins
  | [], index, joins0, entries, joins, _, h => by
    simp only [compileChildren] at h
    cases h
    exact ⟨[], joins0, rfl, by simp⟩
  | (child, options) :: rest, index, joins0, entries, joins, htags, h => by
    simp only [compileChildren] at h
    obtain ⟨⟨e1, j⟩, h1, h⟩ := bind_eq_ok h
    obtain ⟨⟨more, js⟩, h2, h⟩ := bind_eq_ok h
    cases h
    obtain ⟨tag, child1, hc, htag⟩ :=
      compileChildState_initial parent options index child e1 j h1
    obtain ⟨hpush, htags1⟩ := pushReference_fresh (tag, j) index joins0 htag htags
    obtain ⟨rest1, joins1, hrest, hjoins⟩ :=
      compileChildrenState_initial parent rest (index + 1) (pushReference (tag, j) joins0)
        more js htags1 h2
    refine ⟨(child1, options) :: rest1, joins1, ?_, ?_⟩
    · simp only [childrenInitialState, compileChildrenState, hc, hrest, bind, Except.bind,
        pure, Except.pure]
    · rw [hjoins, hpush]
      simp
end

/-- The first call of `getFieldsMap` on the persistent objects of a freshly built tree
returns the field map and leaves the `#joins` that `getFieldsMap` describes. -/
theorem getFieldsMap_initialState (root : EntityQueryJoin) (fieldsMap : List FieldEntry)
    (joins : List Join) (h : getFieldsMap root = .ok (fieldsMap, joins)) :
    ∃ node1, root.initialState.getFieldsMap = .ok (fieldsMap, node1) ∧
      node1.getJoins = joins := by
  simp only [getFieldsMap] at h
  obtain ⟨own, hown, h⟩ := bind_eq_ok h
  obtain ⟨⟨sub, js⟩, hsub, h⟩ := bind_eq_ok h
  have e := pure_eq_ok h
  dsimp only at e
  obtain ⟨e1, e2⟩ := Prod.mk.inj e
  subst e1 e2
  obtain ⟨children1, joins1, hstate, hjoins⟩ :=
    compileChildrenState_initial root.entityClass root.children 0 [] sub js
      (fun e he => by simp at he) hsub
  refine ⟨NodeState.mk root.entityClass children1 joins1, ?_, ?_⟩
  · simp only [NodeState.getFieldsMap, EntityQueryJoin.initialState, hown, hstate, bind,
      Except.bind, pure, Except.pure]
  · simp only [NodeState.getJoins]
    rw [hjoins]
    rfl

/-- C10. For `User.getAll().with(Role).as(Person)` the method `as` writes `type = 'as'` on
the bare class `Person`, `join` wraps the class in a fresh node without `type`, and
`getFieldsMap` compiles `Person` as a nested `single` entry, not as flattened columns
with an include marker: hydrating a row stores a `Person` object under `user.person` and
leaves `user.firstname` undefined. With `as` as the first relation,
`User.getAll().as(Person)`, the same classes are flattened: `user.firstname` is set
and `user.person` stays undefined. -/
theorem as_after_relation_nests :
    (getFieldsMap memberRolePersonTree).map (fun p => p.1) =
      .ok [FieldEntry.scalar "id" "id", FieldEntry.scalar "name" "name",
        FieldEntry.scalar "roleId" "role_id", FieldEntry.scalar "personId" "person_id",
        FieldEntry.nested "role" roleClass MapType.single
          [FieldEntry.scalar "id" "id", FieldEntry.scalar "title" "title"],
        FieldEntry.nested "person" personClass MapType.single
          [FieldEntry.scalar "id" "id", FieldEntry.scalar "firstname" "firstname"]] ∧
    execute memberRolePersonTree
        (fun _ => .ok [[Cell.num 1, Cell.str "ann", Cell.num 5, Cell.num 9,
          Cell.num 5, Cell.str "admin", Cell.num 9, Cell.str "Ann"]]) =
      .ok [Val.entity memberClass [("id", Val.num 1), ("name", Val.str "ann"),
        ("roleId", Val.num 5), ("personId", Val.num 9),
        ("role", Val.entity roleClass [("id", Val.num 5), ("title", Val.str "admin")]),
        ("person", Val.entity personClass
          [("id", Val.num 9), ("firstname", Val.str "Ann")]),
        ("firstname", Val.undefined)]] ∧
    (getFieldsMap memberPersonTree).map (fun p => p.1) =
      .ok [FieldEntry.scalar "id" "id", FieldEntry.scalar "name" "name",
        FieldEntry.scalar "roleId" "role_id", FieldEntry.scalar "personId" "person_id",
        FieldEntry.scalar "id" "id", FieldEntry.scalar "firstname" "firstname",
        FieldEntry.nested "person" personClass MapType.includeType []] ∧
    execute memberPersonTree
        (fun _ => .ok [[Cell.num 1, Cell.str "ann", Cell.num 5, Cell.num 9,
          Cell.num 9, Cell.str "Ann"]]) =
      .ok [Val.entity memberClass [("id", Val.num 1), ("name", Val.str "ann"),
        ("roleId", Val.num 5), ("personId", Val.num 9),
        ("role", Val.undefined), ("person", Val.undefined),
        ("firstname", Val.str "Ann")]] :=
  ⟨rfl, rfl, rfl, rfl⟩

end NodeJsMysql
